import Mathlib

/-!
Shallow embedding of the m3cluster shard-placement engine
(package `algo`, file `placementhelper.go`) together with the
data model it operates on (`shard` / `placement` packages).

The algorithm file is embedded definition-by-definition from the source.
The data model (Shard, ShardSet, Instance, Placement, Options) is not part
of the source tree available here; those definitions are modelled from the
specification document, as marked in their doc comments.

Go's in-place mutation is modelled by explicit state passing: functions
that mutate a placement or a helper return the updated value, and a
function that can fail returns the updated state together with an
optional error, so that mutations performed before an error is raised
remain observable, exactly as they are through Go pointers.

Go map iteration order is unspecified; wherever the source iterates over a
map this embedding iterates in the (deterministic) order of the underlying
association list, which is one realizable schedule of the Go program.
-/

namespace M3

/-- Modelled from the spec: the four per-shard states
(`Unknown → Initializing → Available → Leaving`). -/
inductive ShardState
  | Unknown
  | Initializing
  | Available
  | Leaving
deriving DecidableEq, Repr

open ShardState

/-- Modelled from the spec: a shard value. `shard.NewShard(id)` yields
state Unknown, empty sourceID and zero timestamps. -/
structure Shard where
  sid : Nat
  state : ShardState := Unknown
  sourceID : String := ""
  cutoverNanos : Int := 0
  cutoffNanos : Int := 0
deriving DecidableEq, Repr

/-- `shard.NewShard(id)`. -/
def newShard (id : Nat) : Shard := { sid := id }

/-- Modelled from the spec: a ShardSet is an id-indexed collection with
unique shard ids; we model it as a list and `Add` replaces the entry of
the same id in place (or appends). -/
def addShard : List Shard → Shard → List Shard
  | [], s => [s]
  | t :: ts, s => if t.sid = s.sid then s :: ts else t :: addShard ts s

/-- Modelled from the spec: `ShardSet.Remove(id)`. -/
def removeShard (ss : List Shard) (id : Nat) : List Shard :=
  ss.filter (fun t => t.sid ≠ id)

/-- Modelled from the spec: `ShardSet.Shard(id)` lookup. -/
def findShard (ss : List Shard) (id : Nat) : Option Shard :=
  ss.find? (fun t => t.sid = id)

/-- Modelled from the spec: `ShardSet.ShardsForState(state)`. -/
def shardsForState (ss : List Shard) (st : ShardState) : List Shard :=
  ss.filter (fun t => t.state = st)

/-- Modelled from the spec: `ShardSet.NumShardsForState(state)`. -/
def numShardsForState (ss : List Shard) (st : ShardState) : Nat :=
  (shardsForState ss st).length

/-- Modelled from the spec: an instance: string id, rack (failure
domain), zone, weight (uint32) and its shard set. -/
structure Instance where
  iid : String
  rack : String
  zone : String := ""
  weight : Nat := 1
  shards : List Shard := []
deriving DecidableEq, Repr

/-- Modelled from the spec: `Instance.IsLeaving()` — every owned shard is
Leaving and the set is non-empty. -/
def Instance.isLeavingB (i : Instance) : Bool :=
  !i.shards.isEmpty && i.shards.all (fun s => s.state = Leaving)

/-- Modelled from the spec: a placement value. -/
structure Placement where
  instances : List Instance
  shards : List Nat := []
  replicaFactor : Nat := 0
  isSharded : Bool := true
  isMirrored : Bool := false
  cutoverNanos : Int := 0
deriving DecidableEq, Repr

/-- Modelled from the spec: `Placement.Instance(id)`. -/
def Placement.inst (p : Placement) (id : String) : Option Instance :=
  p.instances.find? (fun i => i.iid = id)

/-- Modelled from the spec: the Options callbacks relevant to the
algorithm.  The `isShardCutoverFn`/`isShardCutoffFn` gates are modelled as
optional functions returning an optional error message; the timestamp
functions are modelled as the constants they return during one operation. -/
structure Options where
  looseRackCheck : Bool := false
  allowPartialReplace : Bool := false
  isMirrored : Bool := false
  shardCutoverNanos : Int := 0
  shardCutoffNanos : Int := 0
  placementCutoverNanos : Int := 0
  isShardCutoverFn : Option (Shard → Option String) := none
  isShardCutoffFn : Option (Shard → Option String) := none

/-- Update the named instance of a list in place. -/
def updateInst (l : List Instance) (id : String) (f : Instance → Instance) :
    List Instance :=
  l.map (fun i => if i.iid = id then f i else i)

/-- `removeInstanceFromList`: the source finds the first instance with the
given id, swaps the last element of the slice into its slot and truncates.
This recursion computes exactly that result: when the first match is found
at the head of the remaining suffix, the last element of that suffix (the
last of the whole list) replaces it and the final slot is dropped. -/
def removeInstanceFromList : List Instance → String → List Instance
  | [], _ => []
  | i :: is, instanceID =>
    if i.iid = instanceID then
      match is.getLast? with
      | none => []
      | some lst => lst :: is.dropLast
    else i :: removeInstanceFromList is instanceID

/-- The final step of `markShardAvailable`: remove the Leaving shard from
the source instance, and drop the source instance from the placement when
it becomes shardless. -/
def markShardAvailableRemove (p1 : Placement) (sourceID : String)
    (shardID : Nat) : Placement × Option String :=
  let newInsts :=
    updateInst p1.instances sourceID
      (fun i => { i with shards := removeShard i.shards shardID })
  let p2 : Placement := { p1 with instances := newInsts }
  match p2.inst sourceID with
  | none => (p2, none)
  | some src =>
    if src.shards.length = 0 then
      ({ p2 with instances := removeInstanceFromList p2.instances sourceID },
        none)
    else (p2, none)

/-- The part of `markShardAvailable` after the cutover gate has accepted:
the target shard is replaced by an Available shard; then the Leaving
source shard is located, gated by the cutoff callback, and removed. -/
def markShardAvailablePast (p : Placement) (instanceID : String)
    (shardID : Nat) (opts : Options) (s : Shard) : Placement × Option String :=
  let sourceID := s.sourceID
  let newInsts :=
    updateInst p.instances instanceID
      (fun i =>
        { i with shards := addShard i.shards { sid := shardID, state := Available } })
  let p1 : Placement := { p with instances := newInsts }
  if sourceID = "" then (p1, none)
  else
    match p1.inst sourceID with
    | none => (p1, some "source instance for shard does not exist in placement")
    | some sourceInstance =>
      match findShard sourceInstance.shards shardID with
      | none => (p1, some "shard does not exist in source instance")
      | some leavingShard =>
        if leavingShard.state ≠ Leaving then
          (p1, some "shard is not leaving instance")
        else
          match opts.isShardCutoffFn with
          | some f =>
            match f leavingShard with
            | some e => (p1, some e)
            | none => markShardAvailableRemove p1 sourceID shardID
          | none => markShardAvailableRemove p1 sourceID shardID

/-- `markShardAvailable` (source lines 753–811), with Go's in-place
mutation of the placement made explicit: the first component is the state
of `p` as the caller sees it after the call (on the Go error paths the
function itself returns `nil`, but the caller still holds the possibly
mutated `p`), and the second component is the error, if any. -/
def markShardAvailable (p : Placement) (instanceID : String) (shardID : Nat)
    (opts : Options) : Placement × Option String :=
  match p.inst instanceID with
  | none => (p, some "instance does not exist in placement")
  | some inst' =>
    match findShard inst'.shards shardID with
    | none => (p, some "shard does not exist in instance")
    | some s =>
      if s.state ≠ Initializing then
        (p, some "could not mark shard as available, not in Initializing state")
      else
        match opts.isShardCutoverFn with
        | some f =>
          match f s with
          | some e => (p, some e)
          | none => markShardAvailablePast p instanceID shardID opts s
        | none => markShardAvailablePast p instanceID shardID opts s

/-- Inner loop of `markAllShardsAvailable`: fold `markShardAvailable` over
one instance's snapshot of shards, stopping at the first error. -/
def markAllInner (opts : Options) (iid : String) :
    Placement → List Shard → Placement × Option String
  | cur, [] => (cur, none)
  | cur, s :: ss =>
    if s.state = Initializing then
      match markShardAvailable cur iid s.sid opts with
      | (cur', none) => markAllInner opts iid cur' ss
      | (cur', some e) => (cur', some e)
    else markAllInner opts iid cur ss

/-- Outer loop of `markAllShardsAvailable` over the instance ids captured
at entry; each instance's shard snapshot is taken at its turn. -/
def markAllOuter (opts : Options) :
    Placement → List String → Placement × Option String
  | cur, [] => (cur, none)
  | cur, iid :: rest =>
    match cur.inst iid with
    | none => markAllOuter opts cur rest
    | some i =>
      match markAllInner opts iid cur i.shards with
      | (cur', none) => markAllOuter opts cur' rest
      | (cur', some e) => (cur', some e)

/-- `markAllShardsAvailable` (source lines 813–827): clones the placement,
then folds `markShardAvailable` over every Initializing shard.  Because of
the clone, the caller-visible input is unchanged whenever an error is
returned: the first component on the error paths is the original
placement. -/
def markAllShardsAvailable (p : Placement) (opts : Options) :
    Placement × Option String :=
  match markAllOuter opts p (p.instances.map Instance.iid) with
  | (cur, none) => (cur, none)
  | (_, some e) => (p, some e)

/-- A placement holding one instance whose Initializing shard names a
source instance that is no longer present ("graceful forget", allowed by
the placement invariants). -/
def pOrphanSource : Placement :=
  { instances := [
      { iid := "i1", rack := "r1",
        shards := [{ sid := 0, state := Initializing, sourceID := "gone" }] } ] }

/-- A second placement of the same shape (used for a distinct claim). -/
def pOrphanSource2 : Placement :=
  { instances := [
      { iid := "a1", rack := "r1",
        shards := [{ sid := 3, state := Initializing, sourceID := "ghost" }] } ] }

/-- The empty placement. -/
def pEmpty : Placement := { instances := [] }

/-- A healthy handoff pair: `i1` initializes shard 0 from `i2`, whose only
shard is the matching Leaving copy. -/
def pHandoff : Placement :=
  { instances := [
      { iid := "i1", rack := "r1",
        shards := [{ sid := 0, state := Initializing, sourceID := "i2" }] },
      { iid := "i2", rack := "r2",
        shards := [{ sid := 0, state := Leaving, cutoffNanos := 5 }] } ] }

/-! ## The placement helper

`placementHelper` carries mutable indices (`shardToInstanceMap`,
`rackToWeightMap`, `targetLoad`) plus the instances it manages.  Instances
referenced through Go pointers but not present in the helper's map (for
example an instance already removed from the placement, passed as `from`
to `PlaceShards`) live in `detached`.  `shardToInstanceMap` maps a shard id
to the ids of the owning instances. -/
structure HelperState where
  instances : List Instance
  detached : List Instance := []
  s2i : List (Nat × List String) := []
  targetLoad : List (String × Int) := []
  rackToWeight : List (String × Nat) := []
  totalWeight : Nat := 0
  rf : Nat := 1
  uniqueShards : List Nat := []
  opts : Options := {}

/-- Lookup in the shard-to-instances index (a missing key is the empty
set, as for a Go map). -/
def s2iGet (m : List (Nat × List String)) (d : Nat) : List String :=
  match m.find? (fun e => e.1 = d) with
  | some e => e.2
  | none => []

/-- Replace (or create) the owner set of one shard id. -/
def s2iSet (m : List (Nat × List String)) (d : Nat) (owners : List String) :
    List (Nat × List String) :=
  match m with
  | [] => [(d, owners)]
  | e :: es => if e.1 = d then (d, owners) :: es else e :: s2iSet es d owners

/-- `ph.shardToInstanceMap[s.ID()][to] = struct{}{}` — add an owner. -/
def s2iAddOwner (m : List (Nat × List String)) (d : Nat) (oid : String) :
    List (Nat × List String) :=
  let owners := s2iGet m d
  s2iSet m d (if oid ∈ owners then owners else owners ++ [oid])

/-- `delete(ph.shardToInstanceMap[shardID], from)` — remove an owner. -/
def s2iRemoveOwner (m : List (Nat × List String)) (d : Nat) (oid : String) :
    List (Nat × List String) :=
  s2iSet m d ((s2iGet m d).filter (fun o => o ≠ oid))

/-- Dereference an instance id: the helper's own instances first, then the
externally held ones. -/
def lookupInst (st : HelperState) (id : String) : Option Instance :=
  match st.instances.find? (fun i => i.iid = id) with
  | some i => some i
  | none => st.detached.find? (fun i => i.iid = id)

/-- In-place mutation of the instance behind a pointer: update it wherever
it lives. -/
def stUpdateInst (st : HelperState) (id : String) (f : Instance → Instance) :
    HelperState :=
  { st with instances := updateInst st.instances id f,
            detached := updateInst st.detached id f }

/-- The scan part of `HasRackConflict`: some recorded owner of the shard
sits on the target rack. -/
def rackScanConflict (st : HelperState) (d : Nat) (toRack : String) : Bool :=
  (s2iGet st.s2i d).any (fun oid =>
    match lookupInst st oid with
    | some o => o.rack = toRack
    | none => false)

/-- `HasRackConflict` (source lines 351–363). -/
def hasRackConflict (st : HelperState) (d : Nat) (fro : Option String)
    (toRack : String) : Bool :=
  match fro with
  | some fid =>
    match lookupInst st fid with
    | some f => if f.rack = toRack then false else rackScanConflict st d toRack
    | none => rackScanConflict st d toRack
  | none => rackScanConflict st d toRack

/-- `canAssignInstance` (source lines 584–596). -/
def canAssignInstance (st : HelperState) (d : Nat) (fro : Option String)
    (toI : Instance) : Bool :=
  match findShard toI.shards d with
  | some s =>
    if s.state ≠ Leaving then false
    else st.opts.looseRackCheck || !hasRackConflict st d fro toI.rack
  | none => st.opts.looseRackCheck || !hasRackConflict st d fro toI.rack

/-- `assignShardToInstance` (source lines 598–605). -/
def assignShardToInstance (st : HelperState) (s : Shard) (toId : String) :
    HelperState :=
  let st1 := stUpdateInst st toId (fun i => { i with shards := addShard i.shards s })
  { st1 with s2i := s2iAddOwner st1.s2i s.sid toId }

/-- The Available→Leaving stamp performed on the source's shard object
(`SetState(Leaving).SetCutoffNanos(...)`). -/
def stampLeavingT (d : Nat) (cutoff : Int) (t : Shard) : Shard :=
  if t.sid = d then { t with state := Leaving, cutoffNanos := cutoff } else t

/-- The sourceID-clearing performed on a linked shard object
(`initShard.SetSourceID("")`). -/
def clearLinkT (d : Nat) (toId : String) (t : Shard) : Shard :=
  if t.sid = d ∧ t.sourceID = toId then { t with sourceID := "" } else t

/-- The `from != nil` block of `moveShard`: an Unknown/Initializing shard
is removed from `from` (the new shard inheriting its sourceID); an
Available shard on `from` is stamped Leaving with `cutoffNanos` (the new
shard getting `sourceID = from.ID()`); and `from` is deleted from the
owner index. -/
def moveShardFromBlock (st : HelperState) (cand : Shard) (fid : String) :
    HelperState × Shard :=
  let stf :=
    match cand.state with
    | Unknown | Initializing =>
      stUpdateInst st fid (fun i => { i with shards := removeShard i.shards cand.sid })
    | Available =>
      stUpdateInst st fid (fun i =>
        { i with shards :=
            i.shards.map (stampLeavingT cand.sid st.opts.shardCutoffNanos) })
    | Leaving => st
  let ns : Shard :=
    match cand.state with
    | Unknown | Initializing => { sid := cand.sid, sourceID := cand.sourceID }
    | Available => { sid := cand.sid, sourceID := fid }
    | Leaving => { sid := cand.sid }
  ({ stf with s2i := s2iRemoveOwner stf.s2i cand.sid fid }, ns)

/-- The reclaim branch of `moveShard`: clear the `sourceID` link of every
recorded owner's shard of the same id that points at `to`. -/
def clearSourceLinks (st : HelperState) (d : Nat) (toId : String) :
    HelperState :=
  (s2iGet st.s2i d).foldl
    (fun acc oid =>
      stUpdateInst acc oid (fun i =>
        { i with shards := i.shards.map (clearLinkT d toId) }))
    st

/-- `moveShard` (source lines 301–349), in state-passing form; the Bool is
the Go return value. -/
def moveShard (st : HelperState) (cand : Shard) (fro : Option String)
    (toId : String) : HelperState × Bool :=
  match lookupInst st toId with
  | none => (st, false)
  | some toI =>
    if !canAssignInstance st cand.sid fro toI then (st, false)
    else if cand.state = Leaving then (st, false)
    else
      let (st1, ns) :=
        match fro with
        | none => (st, ({ sid := cand.sid } : Shard))
        | some fid => moveShardFromBlock st cand fid
      match lookupInst st1 toId with
      | none => (assignShardToInstance st1 ns toId, true)
      | some to1 =>
        match findShard to1.shards cand.sid with
        | some cur =>
          if cur.state = Leaving then
            let st2 := clearSourceLinks st1 cand.sid toId
            (assignShardToInstance st2
              { sid := cand.sid, state := Available } toId, true)
          else (assignShardToInstance st1 ns toId, true)
        | none => (assignShardToInstance st1 ns toId, true)

/-- `loadOnInstance` (source lines 718–720). -/
def loadOnInstance (i : Instance) : Int :=
  (i.shards.length : Int) - (numShardsForState i.shards Leaving : Int)

/-- `targetLoadForInstance`: a Go map read with zero default. -/
def targetLoadOf (st : HelperState) (id : String) : Int :=
  match st.targetLoad.find? (fun e => e.1 = id) with
  | some e => e.2
  | none => 0

/-- `rackToWeightMap` read with zero default. -/
def rackWeightOf (st : HelperState) (rack : String) : Nat :=
  match st.rackToWeight.find? (fun e => e.1 = rack) with
  | some e => e.2
  | none => 0

/-- `nonLeavingInstances` (source lines 722–732), tracked by id. -/
def nonLeavingIds (st : HelperState) (ids : List String) : List String :=
  ids.filter (fun id =>
    match lookupInst st id with
    | some i => !i.isLeavingB
    | none => false)

/-! ### The instance heap (`container/heap` on `instanceHeap`) -/

/-- `instanceHeap.Less` (source lines 639–656), reading the current
instance state behind the stored pointers. -/
def heapLess (st : HelperState) (asc : Bool) (iId jId : String) : Bool :=
  let a := (lookupInst st iId).getD { iid := iId, rack := "" }
  let b := (lookupInst st jId).getD { iid := jId, rack := "" }
  let leftI := targetLoadOf st iId - loadOnInstance a
  let leftJ := targetLoadOf st jId - loadOnInstance b
  if leftI > 0 ∧ leftJ > 0 ∧ a.rack ≠ b.rack then
    rackWeightOf st a.rack > rackWeightOf st b.rack
  else if asc then leftI > leftJ
  else leftI < leftJ

/-- Array read of the heap slice. -/
def hGet (l : List String) (n : Nat) : String := l.getD n ""

/-- `Swap`. -/
def hSwap (l : List String) (i j : Nat) : List String :=
  (l.set i (hGet l j)).set j (hGet l i)

/-- `container/heap`'s `down`, with fuel (the index strictly increases, so
`l.length` steps always suffice). -/
def siftDown (st : HelperState) (asc : Bool) :
    Nat → List String → Nat → Nat → List String
  | 0, l, _, _ => l
  | fuel + 1, l, i, n =>
    let j1 := 2 * i + 1
    if j1 ≥ n then l
    else
      let j := if j1 + 1 < n ∧ heapLess st asc (hGet l (j1 + 1)) (hGet l j1)
        then j1 + 1 else j1
      if !heapLess st asc (hGet l j) (hGet l i) then l
      else siftDown st asc fuel (hSwap l i j) j n

/-- `container/heap`'s `up`, with fuel. -/
def siftUp (st : HelperState) (asc : Bool) :
    Nat → List String → Nat → List String
  | 0, l, _ => l
  | fuel + 1, l, j =>
    let i := (j - 1) / 2
    if i = j ∨ !heapLess st asc (hGet l j) (hGet l i) then l
    else siftUp st asc fuel (hSwap l i j) i

/-- `heap.Init`: `down` from `n/2 - 1` to `0`; the argument counts `i+1`. -/
def heapInitGo (st : HelperState) (asc : Bool) (l : List String) :
    Nat → List String
  | 0 => l
  | k + 1 => heapInitGo st asc (siftDown st asc l.length l k l.length) k

/-- `newHeap` + `heap.Init` (the source's `newHeap` never errors). -/
def heapInit (st : HelperState) (asc : Bool) (l : List String) : List String :=
  heapInitGo st asc l (l.length / 2)

/-- `heap.Push`. -/
def heapPush (st : HelperState) (asc : Bool) (l : List String) (v : String) :
    List String :=
  siftUp st asc (l.length + 1) (l ++ [v]) l.length

/-- `heap.Pop`: swap the root to the end, sift down over the shortened
prefix, then remove and return the last element. -/
def heapPop (st : HelperState) (asc : Bool) (l : List String) :
    String × List String :=
  let n := l.length - 1
  let l1 := hSwap l 0 n
  let l2 := siftDown st asc (l.length + 1) l1 0 n
  (l2.getLast?.getD "", l2.dropLast)

/-! ### Shard placement primitives over the helper -/

/-- `getShardMap` (source lines 709–716): a Go map keyed by shard id built
left to right; later duplicates overwrite in place.  The iteration order
used for it downstream is first-occurrence order. -/
def getShardMapL (shards : List Shard) : List Shard :=
  shards.foldl addShard []

/-- `returnInitializingShardsToSource` (source lines 446–476): returns the
updated state and the shards remaining in the working set. -/
def returnInitShards (st : HelperState) (froId : String)
    (candidateIds : List String) :
    List Shard → HelperState × List Shard
  | [] => (st, [])
  | s :: rest =>
    if s.state = Initializing ∧ s.sourceID ≠ "" ∧
        s.sourceID ∈ candidateIds then
      match lookupInst st s.sourceID with
      | none =>
        let (st', rest') := returnInitShards st froId candidateIds rest
        (st', s :: rest')
      | some src =>
        if src.isLeavingB then
          let (st', rest') := returnInitShards st froId candidateIds rest
          (st', s :: rest')
        else
          match moveShard st s (some froId) s.sourceID with
          | (st1, true) => returnInitShards st1 froId candidateIds rest
          | (st1, false) =>
            let (st', rest') := returnInitShards st1 froId candidateIds rest
            (st', s :: rest')
    else
      let (st', rest') := returnInitShards st froId candidateIds rest
      (st', s :: rest')

/-- The pop-until-placed loop of `PlaceShards` for one shard, returning
the state, the remaining heap, the instances popped so far and whether the
shard was placed.  Each pop shortens the heap by one element, so the fuel
`heap.length + 1` supplied by the caller is never exhausted. -/
def placeTry (froId : Option String) (s : Shard) :
    Nat → HelperState → List String → List String →
    HelperState × List String × List String × Bool
  | 0, st, heap, tried => (st, heap, tried, false)
  | fuel + 1, st, heap, tried =>
    if heap = [] then (st, heap, tried, false)
    else
      let (tid, heap') := heapPop st true heap
      match moveShard st s froId tid with
      | (st1, true) => (st1, heap', tried ++ [tid], true)
      | (st1, false) => placeTry froId s fuel st1 heap' (tried ++ [tid])

/-- Outer loop of `PlaceShards` over the working set. -/
def placeLoop (froId : Option String) :
    HelperState → List Shard → List String → HelperState × Option String
  | st, [], _ => (st, none)
  | st, s :: rest, heap =>
    if s.state = Leaving then placeLoop froId st rest heap
    else
      match placeTry froId s (heap.length + 1) st heap [] with
      | (st1, heap', tried, true) =>
        placeLoop froId st1 rest (tried.foldl (heapPush st1 true) heap')
      | (st1, _, _, false) => (st1, some "not enough racks")

/-- `PlaceShards` (source lines 397–439). -/
def placeShards (st : HelperState) (shards : List Shard)
    (froId : Option String) (candidateIds : List String) :
    HelperState × Option String :=
  let ws0 := getShardMapL shards
  let (st1, ws) :=
    match froId with
    | some f => returnInitShards st f candidateIds ws0
    | none => (st, ws0)
  let heap0 := heapInit st1 true (nonLeavingIds st1 candidateIds)
  placeLoop froId st1 ws heap0

/-- Instrumented twin of the `PlaceShards` outer loop: same recursion,
but when a shard exhausts the heap it records the state and heap at the
start of that shard's attempt together with the failing shard, instead
of just the error string. -/
def placeLoopT (froId : Option String) :
    HelperState → List Shard → List String →
    HelperState × Option (HelperState × List String × Shard)
  | st, [], _ => (st, none)
  | st, s :: rest, heap =>
    if s.state = Leaving then placeLoopT froId st rest heap
    else
      match placeTry froId s (heap.length + 1) st heap [] with
      | (st1, heap2, tried, true) =>
        placeLoopT froId st1 rest (tried.foldl (heapPush st1 true) heap2)
      | (st1, _, _, false) => (st1, some (st, heap, s))

/-- `PlaceShards` run through the instrumented loop. -/
def placeShardsT (st : HelperState) (shards : List Shard)
    (froId : Option String) (candidateIds : List String) :
    HelperState × Option (HelperState × List String × Shard) :=
  let ws0 := getShardMapL shards
  let (st1, ws) :=
    match froId with
    | some f => returnInitShards st f candidateIds ws0
    | none => (st, ws0)
  let heap0 := heapInit st1 true (nonLeavingIds st1 candidateIds)
  placeLoopT froId st1 ws heap0

/-- Two empty instances on distinct racks: a fresh shard placed among
them succeeds. -/
def stP7 : HelperState :=
  { instances := [{ iid := "p", rack := "r1" }, { iid := "q", rack := "r2" }] }

/-- The fresh shard placed in the witness run. -/
def sh7 : Shard := { sid := 3 }

/-- `ReturnInitializingShards` (source lines 441–444): step 1 of
`PlaceShards` applied to all of the instance's shards, with all helper
instances as candidates. -/
def returnInitializingShards (st : HelperState) (instId : String) :
    HelperState :=
  match lookupInst st instId with
  | none => st
  | some i =>
    (returnInitShards st instId (st.instances.map Instance.iid)
      (getShardMapL i.shards)).1

/-- One attempt list of `moveOneShardInState` (source lines 292–299): try
each shard of the snapshot until a move succeeds. -/
def tryMoveShards (fid tid : String) :
    HelperState → List Shard → HelperState × Bool
  | st, [] => (st, false)
  | st, s :: rest =>
    match moveShard st s (some fid) tid with
    | (st1, true) => (st1, true)
    | (st1, false) => tryMoveShards fid tid st1 rest

/-- `moveOneShardInState`. -/
def moveOneShardInState (st : HelperState) (fid tid : String)
    (state : ShardState) : HelperState × Bool :=
  match lookupInst st fid with
  | none => (st, false)
  | some f => tryMoveShards fid tid st (shardsForState f.shards state)

/-- `moveOneShard` (source lines 281–289): Unknown, then Initializing,
then Available. -/
def moveOneShard (st : HelperState) (fid tid : String) : HelperState × Bool :=
  match moveOneShardInState st fid tid Unknown with
  | (st1, true) => (st1, true)
  | (st1, false) =>
    match moveOneShardInState st1 fid tid Initializing with
    | (st2, true) => (st2, true)
    | (st2, false) => moveOneShardInState st2 fid tid Available

/-- The two optimize modes (the source calls them `safe` and `unsafe`). -/
inductive OptimizeType
  | safeMode
  | fullMode
deriving DecidableEq, Repr

/-- The shard mover used by `assignTargetLoad` for each mode:
`assignLoadToInstanceSafe` moves only Unknown shards, the unsafe variant
uses `moveOneShard`. -/
def moverFor (t : OptimizeType) (st : HelperState) (fid tid : String) :
    HelperState × Bool :=
  match t with
  | OptimizeType.safeMode => moveOneShardInState st fid tid Unknown
  | OptimizeType.fullMode => moveOneShard st fid tid

/-- The steal loop of `assignTargetLoad` (source lines 575–580).  Each
iteration either discards a popped instance, converts one of the target's
Leaving shards, or raises the target's shard count, so the fuel supplied
by `assignTargetLoad` is never exhausted. -/
def assignLoop (t : OptimizeType) (targetId : String) (tl : Int) :
    Nat → HelperState → List String → HelperState
  | 0, st, _ => st
  | fuel + 1, st, heap =>
    let cnt : Int :=
      match lookupInst st targetId with
      | some i => (i.shards.length : Int)
      | none => 0
    if cnt < tl ∧ heap ≠ [] then
      let (fid, heap') := heapPop st false heap
      match moverFor t st fid targetId with
      | (st1, true) => assignLoop t targetId tl fuel st1 (heapPush st1 false heap' fid)
      | (st1, false) => assignLoop t targetId tl fuel st1 heap'
    else st

/-- `assignTargetLoad` (source lines 565–582). -/
def assignTargetLoad (st : HelperState) (targetId : String)
    (t : OptimizeType) : HelperState :=
  let tl := targetLoadOf st targetId
  let heap0 := heapInit st false
    (nonLeavingIds st (st.instances.map Instance.iid))
  let fuel := st.instances.length + tl.natAbs +
    (match lookupInst st targetId with
     | some i => i.shards.length
     | none => 0) + 1
  assignLoop t targetId tl fuel st heap0

/-- `mostUnderLoadedInstance` (source lines 478–496), iterating the
instance map in list order with the source's strict `>` comparison. -/
def mostUnderLoadedInstance (st : HelperState) : Option String :=
  let r := st.instances.foldl
    (fun (acc : Option String × Int) i =>
      let gap := targetLoadOf st i.iid - loadOnInstance i
      if gap > acc.2 then (some i.iid, gap) else acc)
    (none, 0)
  if r.2 > 0 then r.1 else none

/-- The loop of `optimize` (source lines 509–525): stop when no instance
is under target or when a pick recurs; each iteration adds a fresh id to
`uniq`, so the fuel `instances.length + 1` is never exhausted. -/
def optimizeLoop (t : OptimizeType) :
    Nat → HelperState → List String → HelperState
  | 0, st, _ => st
  | fuel + 1, st, uniq =>
    match mostUnderLoadedInstance st with
    | none => st
    | some id =>
      if id ∈ uniq then st
      else optimizeLoop t fuel (assignTargetLoad st id t) (id :: uniq)

/-- `Optimize` (source lines 498–525); the source's error is always nil
since `newHeap` never fails. -/
def optimizeState (st : HelperState) (t : OptimizeType) : HelperState :=
  optimizeLoop t (st.instances.length + 1) st []

/-- Inner scan of `ReclaimLeavingShards`: over one instance's snapshot of
Initializing shards. -/
def reclaimInner (fid targetId : String) :
    HelperState → List Shard → HelperState
  | st, [] => st
  | st, s :: rest =>
    if s.sourceID = targetId then
      reclaimInner fid targetId (moveShard st s (some fid) targetId).1 rest
    else reclaimInner fid targetId st rest

/-- Outer scan of `ReclaimLeavingShards` over the instance ids, taking
each instance's Initializing snapshot at its turn. -/
def reclaimOuter (targetId : String) :
    HelperState → List String → HelperState
  | st, [] => st
  | st, fid :: rest =>
    match lookupInst st fid with
    | none => reclaimOuter targetId st rest
    | some f =>
      reclaimOuter targetId
        (reclaimInner fid targetId st (shardsForState f.shards Initializing))
        rest

/-- `ReclaimLeavingShards` (source lines 539–558). -/
def reclaimLeavingShards (st : HelperState) (targetId : String) :
    HelperState :=
  match lookupInst st targetId with
  | none => st
  | some i =>
    if numShardsForState i.shards Leaving = 0 then st
    else reclaimOuter targetId st (st.instances.map Instance.iid)

/-- Instrumented twin of `reclaimInner`: same recursion, but it also
records each shard passed to `moveShard` together with the verdict. -/
def reclaimInnerT (fid targetId : String) :
    HelperState → List Shard → HelperState × List (Shard × Bool)
  | st, [] => (st, [])
  | st, s :: rest =>
    if s.sourceID = targetId then
      ((reclaimInnerT fid targetId (moveShard st s (some fid) targetId).1
          rest).1,
        (s, (moveShard st s (some fid) targetId).2) ::
          (reclaimInnerT fid targetId (moveShard st s (some fid) targetId).1
            rest).2)
    else reclaimInnerT fid targetId st rest

/-- Instrumented twin of `reclaimOuter`: records, per scanned instance
id, the attempts of its inner scan. -/
def reclaimOuterT (targetId : String) :
    HelperState → List String → HelperState × List (String × Shard × Bool)
  | st, [] => (st, [])
  | st, fid :: rest =>
    match lookupInst st fid with
    | none => reclaimOuterT targetId st rest
    | some f =>
      ((reclaimOuterT targetId
          (reclaimInnerT fid targetId st
            (shardsForState f.shards Initializing)).1 rest).1,
        (reclaimInnerT fid targetId st
            (shardsForState f.shards Initializing)).2.map
            (fun e => (fid, e)) ++
          (reclaimOuterT targetId
            (reclaimInnerT fid targetId st
              (shardsForState f.shards Initializing)).1 rest).2)

/-- An Initializing shard on another instance whose handoff source is
instance t. -/
def shard9 : Shard := { sid := 7, state := Initializing, sourceID := "t" }

/-- The reclaim target: no Leaving shards at all. -/
def tInst9 : Instance := { iid := "t", rack := "rt" }

/-- The other instance, holding `shard9`. -/
def oInst9 : Instance := { iid := "o", rack := "ro", shards := [shard9] }

/-- State exercising the `NumShardsForState(Leaving) == 0` shortcut. -/
def st9 : HelperState := { instances := [tInst9, oInst9] }

/-- A target that does hold a Leaving shard, plus the same orphan. -/
def tInst9w : Instance :=
  { iid := "t", rack := "rt", shards := [{ sid := 7, state := Leaving }] }

/-- State for the witness: the guard of the amended claim holds. -/
def st9w : HelperState := { instances := [tInst9w, oInst9] }

/-- Two unplaced shards on a, with targets that over-allocate (b wants
1, c wants 2, but only 2 shards exist): the optimize passes oscillate. -/
def stOsc : HelperState :=
  { instances :=
      [{ iid := "a", rack := "r", shards := [{ sid := 5 }, { sid := 7 }] },
       { iid := "b", rack := "r" },
       { iid := "c", rack := "r" }],
    s2i := [(5, ["a"]), (7, ["a"])],
    targetLoad := [("a", 0), ("b", 1), ("c", 2)] }

/-- The state after one optimize pass on `stOsc`: b holds shard 5 and
c holds shard 7. -/
def oscRun1 : HelperState :=
  { instances :=
      [{ iid := "a", rack := "r" },
       { iid := "b", rack := "r", shards := [{ sid := 5 }] },
       { iid := "c", rack := "r", shards := [{ sid := 7 }] }],
    s2i := [(5, ["b"]), (7, ["c"])],
    targetLoad := [("a", 0), ("b", 1), ("c", 2)] }

/-- The state after a second optimize pass: the two shards swapped. -/
def oscRun2 : HelperState :=
  { instances :=
      [{ iid := "a", rack := "r" },
       { iid := "b", rack := "r", shards := [{ sid := 7 }] },
       { iid := "c", rack := "r", shards := [{ sid := 5 }] }],
    s2i := [(5, ["c"]), (7, ["b"])],
    targetLoad := [("a", 0), ("b", 1), ("c", 2)] }

/-- `PlacementHelper.AddInstance` (source lines 560–563). -/
def helperAddInstance (st : HelperState) (instId : String) : HelperState :=
  assignTargetLoad (reclaimLeavingShards st instId) instId
    OptimizeType.fullMode

/-- A one-instance helper state used as a concrete witness input. -/
def stTiny : HelperState := { instances := [{ iid := "t1", rack := "r1" }] }

/-- The instance of `stTiny`. -/
def instT1 : Instance := { iid := "t1", rack := "r1" }

/-- A fresh Unknown shard used as a concrete witness input. -/
def candTiny : Shard := { sid := 5 }

/-- An instance owns the shard id in a state other than Leaving (the
ownership that `scanCurrentLoad` indexes). -/
def ownsNonLeavingB (i : Instance) (d : Nat) : Bool :=
  (findShard i.shards d).any (fun t => t.state ≠ Leaving)

/-- Rack diversity: no two distinct instances on one rack both own the
same shard id in a state other than Leaving. -/
def rackDiversityOk (l : List Instance) : Prop :=
  ∀ i ∈ l, ∀ j ∈ l, i.iid ≠ j.iid → i.rack = j.rack →
    ∀ d, ¬(ownsNonLeavingB i d = true ∧ ownsNonLeavingB j d = true)

/-- The shard-to-instances index agrees with actual non-Leaving ownership
on the helper's instances (what `scanCurrentLoad` establishes and
`moveShard` maintains). -/
def s2iConsistent (st : HelperState) : Prop :=
  ∀ d, ∀ i ∈ st.instances,
    (i.iid ∈ s2iGet st.s2i d ↔ ownsNonLeavingB i d = true)

/-! ### Exact model of the binary64 arithmetic in isRackOverWeight -/

/-- Round a rational to the nearest integer, ties to even (the IEEE-754
default rounding applied to a scaled significand). -/
def rhe (s : ℚ) : ℤ :=
  let n := ⌊s⌋
  if s - n < 1/2 then n
  else if 1/2 < s - n then n + 1
  else if n % 2 = 0 then n else n + 1

/-- Round a positive rational to the nearest binary64 value: scale into
the binade [2^52, 2^53) by the base-2 logarithm, round the significand
to an integer ties-to-even, and scale back.  The inputs reaching it here
(uint32 weights, a positive int replica factor, and their quotients) all
lie far inside the normal range, so no overflow or subnormal handling is
needed. -/
def rndPos (q : ℚ) : ℚ :=
  (rhe (q * 2 ^ (52 - Int.log 2 q)) : ℚ) * 2 ^ (Int.log 2 q - 52)

/-- Round a rational to the nearest binary64 value. -/
def rnd (q : ℚ) : ℚ :=
  if 0 < q then rndPos q else if q < 0 then -rndPos (-q) else 0

/-- The fragment of IEEE-754 binary64 exercised by `isRackOverWeight` on
its nonnegative operands: NaN, +Inf, and exact finite values.  Operand
shapes that integer conversions cannot produce are collapsed to NaN and
never arise below. -/
inductive F64 where
  | nan : F64
  | pinf : F64
  | fin : ℚ → F64
deriving DecidableEq, Repr

/-- `float64(x)` for a uint32 operand (always exact: uint32 < 2^53). -/
def f64ofNat (n : ℕ) : F64 := F64.fin (rnd n)

/-- `float64(x)` for an int operand (rounded once the value exceeds
2^53). -/
def f64ofInt (c : ℤ) : F64 := F64.fin (rnd c)

/-- IEEE binary64 division on the nonnegative finite fragment: 0/0 is
NaN, x/0 with x > 0 is +Inf, and a finite quotient is rounded to
nearest-even. -/
def f64div : F64 → F64 → F64
  | F64.fin a, F64.fin b =>
      if b = 0 then (if a = 0 then F64.nan else F64.pinf)
      else F64.fin (rnd (a / b))
  | _, _ => F64.nan

/-- IEEE binary64 `>=`: false whenever an operand is NaN, +Inf at the
top, value order on finite values. -/
def f64ge : F64 → F64 → Bool
  | F64.nan, _ => false
  | _, F64.nan => false
  | F64.pinf, _ => true
  | F64.fin _, F64.pinf => false
  | F64.fin a, F64.fin b => decide (b ≤ a)

/-- `isRackOverWeight` (Go):
`float64(rackWeight)/float64(totalWeight) >= 1.0/float64(rf)` with the
weights uint32 and rf an int, each operation in IEEE binary64. -/
def isRackOverWeight (rackWeight totalWeight : ℕ) (rf : ℤ) : Bool :=
  f64ge (f64div (f64ofNat rackWeight) (f64ofNat totalWeight))
    (f64div (F64.fin 1) (f64ofInt rf))

/-! ### scanCurrentLoad weight aggregation and the buildTargetLoad divisor -/

/-- uint32 addition (wraps modulo 2^32). -/
def uadd32 (x y : Nat) : Nat := (x + y) % 2^32

/-- uint32 subtraction (wraps modulo 2^32; both operands below 2^32). -/
def usub32 (x y : Nat) : Nat := (x + 2^32 - y) % 2^32

/-- `rackToWeightMap` read with the Go zero default. -/
def rwGet (m : List (String × Nat)) (r : String) : Nat :=
  match m.find? (fun e => e.1 = r) with
  | some e => e.2
  | none => 0

/-- `rackToWeightMap` write (replace or append). -/
def rwSet : List (String × Nat) → String → Nat → List (String × Nat)
  | [], r, w => [(r, w)]
  | e :: es, r, w => if e.1 = r then (r, w) :: es else e :: rwSet es r w

/-- Total weight of the non-Leaving instances (the exact sum; the code
accumulates it in uint32). -/
def sumNonLeavingWeight (l : List Instance) : Nat :=
  ((l.filter (fun i => !i.isLeavingB)).map Instance.weight).sum

/-- The weight aggregation of `scanCurrentLoad`: skip leaving instances,
add each remaining instance's weight to its rack's entry and to the
running total, all in uint32 arithmetic.  Go map iteration order is
unspecified; the list order is one realizable schedule (the sums are
order independent). -/
def swStep (acc : List (String × Nat) × Nat) (i : Instance) :
    List (String × Nat) × Nat :=
  if i.isLeavingB then acc
  else (rwSet acc.1 i.rack (uadd32 (rwGet acc.1 i.rack) i.weight),
    uadd32 acc.2 i.weight)

def scanWeights (l : List Instance) : List (String × Nat) × Nat :=
  l.foldl swStep ([], 0)

/-- One step of the first loop of `buildTargetLoad`: count an overweight
rack and add its weight (uint32) to `overWeight`. -/
def owStep (total : Nat) (rf : ℤ) (acc : Nat × Nat) (e : String × Nat) :
    Nat × Nat :=
  if isRackOverWeight e.2 total rf then (acc.1 + 1, uadd32 acc.2 e.2) else acc

/-- The first loop of `buildTargetLoad`:
`(overWeightedRack, overWeight)`. -/
def overWeightSum (m : List (String × Nat)) (total : Nat) (rf : ℤ) :
    Nat × Nat :=
  m.foldl (owStep total rf) (0, 0)

/-- Exact (non-wrapping) sum of the overweight racks' weights, the spec
value `overWeightSum` computes when nothing overflows. -/
def owSumP (m : List (String × Nat)) (total : Nat) (rf : ℤ) : Nat :=
  ((m.filter (fun e => isRackOverWeight e.2 total rf)).map Prod.snd).sum

/-- Sum of all rack-weight entries. -/
def rwVals (m : List (String × Nat)) : Nat := (m.map Prod.snd).sum

/-- Two instances of weight 2^31 on one rack plus a third of weight 1:
positive weights whose uint32 sums wrap. -/
def wrapList : List Instance :=
  [{ iid := "w1", rack := "a", weight := 2^31 },
   { iid := "w2", rack := "a", weight := 2^31 },
   { iid := "w3", rack := "b", weight := 1 }]

/-- One instance of weight 1 on rack p used to witness the divisor
safety (rack q carries enough weight that rack p is not overweight). -/
def instP : Instance := { iid := "p", rack := "p", weight := 1 }

/-- `instP` together with a weight-3 instance on rack q. -/
def pairList : List Instance :=
  [instP, { iid := "q", rack := "q", weight := 3 }]

/-- A single non-leaving instance of weight zero. -/
def zeroList : List Instance := [{ iid := "z", rack := "r", weight := 0 }]

/-! ## Theorems -/

theorem find?_cons_of_iid_eq {a : Instance} {as : List Instance} {b : String}
    (h : a.iid = b) : (a :: as).find? (fun i => i.iid = b) = some a := by
  simp [List.find?_cons_of_pos, h]

theorem find?_cons_of_iid_ne {a : Instance} {as : List Instance} {b : String}
    (h : a.iid ≠ b) :
    (a :: as).find? (fun i => i.iid = b) = as.find? (fun i => i.iid = b) := by
  simp [List.find?_cons_of_neg, h]

theorem find?_iid_mem {l : List Instance} {b : String} {x : Instance}
    (h : l.find? (fun i => i.iid = b) = some x) : x ∈ l ∧ x.iid = b := by
  refine ⟨List.mem_of_find?_eq_some h, ?_⟩
  have := List.find?_some h
  simpa using this

theorem find?_iid_of_mem {l : List Instance} {b : String} {x : Instance}
    (hN : (l.map Instance.iid).Nodup) (hx : x ∈ l) (hb : x.iid = b) :
    l.find? (fun i => i.iid = b) = some x := by
  induction l with
  | nil => cases hx
  | cons a as ih =>
    rcases List.mem_cons.1 hx with rfl | hx'
    · exact find?_cons_of_iid_eq hb
    · by_cases ha : a.iid = b
      · exfalso
        have : b ∈ as.map Instance.iid := List.mem_map.2 ⟨x, hx', hb⟩
        have := (List.nodup_cons.1 hN).1
        rw [ha] at this
        exact this ‹b ∈ as.map Instance.iid›
      · rw [find?_cons_of_iid_ne ha]
        exact ih (List.nodup_cons.1 hN).2 hx'

theorem removeInstanceFromList_subset {l : List Instance} {rid : String} :
    removeInstanceFromList l rid ⊆ l := by
  induction l with
  | nil => simp [removeInstanceFromList]
  | cons a as ih =>
    intro x hx
    by_cases ha : a.iid = rid
    · simp only [removeInstanceFromList, if_pos ha] at hx
      match hlast : as.getLast? with
      | none => rw [hlast] at hx; cases hx
      | some lst =>
        rw [hlast] at hx
        rcases List.mem_cons.1 hx with rfl | hx'
        · exact List.mem_cons_of_mem _ (List.mem_of_mem_getLast? hlast)
        · exact List.mem_cons_of_mem _ (List.dropLast_subset _ hx')
    · simp only [removeInstanceFromList, if_neg ha] at hx
      rcases List.mem_cons.1 hx with rfl | hx'
      · exact List.mem_cons_self _ _
      · exact List.mem_cons_of_mem _ (ih hx')

theorem mem_removeInstanceFromList {l : List Instance} {rid : String}
    {x : Instance} (hx : x ∈ l) (hne : x.iid ≠ rid) :
    x ∈ removeInstanceFromList l rid := by
  induction l with
  | nil => cases hx
  | cons a as ih =>
    by_cases ha : a.iid = rid
    · simp only [removeInstanceFromList, if_pos ha]
      rcases List.mem_cons.1 hx with rfl | hx'
      · exact absurd ha hne
      · have hne' : as ≠ [] := by rintro rfl; cases hx'
        match hlast : as.getLast? with
        | none => exact absurd (List.getLast?_eq_none_iff.1 hlast) hne'
        | some lst =>
          have hsplit : as.dropLast ++ [lst] = as :=
            List.dropLast_append_getLast? _ hlast
          rcases List.mem_append.1 (by rw [hsplit]; exact hx') with hd | hl
          · exact List.mem_cons_of_mem _ hd
          · simp only [List.mem_singleton] at hl
            subst hl; exact List.mem_cons_self _ _
    · simp only [removeInstanceFromList, if_neg ha]
      rcases List.mem_cons.1 hx with rfl | hx'
      · exact List.mem_cons_self _ _
      · exact List.mem_cons_of_mem _ (ih hx')

theorem map_iid_removeInstanceFromList_nodup {l : List Instance} {rid : String}
    (hN : (l.map Instance.iid).Nodup) :
    ((removeInstanceFromList l rid).map Instance.iid).Nodup := by
  induction l with
  | nil => simp [removeInstanceFromList]
  | cons a as ih =>
    have hN' := List.nodup_cons.1 hN
    by_cases ha : a.iid = rid
    · simp only [removeInstanceFromList, if_pos ha]
      match hlast : as.getLast? with
      | none => simp
      | some lst =>
        have hsplit : as.dropLast ++ [lst] = as :=
          List.dropLast_append_getLast? _ hlast
        have : ((as.dropLast ++ [lst]).map Instance.iid).Nodup := by
          rw [hsplit]; exact hN'.2
        rw [List.map_append] at this
        have h2 := List.nodup_append.1 this
        refine List.nodup_cons.2 ⟨?_, h2.1⟩
        intro hmem
        exact h2.2.2 (by simpa using hmem) (by simp)
    · simp only [removeInstanceFromList, if_neg ha]
      refine List.nodup_cons.2 ⟨?_, ih hN'.2⟩
      intro hmem
      rcases List.mem_map.1 hmem with ⟨y, hy, hyid⟩
      exact hN'.1 (List.mem_map.2 ⟨y, removeInstanceFromList_subset hy, hyid⟩)

theorem find?_removeInstanceFromList_self {l : List Instance} {rid : String}
    (hN : (l.map Instance.iid).Nodup) :
    (removeInstanceFromList l rid).find? (fun i => i.iid = rid) = none := by
  rw [List.find?_eq_none]
  intro x hx
  simp only [decide_eq_true_eq]
  intro hxr
  induction l with
  | nil => cases hx
  | cons a as ih =>
    have hN' := List.nodup_cons.1 hN
    by_cases ha : a.iid = rid
    · simp only [removeInstanceFromList, if_pos ha] at hx
      have hxas : x ∈ as := by
        match hlast : as.getLast? with
        | none => rw [hlast] at hx; cases hx
        | some lst =>
          rw [hlast] at hx
          rcases List.mem_cons.1 hx with rfl | hx'
          · exact List.mem_of_mem_getLast? hlast
          · exact List.dropLast_subset _ hx'
      apply hN'.1
      rw [ha]
      exact List.mem_map.2 ⟨x, hxas, hxr⟩
    · simp only [removeInstanceFromList, if_neg ha] at hx
      rcases List.mem_cons.1 hx with rfl | hx'
      · exact ha hxr
      · exact ih hN'.2 hx'

theorem find?_removeInstanceFromList_other {l : List Instance}
    {rid b : String} (hN : (l.map Instance.iid).Nodup) (hb : b ≠ rid) :
    (removeInstanceFromList l rid).find? (fun i => i.iid = b) =
      l.find? (fun i => i.iid = b) := by
  match hfind : l.find? (fun i => i.iid = b) with
  | some x =>
    have ⟨hxl, hxb⟩ := find?_iid_mem hfind
    rw [hfind]
    exact find?_iid_of_mem (map_iid_removeInstanceFromList_nodup hN)
      (mem_removeInstanceFromList hxl (by rw [hxb]; exact hb)) hxb
  | none =>
    rw [hfind, List.find?_eq_none]
    rw [List.find?_eq_none] at hfind
    intro x hx
    exact hfind x (removeInstanceFromList_subset hx)

theorem updateInst_map_iid {l : List Instance} {id : String}
    {f : Instance → Instance} (hf : ∀ i, (f i).iid = i.iid) :
    (updateInst l id f).map Instance.iid = l.map Instance.iid := by
  induction l with
  | nil => rfl
  | cons a as ih =>
    simp only [updateInst, List.map_cons] at ih ⊢
    by_cases ha : a.iid = id
    · rw [if_pos ha, hf a, ih]
    · rw [if_neg ha, ih]

theorem find?_updateInst_self {l : List Instance} {id : String}
    {f : Instance → Instance} (hf : ∀ i, (f i).iid = i.iid) :
    (updateInst l id f).find? (fun i => i.iid = id) =
      (l.find? (fun i => i.iid = id)).map f := by
  induction l with
  | nil => rfl
  | cons a as ih =>
    simp only [updateInst, List.map_cons]
    by_cases ha : a.iid = id
    · rw [if_pos ha, find?_cons_of_iid_eq (by rw [hf a]; exact ha),
        find?_cons_of_iid_eq ha, Option.map_some']
    · rw [if_neg ha, find?_cons_of_iid_ne ha, find?_cons_of_iid_ne ha]
      exact ih

theorem find?_updateInst_other {l : List Instance} {id b : String}
    {f : Instance → Instance} (hf : ∀ i, (f i).iid = i.iid) (hb : b ≠ id) :
    (updateInst l id f).find? (fun i => i.iid = b) =
      l.find? (fun i => i.iid = b) := by
  induction l with
  | nil => rfl
  | cons a as ih =>
    simp only [updateInst, List.map_cons]
    by_cases ha : a.iid = id
    · rw [if_pos ha, find?_cons_of_iid_ne (by rw [hf a, ha]; exact fun h => hb h.symm),
        find?_cons_of_iid_ne (by rw [ha]; exact fun h => hb h.symm)]
      exact ih
    · by_cases hab : a.iid = b
      · rw [if_neg ha, find?_cons_of_iid_eq hab, find?_cons_of_iid_eq hab]
      · rw [if_neg ha, find?_cons_of_iid_ne hab, find?_cons_of_iid_ne hab]
        exact ih

theorem findShard_addShard_self (ss : List Shard) (s : Shard) :
    findShard (addShard ss s) s.sid = some s := by
  induction ss with
  | nil => simp [addShard, findShard]
  | cons t ts ih =>
    by_cases ht : t.sid = s.sid
    · simp [addShard, if_pos ht, findShard]
    · simp only [addShard, if_neg ht, findShard, List.find?_cons]
      rw [findShard] at ih
      simpa [ht] using ih

theorem markShardAvailableRemove_no_err (p1 : Placement) (sid : String)
    (d : Nat) : (markShardAvailableRemove p1 sid d).2 = none := by
  unfold markShardAvailableRemove
  try dsimp only
  split
  · rfl
  · split <;> rfl

/-- Effect of the final removal step on the source instance: its Leaving
shard is removed, and, when nothing remains, the instance itself is
dropped from the instance list. -/
theorem markShardAvailableRemoveSource (p1 : Placement) (sid : String)
    (d : Nat) (hN1 : (p1.instances.map Instance.iid).Nodup)
    (j : Instance) (hj : p1.inst sid = some j) :
    (((removeShard j.shards d).length = 0 →
        ((markShardAvailableRemove p1 sid d).1).inst sid = none) ∧
      ((removeShard j.shards d).length ≠ 0 →
        ((markShardAvailableRemove p1 sid d).1).inst sid =
          some { j with shards := removeShard j.shards d })) := by
  have hfr : ∀ a : Instance,
      (({ a with shards := removeShard a.shards d } : Instance)).iid = a.iid :=
    fun _ => rfl
  have hj2 : (updateInst p1.instances sid
      (fun a => { a with shards := removeShard a.shards d })).find?
        (fun a => a.iid = sid) =
      some { j with shards := removeShard j.shards d } := by
    rw [find?_updateInst_self hfr]
    rw [Placement.inst] at hj
    rw [hj, Option.map_some']
  have hN2 : ((updateInst p1.instances sid
      (fun a => { a with shards := removeShard a.shards d })).map
        Instance.iid).Nodup := by
    rw [updateInst_map_iid hfr]; exact hN1
  unfold markShardAvailableRemove
  try dsimp only
  rw [show (Placement.inst
        ⟨updateInst p1.instances sid
            (fun a => { a with shards := removeShard a.shards d }),
          p1.shards, p1.replicaFactor, p1.isSharded, p1.isMirrored,
          p1.cutoverNanos⟩ sid) =
      some { j with shards := removeShard j.shards d } from hj2]
  try dsimp only
  constructor
  · intro hlen
    rw [if_pos hlen]
    show (removeInstanceFromList _ sid).find? (fun a => a.iid = sid) = none
    exact find?_removeInstanceFromList_self hN2
  · intro hlen
    rw [if_neg hlen]
    exact hj2

/-- After the target shard has been marked Available, every later branch of
`markShardAvailable` (error or not) keeps that mark on the target
instance. -/
theorem markShardAvailablePast_target (p : Placement) (iid : String) (d : Nat)
    (opts : Options) (s : Shard)
    (hN : (p.instances.map Instance.iid).Nodup)
    (i : Instance) (hi : p.inst iid = some i) :
    ∃ i', ((markShardAvailablePast p iid d opts s).1).inst iid = some i' ∧
      findShard i'.shards d = some { sid := d, state := Available } := by
  have hf : ∀ j : Instance,
      (({ j with shards := addShard j.shards { sid := d, state := Available } } :
        Instance)).iid = j.iid := fun _ => rfl
  set g : Instance → Instance :=
    fun j => { j with shards := addShard j.shards { sid := d, state := Available } }
    with hg
  have h1 : (updateInst p.instances iid g).find? (fun j => j.iid = iid) =
      some (g i) := by
    rw [find?_updateInst_self hf]
    rw [Placement.inst] at hi
    rw [hi, Option.map_some']
  have htgt : findShard (g i).shards d = some { sid := d, state := Available } :=
    findShard_addShard_self _ _
  unfold markShardAvailablePast
  try dsimp only
  rw [← hg]
  split
  · exact ⟨g i, h1, htgt⟩
  · rename_i hsrcne
    split
    · exact ⟨g i, h1, htgt⟩
    · rename_i srcInst hsrcfound
      split
      · exact ⟨g i, h1, htgt⟩
      · rename_i lv hlv
        split
        · exact ⟨g i, h1, htgt⟩
        · rename_i hlvstate
          have hlvL : lv.state = Leaving := by
            by_contra hcon
            exact hlvstate (by simpa using hcon)
          have hne : s.sourceID ≠ iid := by
            intro heq
            rw [heq] at hsrcfound
            rw [show (Placement.inst
                { p with instances := updateInst p.instances iid g } iid =
                some (g i)) from h1] at hsrcfound
            cases hsrcfound
            rw [htgt] at hlv
            cases hlv
            simp at hlvL
          have htail : ∀ q : Placement × Option String,
              q = markShardAvailableRemove
                { p with instances := updateInst p.instances iid g }
                s.sourceID d →
              ∃ i', (q.1).inst iid = some i' ∧
                findShard i'.shards d = some { sid := d, state := Available } := by
            intro q hq
            have hf2 : ∀ j : Instance,
                (({ j with shards := removeShard j.shards d } : Instance)).iid
                  = j.iid := fun _ => rfl
            have h2 : (updateInst (updateInst p.instances iid g) s.sourceID
                (fun j => { j with shards := removeShard j.shards d })).find?
                  (fun j => j.iid = iid) = some (g i) := by
              rw [find?_updateInst_other hf2 (fun h => hne h.symm)]
              exact h1
            have hN2 : ((updateInst (updateInst p.instances iid g) s.sourceID
                (fun j => { j with shards := removeShard j.shards d })).map
                  Instance.iid).Nodup := by
              rw [updateInst_map_iid hf2, updateInst_map_iid hf]
              exact hN
            rw [hq]
            unfold markShardAvailableRemove
            try dsimp only
            split
            · exact ⟨g i, h2, htgt⟩
            · split
              · refine ⟨g i, ?_, htgt⟩
                show (removeInstanceFromList _ s.sourceID).find?
                  (fun j => j.iid = iid) = some (g i)
                rw [find?_removeInstanceFromList_other hN2 (fun h => hne h.symm)]
                exact h2
              · exact ⟨g i, h2, htgt⟩
          split
          · split
            · exact ⟨g i, h1, htgt⟩
            · exact htail _ rfl
          · exact htail _ rfl

/-- Reduction of `markShardAvailable` to its post-gate stage when the
preconditions hold. -/
theorem markShardAvailable_reduce (p : Placement) (iid : String) (d : Nat)
    (opts : Options) (i : Instance) (s : Shard)
    (hi : p.inst iid = some i) (hs : findShard i.shards d = some s)
    (hinit : s.state = Initializing)
    (hcut : ∀ f, opts.isShardCutoverFn = some f → f s = none) :
    markShardAvailable p iid d opts = markShardAvailablePast p iid d opts s := by
  unfold markShardAvailable
  rw [hi]
  try dsimp only
  rw [hs]
  try dsimp only
  rw [if_neg (by simp [hinit])]
  cases hc : opts.isShardCutoverFn with
  | none => rfl
  | some f =>
    try dsimp only
    rw [hcut f hc]

/-- C1 (counterexample): `markShardAvailable` can return an error while
having already mutated the placement — with an Initializing shard whose
source instance is absent, the target shard is marked Available and the
call still fails, so the input placement is not left unchanged. -/
theorem markShardAvailable_error_mutates :
    (markShardAvailable pOrphanSource "i1" 0 {}).2 ≠ none ∧
      (markShardAvailable pOrphanSource "i1" 0 {}).1 ≠ pOrphanSource := by
  decide

/-- C1 (amended): errors raised by `markShardAvailable` before the target
shard is marked (instance missing, shard missing, shard not Initializing,
cutover-callback error) leave the placement unchanged; errors raised after
the mark leave the target shard Available on the instance; and
`markAllShardsAvailable`, which clones the placement first, leaves its
input unchanged on every error. -/
theorem markShardAvailable_error_effects (p : Placement) (iid : String)
    (d : Nat) (opts : Options) (hN : (p.instances.map Instance.iid).Nodup) :
    ((p.inst iid = none ∨
      (∃ i, p.inst iid = some i ∧ findShard i.shards d = none) ∨
      (∃ i s, p.inst iid = some i ∧ findShard i.shards d = some s ∧
        s.state ≠ Initializing) ∨
      (∃ i s f e, p.inst iid = some i ∧ findShard i.shards d = some s ∧
        opts.isShardCutoverFn = some f ∧ f s = some e)) →
      (markShardAvailable p iid d opts).1 = p ∧
        (markShardAvailable p iid d opts).2 ≠ none) ∧
    ((markShardAvailable p iid d opts).2 ≠ none →
      ∀ i, p.inst iid = some i → ∀ s, findShard i.shards d = some s →
      s.state = Initializing →
      (∀ f, opts.isShardCutoverFn = some f → f s = none) →
      ∃ i', ((markShardAvailable p iid d opts).1).inst iid = some i' ∧
        findShard i'.shards d = some { sid := d, state := Available }) ∧
    (∀ e, (markAllShardsAvailable p opts).2 = some e →
      (markAllShardsAvailable p opts).1 = p) := by
  refine ⟨?_, ?_, ?_⟩
  · rintro (hnone | ⟨i, hi, hs⟩ | ⟨i, s, hi, hs, hst⟩ | ⟨i, s, f, e, hi, hs, hf, hfe⟩)
    · unfold markShardAvailable
      rw [hnone]
      exact ⟨rfl, by simp⟩
    · unfold markShardAvailable
      rw [hi]
      try dsimp only
      rw [hs]
      exact ⟨rfl, by simp⟩
    · unfold markShardAvailable
      rw [hi]
      try dsimp only
      rw [hs]
      try dsimp only
      rw [if_pos (by simpa using hst)]
      exact ⟨rfl, by simp⟩
    · unfold markShardAvailable
      rw [hi]
      try dsimp only
      rw [hs]
      try dsimp only
      by_cases hst : s.state = Initializing
      · rw [if_neg (by simp [hst]), hf]
        try dsimp only
        rw [hfe]
        exact ⟨rfl, by simp⟩
      · rw [if_pos (by simpa using hst)]
        exact ⟨rfl, by simp⟩
  · intro _ i hi s hs hinit hcut
    rw [markShardAvailable_reduce p iid d opts i s hi hs hinit hcut]
    exact markShardAvailablePast_target p iid d opts s hN i hi
  · intro e he
    unfold markAllShardsAvailable at he ⊢
    split at he
    · cases he
    · rfl

/-- Witness for C1: concrete application at a placement whose Initializing
shard has no surviving source instance. -/
theorem markShardAvailable_error_effects_witness :
    ((pOrphanSource.inst "i1" = none ∨
      (∃ i, pOrphanSource.inst "i1" = some i ∧ findShard i.shards 0 = none) ∨
      (∃ i s, pOrphanSource.inst "i1" = some i ∧ findShard i.shards 0 = some s ∧
        s.state ≠ Initializing) ∨
      (∃ i s f e, pOrphanSource.inst "i1" = some i ∧
        findShard i.shards 0 = some s ∧
        ({} : Options).isShardCutoverFn = some f ∧ f s = some e)) →
      (markShardAvailable pOrphanSource "i1" 0 {}).1 = pOrphanSource ∧
        (markShardAvailable pOrphanSource "i1" 0 {}).2 ≠ none) ∧
    ((markShardAvailable pOrphanSource "i1" 0 {}).2 ≠ none →
      ∀ i, pOrphanSource.inst "i1" = some i →
      ∀ s, findShard i.shards 0 = some s →
      s.state = ShardState.Initializing →
      (∀ f, ({} : Options).isShardCutoverFn = some f → f s = none) →
      ∃ i', ((markShardAvailable pOrphanSource "i1" 0 {}).1).inst "i1" = some i' ∧
        findShard i'.shards 0 = some { sid := 0, state := ShardState.Available }) ∧
    (∀ e, (markAllShardsAvailable pOrphanSource {}).2 = some e →
      (markAllShardsAvailable pOrphanSource {}).1 = pOrphanSource) :=
  markShardAvailable_error_effects pOrphanSource "i1" 0 {} (by decide)

/-- C2 (counterexample): the claim's own preconditions (shard owned in
Initializing state, both callbacks accepting) do not suffice for success —
when the non-empty `sourceID` names an absent instance the call errors. -/
theorem markShardAvailable_claim_hyps_not_sufficient :
    (∃ i, pOrphanSource2.inst "a1" = some i ∧
      ∃ s, findShard i.shards 3 = some s ∧ s.state = ShardState.Initializing ∧
        s.sourceID ≠ "") ∧
    ({} : Options).isShardCutoverFn = none ∧
    ({} : Options).isShardCutoffFn = none ∧
    (markShardAvailable pOrphanSource2 "a1" 3 {}).2 ≠ none := by
  exact ⟨⟨_, rfl, _, rfl, by decide, by decide⟩, rfl, rfl, by decide⟩

/-- C2 (amended): under the additional hypothesis that the shard's
`sourceID` is empty or names a present instance holding the matching
Leaving shard (with an accepting cutoff callback), `markShardAvailable`
succeeds, the target shard becomes Available, the Leaving shard is removed
from the source, and a source left shardless is dropped from the instance
list. -/
theorem markShardAvailable_success (p : Placement) (iid : String) (d : Nat)
    (opts : Options) (hN : (p.instances.map Instance.iid).Nodup)
    (i : Instance) (hi : p.inst iid = some i)
    (s : Shard) (hs : findShard i.shards d = some s)
    (hinit : s.state = Initializing)
    (hcut : ∀ f, opts.isShardCutoverFn = some f → f s = none)
    (hsrc : s.sourceID = "" ∨
      (s.sourceID ≠ "" ∧ ∃ j t, p.inst s.sourceID = some j ∧
        findShard j.shards d = some t ∧ t.state = Leaving ∧
        (∀ f, opts.isShardCutoffFn = some f → f t = none))) :
    (markShardAvailable p iid d opts).2 = none ∧
    (∃ i', ((markShardAvailable p iid d opts).1).inst iid = some i' ∧
      findShard i'.shards d = some { sid := d, state := Available }) ∧
    (∀ j, s.sourceID ≠ "" → p.inst s.sourceID = some j →
      (((removeShard j.shards d).length = 0 →
        ((markShardAvailable p iid d opts).1).inst s.sourceID = none) ∧
      ((removeShard j.shards d).length ≠ 0 →
        ((markShardAvailable p iid d opts).1).inst s.sourceID =
          some { j with shards := removeShard j.shards d }))) := by
  have hred := markShardAvailable_reduce p iid d opts i s hi hs hinit hcut
  have htarget := markShardAvailablePast_target p iid d opts s hN i hi
  rw [hred]
  set g : Instance → Instance :=
    fun j => { j with shards := addShard j.shards { sid := d, state := Available } }
    with hg
  have hfg : ∀ j : Instance, (g j).iid = j.iid := fun _ => rfl
  rcases hsrc with hempty | ⟨hne0, j, t, hj, ht, htL, hcutoff⟩
  · constructor
    · unfold markShardAvailablePast
      try dsimp only
      rw [if_pos hempty]
    · refine ⟨htarget, ?_⟩
      intro j hne _
      exact absurd hempty hne
  · -- the source instance is distinct from the target instance
    have hij : s.sourceID ≠ iid := by
      intro heq
      rw [heq, hi] at hj
      cases hj
      rw [hs] at ht
      cases ht
      rw [hinit] at htL
      cases htL
    -- the placement after the Available mark still finds the source as `j`
    have hj1 : (updateInst p.instances iid g).find? (fun a => a.iid = s.sourceID) =
        some j := by
      rw [find?_updateInst_other hfg hij]
      exact hj
    have hj1P : (Placement.inst
        { p with instances := updateInst p.instances iid g } s.sourceID) =
        some j := hj1
    have hN1 : ((updateInst p.instances iid g).map Instance.iid).Nodup := by
      rw [updateInst_map_iid hfg]; exact hN
    -- reduce markShardAvailablePast to markShardAvailableRemove
    have hpast : markShardAvailablePast p iid d opts s =
        markShardAvailableRemove
          { p with instances := updateInst p.instances iid g } s.sourceID d := by
      unfold markShardAvailablePast
      try dsimp only
      rw [if_neg hne0, ← hg, hj1P]
      try dsimp only
      rw [ht]
      try dsimp only
      rw [if_neg (by simp [htL])]
      cases hc : opts.isShardCutoffFn with
      | none => rfl
      | some f =>
        try dsimp only
        rw [hcutoff f hc]
    rw [hpast]
    refine ⟨markShardAvailableRemove_no_err _ _ _, htarget.imp ?_, ?_⟩
    · intro i' hi'
      rw [hpast] at hi'
      exact hi'
    · intro j' _ hj'
      have hjj : j' = j := by
        rw [hj'] at hj
        exact Option.some.inj hj
      rw [hjj]
      exact markShardAvailableRemoveSource _ s.sourceID d hN1 j hj1P

/-- Witness for C2: concrete application at a healthy handoff pair. -/
theorem markShardAvailable_success_witness :
    (markShardAvailable pHandoff "i1" 0 {}).2 = none ∧
    (∃ i', ((markShardAvailable pHandoff "i1" 0 {}).1).inst "i1" = some i' ∧
      findShard i'.shards 0 = some { sid := 0, state := ShardState.Available }) ∧
    (∀ j, ("i2" : String) ≠ "" → pHandoff.inst "i2" = some j →
      (((removeShard j.shards 0).length = 0 →
        ((markShardAvailable pHandoff "i1" 0 {}).1).inst "i2" = none) ∧
      ((removeShard j.shards 0).length ≠ 0 →
        ((markShardAvailable pHandoff "i1" 0 {}).1).inst "i2" =
          some { j with shards := removeShard j.shards 0 }))) :=
  markShardAvailable_success pHandoff "i1" 0 {} (by decide) _ rfl _ rfl rfl
    (fun f h => nomatch h)
    (Or.inr ⟨by decide, _, _, rfl, rfl, rfl, fun f h => nomatch h⟩)


theorem rackScanConflict_false_iff (st : HelperState) (d : Nat) (r : String) :
    rackScanConflict st d r = false ↔
      ∀ oid ∈ s2iGet st.s2i d, ∀ o, lookupInst st oid = some o →
        o.rack ≠ r := by
  unfold rackScanConflict
  rw [List.any_eq_false]
  constructor
  · intro h oid hm o ho hr
    have := h oid hm
    rw [ho] at this
    simp only [decide_eq_true_eq] at this
    exact this hr
  · intro h oid hm
    cases ho : lookupInst st oid with
    | none => simp
    | some o =>
      simp only [decide_eq_true_eq]
      exact h oid hm o ho

theorem hasRackConflict_false_iff (st : HelperState) (d : Nat)
    (fro : Option String) (toRack : String) :
    hasRackConflict st d fro toRack = false ↔
      ((∃ fid f, fro = some fid ∧ lookupInst st fid = some f ∧
          f.rack = toRack) ∨
        ∀ oid ∈ s2iGet st.s2i d, ∀ o, lookupInst st oid = some o →
          o.rack ≠ toRack) := by
  unfold hasRackConflict
  cases fro with
  | none =>
    rw [rackScanConflict_false_iff]
    constructor
    · exact Or.inr
    · rintro (⟨fid, f, h, _⟩ | h)
      · cases h
      · exact h
  | some fid =>
    try dsimp only
    cases hf : lookupInst st fid with
    | none =>
      rw [rackScanConflict_false_iff]
      constructor
      · exact Or.inr
      · rintro (⟨fid', f, hfid, hl, _⟩ | h)
        · cases hfid
          rw [hf] at hl
          cases hl
        · exact h
    | some f =>
      try dsimp only
      by_cases hrack : f.rack = toRack
      · rw [if_pos hrack]
        constructor
        · intro _
          exact Or.inl ⟨fid, f, rfl, hf, hrack⟩
        · intro _
          rfl
      · rw [if_neg hrack, rackScanConflict_false_iff]
        constructor
        · exact Or.inr
        · rintro (⟨fid', f', hfid, hl, hr⟩ | h)
          · cases hfid
            rw [hf] at hl
            cases hl
            exact absurd hr hrack
          · exact h

theorem canAssignTrueChar (st : HelperState) (d : Nat)
    (fro : Option String) (toI : Instance) :
    canAssignInstance st d fro toI = true ↔
      ((findShard toI.shards d = none ∨
        (∃ s, findShard toI.shards d = some s ∧ s.state = Leaving)) ∧
       (st.opts.looseRackCheck = true ∨
        (∃ fid f, fro = some fid ∧ lookupInst st fid = some f ∧
          f.rack = toI.rack) ∨
        ∀ oid ∈ s2iGet st.s2i d, ∀ o, lookupInst st oid = some o →
          o.rack ≠ toI.rack)) := by
  have hrack : (st.opts.looseRackCheck || !hasRackConflict st d fro toI.rack) = true ↔
      (st.opts.looseRackCheck = true ∨
        (∃ fid f, fro = some fid ∧ lookupInst st fid = some f ∧
          f.rack = toI.rack) ∨
        ∀ oid ∈ s2iGet st.s2i d, ∀ o, lookupInst st oid = some o →
          o.rack ≠ toI.rack) := by
    rw [Bool.or_eq_true, Bool.not_eq_true', hasRackConflict_false_iff]
  unfold canAssignInstance
  cases hfs : findShard toI.shards d with
  | none =>
    rw [hrack]
    constructor
    · intro h
      exact ⟨Or.inl rfl, h⟩
    · intro h
      exact h.2
  | some s =>
    try dsimp only
    by_cases hst : s.state = Leaving
    · rw [if_neg (by simp [hst]), hrack]
      constructor
      · intro h
        exact ⟨Or.inr ⟨s, rfl, hst⟩, h⟩
      · intro h
        exact h.2
    · rw [if_pos (by simpa using hst)]
      constructor
      · intro h
        cases h
      · rintro ⟨hown, _⟩
        rcases hown with h | ⟨s', hs', hL⟩
        · cases h
        · cases hs'
          exact absurd hL hst

/-- C4: `canAssign(shardID, from, to)` is true iff the target does not own
the shard except possibly in Leaving state, and either `looseRackCheck` is
on or no recorded non-Leaving owner of the shard is on the target's rack —
the rack check being skipped entirely when `from` is non-nil and shares
the target's rack. -/
theorem canAssignInstance_iff (st : HelperState) (d : Nat)
    (fro : Option String) (toI : Instance) :
    canAssignInstance st d fro toI = true ↔
      ((findShard toI.shards d = none ∨
        (∃ s, findShard toI.shards d = some s ∧ s.state = Leaving)) ∧
       (st.opts.looseRackCheck = true ∨
        (∃ fid f, fro = some fid ∧ lookupInst st fid = some f ∧
          f.rack = toI.rack) ∨
        ∀ oid ∈ s2iGet st.s2i d, ∀ o, lookupInst st oid = some o →
          o.rack ≠ toI.rack)) :=
  canAssignTrueChar st d fro toI


theorem lookupInst_stUpdateInst_self {st : HelperState} {id : String}
    (f : Instance → Instance) (hf : ∀ i, (f i).iid = i.iid) {i : Instance}
    (hi : lookupInst st id = some i) :
    lookupInst (stUpdateInst st id f) id = some (f i) := by
  unfold lookupInst at hi ⊢
  unfold stUpdateInst
  try dsimp only
  rw [find?_updateInst_self hf, find?_updateInst_self hf]
  cases hfind : st.instances.find? (fun a => a.iid = id) with
  | some a =>
    rw [hfind] at hi
    cases hi
    rfl
  | none =>
    rw [hfind] at hi
    try dsimp only at hi
    try dsimp only [Option.map_none']
    rw [hi, Option.map_some']

theorem lookupInst_stUpdateInst_other {st : HelperState} {id b : String}
    (f : Instance → Instance) (hf : ∀ i, (f i).iid = i.iid) (hb : b ≠ id) :
    lookupInst (stUpdateInst st id f) b = lookupInst st b := by
  unfold lookupInst stUpdateInst
  try dsimp only
  rw [find?_updateInst_other hf hb, find?_updateInst_other hf hb]

theorem lookupInst_assignShard_self {st : HelperState} {s : Shard}
    {toId : String} {i : Instance} (hi : lookupInst st toId = some i) :
    lookupInst (assignShardToInstance st s toId) toId =
      some { i with shards := addShard i.shards s } := by
  unfold assignShardToInstance
  try dsimp only
  have : lookupInst (stUpdateInst st toId
      (fun a => { a with shards := addShard a.shards s })) toId =
      some { i with shards := addShard i.shards s } :=
    lookupInst_stUpdateInst_self
      (fun a => { a with shards := addShard a.shards s }) (fun _ => rfl) hi
  unfold lookupInst at this ⊢
  exact this

theorem lookupInst_assignShard_other {st : HelperState} {s : Shard}
    {toId b : String} (hb : b ≠ toId) :
    lookupInst (assignShardToInstance st s toId) b = lookupInst st b := by
  unfold assignShardToInstance
  try dsimp only
  have : lookupInst (stUpdateInst st toId
      (fun a => { a with shards := addShard a.shards s })) b =
      lookupInst st b :=
    lookupInst_stUpdateInst_other
      (fun a => { a with shards := addShard a.shards s }) (fun _ => rfl) hb
  unfold lookupInst at this ⊢
  exact this

theorem clearLinkT_idem (d : Nat) (toId : String) (t : Shard) :
    clearLinkT d toId (clearLinkT d toId t) = clearLinkT d toId t := by
  unfold clearLinkT
  by_cases h : t.sid = d ∧ t.sourceID = toId
  · rw [if_pos h]
    by_cases h2 : toId = ""
    · subst h2
      rw [if_pos ⟨h.1, rfl⟩]
    · rw [if_neg (fun hc => h2 hc.2.symm)]
  · rw [if_neg h, if_neg h]

theorem clearInstF_idem (d : Nat) (toId : String) (i : Instance) :
    (fun a : Instance => { a with shards := a.shards.map (clearLinkT d toId) })
      ((fun a : Instance =>
        { a with shards := a.shards.map (clearLinkT d toId) }) i) =
    (fun a : Instance => { a with shards := a.shards.map (clearLinkT d toId) })
      i := by
  try dsimp only
  rw [List.map_map]
  congr 1
  apply List.map_congr_left
  intro t _
  exact clearLinkT_idem d toId t

theorem lookupInst_clearFold (d : Nat) (toId : String) :
    ∀ (l : List String) (st : HelperState) (b : String),
      (b ∉ l → lookupInst (l.foldl (fun acc oid =>
          stUpdateInst acc oid
            (fun i => { i with shards := i.shards.map (clearLinkT d toId) }))
          st) b = lookupInst st b) ∧
      (∀ i, b ∈ l → lookupInst st b = some i →
        lookupInst (l.foldl (fun acc oid =>
          stUpdateInst acc oid
            (fun i => { i with shards := i.shards.map (clearLinkT d toId) }))
          st) b = some { i with shards := i.shards.map (clearLinkT d toId) })
  | [], st, b => by
    refine ⟨fun _ => rfl, fun i hmem _ => absurd hmem (by simp)⟩
  | oid :: rest, st, b => by
    constructor
    · intro hnot
      have hb : b ≠ oid := fun h => hnot (h ▸ List.mem_cons_self _ _)
      have hrest : b ∉ rest := fun h => hnot (List.mem_cons_of_mem _ h)
      simp only [List.foldl_cons]
      rw [(lookupInst_clearFold d toId rest _ b).1 hrest]
      exact lookupInst_stUpdateInst_other
        (fun a => { a with shards := a.shards.map (clearLinkT d toId) })
        (fun _ => rfl) hb
    · intro i hmem hi
      simp only [List.foldl_cons]
      by_cases hb : b = oid
      · subst hb
        have h1 : lookupInst (stUpdateInst st b
            (fun a => { a with shards := a.shards.map (clearLinkT d toId) })) b =
            some { i with shards := i.shards.map (clearLinkT d toId) } :=
          lookupInst_stUpdateInst_self
            (fun a => { a with shards := a.shards.map (clearLinkT d toId) })
            (fun _ => rfl) hi
        by_cases hrest : b ∈ rest
        · have := (lookupInst_clearFold d toId rest _ b).2 _ hrest h1
          rw [this]
          congr 1
          exact clearInstF_idem d toId i
        · rw [(lookupInst_clearFold d toId rest _ b).1 hrest]
          exact h1
      · have hrest : b ∈ rest := by
          rcases List.mem_cons.1 hmem with h | h
          · exact absurd h hb
          · exact h
        have h1 : lookupInst (stUpdateInst st oid
            (fun a => { a with shards := a.shards.map (clearLinkT d toId) })) b =
            some i := by
          rw [lookupInst_stUpdateInst_other
            (fun a => { a with shards := a.shards.map (clearLinkT d toId) })
            (fun _ => rfl) hb]
          exact hi
        exact (lookupInst_clearFold d toId rest _ b).2 _ hrest h1

theorem s2iGet_s2iSet_self (m : List (Nat × List String)) (d : Nat)
    (owners : List String) : s2iGet (s2iSet m d owners) d = owners := by
  induction m with
  | nil => simp [s2iSet, s2iGet]
  | cons e es ih =>
    by_cases he : e.1 = d
    · simp [s2iSet, he, s2iGet]
    · simp only [s2iSet, if_neg he]
      unfold s2iGet
      rw [List.find?_cons_of_neg _ (by simpa using he)]
      exact ih

theorem s2iGet_removeOwner_self (m : List (Nat × List String)) (d : Nat)
    (oid : String) :
    s2iGet (s2iRemoveOwner m d oid) d =
      (s2iGet m d).filter (fun o => o ≠ oid) := by
  unfold s2iRemoveOwner
  exact s2iGet_s2iSet_self m d _


theorem lookupInst_s2iPatch (st : HelperState) (m : List (Nat × List String))
    (b : String) : lookupInst { st with s2i := m } b = lookupInst st b := rfl

theorem lookupInst_fromBlock_other (st : HelperState) (cand : Shard)
    (fid b : String) (hb : b ≠ fid) :
    lookupInst (moveShardFromBlock st cand fid).1 b = lookupInst st b := by
  unfold moveShardFromBlock
  cases cand.state with
  | Unknown =>
    exact lookupInst_stUpdateInst_other
      (fun i => { i with shards := removeShard i.shards cand.sid })
      (fun _ => rfl) hb
  | Initializing =>
    exact lookupInst_stUpdateInst_other
      (fun i => { i with shards := removeShard i.shards cand.sid })
      (fun _ => rfl) hb
  | Available =>
    exact lookupInst_stUpdateInst_other
      (fun i => { i with shards := i.shards.map (stampLeavingT cand.sid st.opts.shardCutoffNanos) })
      (fun _ => rfl) hb
  | Leaving => rfl

theorem lookupInst_fromBlock_self (st : HelperState) (cand : Shard)
    (fid : String) (fI : Instance) (hf : lookupInst st fid = some fI) :
    lookupInst (moveShardFromBlock st cand fid).1 fid =
      some (match cand.state with
        | Unknown => { fI with shards := removeShard fI.shards cand.sid }
        | Initializing => { fI with shards := removeShard fI.shards cand.sid }
        | Available => { fI with shards := fI.shards.map (stampLeavingT cand.sid st.opts.shardCutoffNanos) }
        | Leaving => fI) := by
  unfold moveShardFromBlock
  cases cand.state with
  | Unknown =>
    exact lookupInst_stUpdateInst_self
      (fun i => { i with shards := removeShard i.shards cand.sid })
      (fun _ => rfl) hf
  | Initializing =>
    exact lookupInst_stUpdateInst_self
      (fun i => { i with shards := removeShard i.shards cand.sid })
      (fun _ => rfl) hf
  | Available =>
    exact lookupInst_stUpdateInst_self
      (fun i => { i with shards := i.shards.map (stampLeavingT cand.sid st.opts.shardCutoffNanos) })
      (fun _ => rfl) hf
  | Leaving => exact hf

theorem fromBlock_s2i (st : HelperState) (cand : Shard) (fid : String) :
    (moveShardFromBlock st cand fid).1.s2i =
      s2iRemoveOwner st.s2i cand.sid fid := by
  unfold moveShardFromBlock
  cases cand.state <;> rfl

theorem fromBlock_snd (st : HelperState) (cand : Shard) (fid : String) :
    (moveShardFromBlock st cand fid).2 =
      (match cand.state with
        | Unknown => { sid := cand.sid, sourceID := cand.sourceID }
        | Initializing => { sid := cand.sid, sourceID := cand.sourceID }
        | Available => { sid := cand.sid, sourceID := fid }
        | Leaving => ({ sid := cand.sid } : Shard)) := by
  unfold moveShardFromBlock
  cases cand.state <;> rfl


/-- C5: `moveShard` returns false exactly when `canAssign` fails or the
candidate shard is in state Leaving.  On success: an Unknown or
Initializing shard is removed from `from` and the new shard on `to`
inherits its sourceID; an Available shard on `from` is stamped Leaving
with `cutoffNanos` and the new shard on `to` gets `sourceID = from.id`;
and when `to` already held the shard in state Leaving, the new shard on
`to` is constructed Available with empty sourceID and every other
recorded owner's shard of the same id whose sourceID equals `to.id` has
that link cleared. -/
theorem moveShard_behavior (st : HelperState) (cand : Shard)
    (fro : Option String) (toId : String) (toI : Instance)
    (hto : lookupInst st toId = some toI) :
    ((moveShard st cand fro toId).2 = false ↔
      (canAssignInstance st cand.sid fro toI = false ∨
        cand.state = Leaving)) ∧
    (∀ fid fI, fro = some fid → fid ≠ toId → lookupInst st fid = some fI →
      (cand.state = Unknown ∨ cand.state = Initializing) →
      (moveShard st cand fro toId).2 = true →
      lookupInst (moveShard st cand fro toId).1 fid =
        some { fI with shards := removeShard fI.shards cand.sid }) ∧
    (∀ fid fI, fro = some fid → fid ≠ toId → lookupInst st fid = some fI →
      cand.state = Available →
      (moveShard st cand fro toId).2 = true →
      lookupInst (moveShard st cand fro toId).1 fid =
        some { fI with shards := fI.shards.map (stampLeavingT cand.sid st.opts.shardCutoffNanos) }) ∧
    ((fro = none ∨ ∃ fid, fro = some fid ∧ fid ≠ toId) →
      (moveShard st cand fro toId).2 = true →
      ∃ toI', lookupInst (moveShard st cand fro toId).1 toId = some toI' ∧
        findShard toI'.shards cand.sid =
          some (if (findShard toI.shards cand.sid).any
                (fun cur => cur.state = Leaving) = true then
              { sid := cand.sid, state := Available }
            else
              match fro, cand.state with
              | some _, Unknown => { sid := cand.sid, sourceID := cand.sourceID }
              | some _, Initializing => { sid := cand.sid, sourceID := cand.sourceID }
              | some fid, Available => { sid := cand.sid, sourceID := fid }
              | _, _ => ({ sid := cand.sid } : Shard))) ∧
    ((fro = none ∨ ∃ fid, fro = some fid ∧ fid ≠ toId) →
      (moveShard st cand fro toId).2 = true →
      (findShard toI.shards cand.sid).any
        (fun cur => cur.state = Leaving) = true →
      ∀ oid oI, oid ∈ s2iGet st.s2i cand.sid →
        (∀ fid, fro = some fid → oid ≠ fid) → oid ≠ toId →
        lookupInst st oid = some oI →
        lookupInst (moveShard st cand fro toId).1 oid =
          some { oI with shards := oI.shards.map (clearLinkT cand.sid toId) }) := by
  by_cases hcan : canAssignInstance st cand.sid fro toI = true
  · by_cases hL : cand.state = Leaving
    · have hred : moveShard st cand fro toId = (st, false) := by
        unfold moveShard
        rw [hto]
        try dsimp only
        rw [if_neg (by simp [hcan]), if_pos hL]
      refine ⟨?_, ?_, ?_, ?_, ?_⟩
      · rw [hred]
        simp [hL]
      · intro fid fI _ _ _ _ htrue
        rw [hred] at htrue
        simp at htrue
      · intro fid fI _ _ _ _ htrue
        rw [hred] at htrue
        simp at htrue
      · intro _ htrue
        rw [hred] at htrue
        simp at htrue
      · intro _ htrue
        rw [hred] at htrue
        simp at htrue
    · -- success path
      have h2true : (moveShard st cand fro toId).2 = true := by
        unfold moveShard
        rw [hto]
        try dsimp only
        rw [if_neg (by simp [hcan]), if_neg hL]
        cases fro with
        | none =>
          try dsimp only
          split
          · rfl
          · split
            · split
              · rfl
              · rfl
            · rfl
        | some fid =>
          try dsimp only
          split
          · rfl
          · split
            · split
              · rfl
              · rfl
            · rfl
      refine ⟨by simp [h2true, hcan, hL], ?_, ?_, ?_, ?_⟩
      · -- from-side effect for Unknown/Initializing
        intro fid fI hfid hne hfI hstate _
        subst hfid
        rcases hfb : moveShardFromBlock st cand fid with ⟨st1, ns⟩
        have hst1to : lookupInst st1 toId = some toI := by
          have h := lookupInst_fromBlock_other st cand fid toId
            (fun h => hne h.symm)
          rw [hfb] at h
          try dsimp only at h
          rw [h, hto]
        have hst1fid : lookupInst st1 fid =
            some { fI with shards := removeShard fI.shards cand.sid } := by
          have h := lookupInst_fromBlock_self st cand fid fI hfI
          rw [hfb] at h
          try dsimp only at h
          rcases hstate with hs | hs <;> rw [hs] at h <;> exact h
        have hs2i1 : st1.s2i = s2iRemoveOwner st.s2i cand.sid fid := by
          have h := fromBlock_s2i st cand fid
          rw [hfb] at h
          exact h
        unfold moveShard
        rw [hto]
        try dsimp only
        rw [if_neg (by simp [hcan]), if_neg hL]
        try dsimp only
        rw [hfb]
        try dsimp only
        rw [hst1to]
        try dsimp only
        cases hcur : findShard toI.shards cand.sid with
        | some cur =>
          try dsimp only
          by_cases hcurL : cur.state = Leaving
          · rw [if_pos hcurL]
            try dsimp only
            rw [lookupInst_assignShard_other hne]
            have hnotin : fid ∉ s2iGet st1.s2i cand.sid := by
              rw [hs2i1, s2iGet_removeOwner_self]
              intro hmem
              have := (List.mem_filter.1 hmem).2
              simp at this
            have h := (lookupInst_clearFold cand.sid toId
              (s2iGet st1.s2i cand.sid) st1 fid).1 hnotin
            unfold clearSourceLinks
            rw [h, hst1fid]
          · rw [if_neg hcurL]
            try dsimp only
            rw [lookupInst_assignShard_other hne, hst1fid]
        | none =>
          try dsimp only
          rw [lookupInst_assignShard_other hne, hst1fid]
      · -- from-side effect for Available
        intro fid fI hfid hne hfI hstate _
        subst hfid
        rcases hfb : moveShardFromBlock st cand fid with ⟨st1, ns⟩
        have hst1to : lookupInst st1 toId = some toI := by
          have h := lookupInst_fromBlock_other st cand fid toId
            (fun h => hne h.symm)
          rw [hfb] at h
          try dsimp only at h
          rw [h, hto]
        have hst1fid : lookupInst st1 fid =
            some { fI with shards := fI.shards.map (stampLeavingT cand.sid st.opts.shardCutoffNanos) } := by
          have h := lookupInst_fromBlock_self st cand fid fI hfI
          rw [hfb] at h
          try dsimp only at h
          rw [hstate] at h
          exact h
        have hs2i1 : st1.s2i = s2iRemoveOwner st.s2i cand.sid fid := by
          have h := fromBlock_s2i st cand fid
          rw [hfb] at h
          exact h
        unfold moveShard
        rw [hto]
        try dsimp only
        rw [if_neg (by simp [hcan]), if_neg hL]
        try dsimp only
        rw [hfb]
        try dsimp only
        rw [hst1to]
        try dsimp only
        cases hcur : findShard toI.shards cand.sid with
        | some cur =>
          try dsimp only
          by_cases hcurL : cur.state = Leaving
          · rw [if_pos hcurL]
            try dsimp only
            rw [lookupInst_assignShard_other hne]
            have hnotin : fid ∉ s2iGet st1.s2i cand.sid := by
              rw [hs2i1, s2iGet_removeOwner_self]
              intro hmem
              have := (List.mem_filter.1 hmem).2
              simp at this
            have h := (lookupInst_clearFold cand.sid toId
              (s2iGet st1.s2i cand.sid) st1 fid).1 hnotin
            unfold clearSourceLinks
            rw [h, hst1fid]
          · rw [if_neg hcurL]
            try dsimp only
            rw [lookupInst_assignShard_other hne, hst1fid]
        | none =>
          try dsimp only
          rw [lookupInst_assignShard_other hne, hst1fid]
      · -- the new shard on `to`
        intro hfro _
        rcases hfro with hnone | ⟨fid, hfid, hne⟩
        · subst hnone
          unfold moveShard
          rw [hto]
          try dsimp only
          rw [if_neg (by simp [hcan]), if_neg hL]
          try dsimp only
          rw [hto]
          try dsimp only
          cases hcur : findShard toI.shards cand.sid with
          | some cur =>
            try dsimp only
            by_cases hcurL : cur.state = Leaving
            · rw [if_pos hcurL]
              try dsimp only
              rw [if_pos (by simp [hcurL])]
              by_cases htoIn : toId ∈ s2iGet st.s2i cand.sid
              · have hx := (lookupInst_clearFold cand.sid toId
                  (s2iGet st.s2i cand.sid) st toId).2 toI htoIn hto
                refine ⟨_, lookupInst_assignShard_self (by unfold clearSourceLinks; exact hx), ?_⟩
                exact findShard_addShard_self _ _
              · have hx := (lookupInst_clearFold cand.sid toId
                  (s2iGet st.s2i cand.sid) st toId).1 htoIn
                refine ⟨_, lookupInst_assignShard_self (by unfold clearSourceLinks; rw [hx]; exact hto), ?_⟩
                exact findShard_addShard_self _ _
            · rw [if_neg hcurL]
              try dsimp only
              rw [if_neg (by simp [hcurL])]
              refine ⟨_, lookupInst_assignShard_self hto, ?_⟩
              have := findShard_addShard_self toI.shards ({ sid := cand.sid } : Shard)
              cases hstv : cand.state <;> exact this
          | none =>
            try dsimp only
            rw [if_neg (by simp)]
            refine ⟨_, lookupInst_assignShard_self hto, ?_⟩
            have := findShard_addShard_self toI.shards ({ sid := cand.sid } : Shard)
            cases hstv : cand.state <;> exact this
        · subst hfid
          rcases hfb : moveShardFromBlock st cand fid with ⟨st1, ns⟩
          have hst1to : lookupInst st1 toId = some toI := by
            have h := lookupInst_fromBlock_other st cand fid toId
              (fun h => hne h.symm)
            rw [hfb] at h
            try dsimp only at h
            rw [h, hto]
          have hns : ns = (match cand.state with
              | Unknown => { sid := cand.sid, sourceID := cand.sourceID }
              | Initializing => { sid := cand.sid, sourceID := cand.sourceID }
              | Available => { sid := cand.sid, sourceID := fid }
              | Leaving => ({ sid := cand.sid } : Shard)) := by
            have h := fromBlock_snd st cand fid
            rw [hfb] at h
            exact h
          unfold moveShard
          rw [hto]
          try dsimp only
          rw [if_neg (by simp [hcan]), if_neg hL]
          try dsimp only
          rw [hfb]
          try dsimp only
          rw [hst1to]
          try dsimp only
          cases hcur : findShard toI.shards cand.sid with
          | some cur =>
            try dsimp only
            by_cases hcurL : cur.state = Leaving
            · rw [if_pos hcurL]
              try dsimp only
              rw [if_pos (by simp [hcurL])]
              by_cases htoIn : toId ∈ s2iGet st1.s2i cand.sid
              · have hx := (lookupInst_clearFold cand.sid toId
                  (s2iGet st1.s2i cand.sid) st1 toId).2 toI htoIn hst1to
                refine ⟨_, lookupInst_assignShard_self (by unfold clearSourceLinks; exact hx), ?_⟩
                exact findShard_addShard_self _ _
              · have hx := (lookupInst_clearFold cand.sid toId
                  (s2iGet st1.s2i cand.sid) st1 toId).1 htoIn
                refine ⟨_, lookupInst_assignShard_self (by unfold clearSourceLinks; rw [hx]; exact hst1to), ?_⟩
                exact findShard_addShard_self _ _
            · rw [if_neg hcurL]
              try dsimp only
              rw [if_neg (by simp [hcurL])]
              refine ⟨_, lookupInst_assignShard_self hst1to, ?_⟩
              rw [hns]
              cases hstv : cand.state <;> exact findShard_addShard_self _ _
          | none =>
            try dsimp only
            rw [if_neg (by simp)]
            refine ⟨_, lookupInst_assignShard_self hst1to, ?_⟩
            rw [hns]
            cases hstv : cand.state <;> exact findShard_addShard_self _ _
      · -- reclaim clears the other owners' links
        intro hfro _ hrec oid oI hmem hnf hnt hoI
        have hcurex : ∃ cur, findShard toI.shards cand.sid = some cur ∧
            cur.state = Leaving := by
          cases hcur : findShard toI.shards cand.sid with
          | some cur =>
            rw [hcur] at hrec
            simp only [Option.any_some, decide_eq_true_eq] at hrec
            exact ⟨cur, rfl, hrec⟩
          | none =>
            rw [hcur] at hrec
            simp at hrec
        rcases hcurex with ⟨cur, hcur, hcurL⟩
        rcases hfro with hnone | ⟨fid, hfid, hne⟩
        · subst hnone
          unfold moveShard
          rw [hto]
          try dsimp only
          rw [if_neg (by simp [hcan]), if_neg hL]
          try dsimp only
          rw [hto]
          try dsimp only
          rw [hcur]
          try dsimp only
          rw [if_pos hcurL]
          try dsimp only
          rw [lookupInst_assignShard_other hnt]
          have hx := (lookupInst_clearFold cand.sid toId
            (s2iGet st.s2i cand.sid) st oid).2 oI hmem hoI
          unfold clearSourceLinks
          exact hx
        · subst hfid
          rcases hfb : moveShardFromBlock st cand fid with ⟨st1, ns⟩
          have hst1to : lookupInst st1 toId = some toI := by
            have h := lookupInst_fromBlock_other st cand fid toId
              (fun h => hne h.symm)
            rw [hfb] at h
            try dsimp only at h
            rw [h, hto]
          have hs2i1 : st1.s2i = s2iRemoveOwner st.s2i cand.sid fid := by
            have h := fromBlock_s2i st cand fid
            rw [hfb] at h
            exact h
          have hnfid : oid ≠ fid := hnf fid rfl
          have hst1oid : lookupInst st1 oid = some oI := by
            have h := lookupInst_fromBlock_other st cand fid oid hnfid
            rw [hfb] at h
            try dsimp only at h
            rw [h, hoI]
          have hmem1 : oid ∈ s2iGet st1.s2i cand.sid := by
            rw [hs2i1, s2iGet_removeOwner_self]
            exact List.mem_filter.2 ⟨hmem, by simpa using hnfid⟩
          unfold moveShard
          rw [hto]
          try dsimp only
          rw [if_neg (by simp [hcan]), if_neg hL]
          try dsimp only
          rw [hfb]
          try dsimp only
          rw [hst1to]
          try dsimp only
          rw [hcur]
          try dsimp only
          rw [if_pos hcurL]
          try dsimp only
          rw [lookupInst_assignShard_other hnt]
          have hx := (lookupInst_clearFold cand.sid toId
            (s2iGet st1.s2i cand.sid) st1 oid).2 oI hmem1 hst1oid
          unfold clearSourceLinks
          exact hx
  · have hcan' : canAssignInstance st cand.sid fro toI = false := by
      simpa using hcan
    have hred : moveShard st cand fro toId = (st, false) := by
      unfold moveShard
      rw [hto]
      try dsimp only
      rw [if_pos (by simp [hcan'])]
    refine ⟨?_, ?_, ?_, ?_, ?_⟩
    · rw [hred]
      simp [hcan']
    · intro fid fI _ _ _ _ htrue
      rw [hred] at htrue
      simp at htrue
    · intro fid fI _ _ _ _ htrue
      rw [hred] at htrue
      simp at htrue
    · intro _ htrue
      rw [hred] at htrue
      simp at htrue
    · intro _ htrue
      rw [hred] at htrue
      simp at htrue


/-- Witness for C5: concrete application at a one-instance helper state
receiving a fresh Unknown shard. -/
theorem moveShard_behavior_witness :
    ((moveShard stTiny candTiny none "t1").2 = false ↔
      (canAssignInstance stTiny candTiny.sid none instT1 = false ∨
        candTiny.state = Leaving)) ∧
    (∀ fid fI, none = some fid → fid ≠ "t1" → lookupInst stTiny fid = some fI →
      (candTiny.state = Unknown ∨ candTiny.state = Initializing) →
      (moveShard stTiny candTiny none "t1").2 = true →
      lookupInst (moveShard stTiny candTiny none "t1").1 fid =
        some { fI with shards := removeShard fI.shards candTiny.sid }) ∧
    (∀ fid fI, none = some fid → fid ≠ "t1" → lookupInst stTiny fid = some fI →
      candTiny.state = Available →
      (moveShard stTiny candTiny none "t1").2 = true →
      lookupInst (moveShard stTiny candTiny none "t1").1 fid =
        some { fI with shards := fI.shards.map (stampLeavingT candTiny.sid stTiny.opts.shardCutoffNanos) }) ∧
    ((none = (none : Option String) ∨ ∃ fid, none = some fid ∧ fid ≠ "t1") →
      (moveShard stTiny candTiny none "t1").2 = true →
      ∃ toI', lookupInst (moveShard stTiny candTiny none "t1").1 "t1" = some toI' ∧
        findShard toI'.shards candTiny.sid =
          some (if (findShard instT1.shards candTiny.sid).any
                (fun cur => cur.state = Leaving) = true then
              { sid := candTiny.sid, state := Available }
            else
              match (none : Option String), candTiny.state with
              | some _, Unknown => { sid := candTiny.sid, sourceID := candTiny.sourceID }
              | some _, Initializing => { sid := candTiny.sid, sourceID := candTiny.sourceID }
              | some fid, Available => { sid := candTiny.sid, sourceID := fid }
              | _, _ => ({ sid := candTiny.sid } : Shard))) ∧
    ((none = (none : Option String) ∨ ∃ fid, none = some fid ∧ fid ≠ "t1") →
      (moveShard stTiny candTiny none "t1").2 = true →
      (findShard instT1.shards candTiny.sid).any
        (fun cur => cur.state = Leaving) = true →
      ∀ oid oI, oid ∈ s2iGet stTiny.s2i candTiny.sid →
        (∀ fid, (none : Option String) = some fid → oid ≠ fid) → oid ≠ "t1" →
        lookupInst stTiny oid = some oI →
        lookupInst (moveShard stTiny candTiny none "t1").1 oid =
          some { oI with shards := oI.shards.map (clearLinkT candTiny.sid "t1") }) :=
  moveShard_behavior stTiny candTiny none "t1" instT1 (by decide)


theorem findShard_removeShard_self (ss : List Shard) (d : Nat) :
    findShard (removeShard ss d) d = none := by
  unfold findShard removeShard
  rw [List.find?_eq_none]
  intro t ht
  have h2 := (List.mem_filter.1 ht).2
  simp only [ne_eq, decide_not, Bool.not_eq_true', decide_eq_false_iff_not] at h2
  simpa using h2

theorem findShard_cons_of_sid_eq {t : Shard} {ts : List Shard} {e : Nat}
    (h : t.sid = e) : findShard (t :: ts) e = some t := by
  unfold findShard
  rw [List.find?_cons_of_pos _ (by simpa using h)]

theorem findShard_cons_of_sid_ne {t : Shard} {ts : List Shard} {e : Nat}
    (h : t.sid ≠ e) : findShard (t :: ts) e = findShard ts e := by
  unfold findShard
  rw [List.find?_cons_of_neg _ (by simpa using h)]

theorem findShard_removeShard_other (ss : List Shard) (d e : Nat)
    (hne : e ≠ d) : findShard (removeShard ss d) e = findShard ss e := by
  induction ss with
  | nil => rfl
  | cons t ts ih =>
    unfold removeShard at ih ⊢
    by_cases ht : t.sid = d
    · rw [List.filter_cons_of_neg (by simpa using ht),
        findShard_cons_of_sid_ne (by rw [ht]; exact fun h => hne h.symm)]
      exact ih
    · rw [List.filter_cons_of_pos (by simpa using ht)]
      by_cases hte : t.sid = e
      · rw [findShard_cons_of_sid_eq hte, findShard_cons_of_sid_eq hte]
      · rw [findShard_cons_of_sid_ne hte, findShard_cons_of_sid_ne hte]
        exact ih

theorem stampLeavingT_sid (d : Nat) (c : Int) (t : Shard) :
    (stampLeavingT d c t).sid = t.sid := by
  unfold stampLeavingT
  by_cases h : t.sid = d <;> simp [h]

theorem clearLinkT_sid (d : Nat) (tid : String) (t : Shard) :
    (clearLinkT d tid t).sid = t.sid := by
  unfold clearLinkT
  by_cases h : t.sid = d ∧ t.sourceID = tid <;> simp [h]

theorem clearLinkT_state (d : Nat) (tid : String) (t : Shard) :
    (clearLinkT d tid t).state = t.state := by
  unfold clearLinkT
  by_cases h : t.sid = d ∧ t.sourceID = tid <;> simp [h]

theorem findShard_map_stamp (ss : List Shard) (d : Nat) (c : Int) (e : Nat) :
    findShard (ss.map (stampLeavingT d c)) e =
      (findShard ss e).map (stampLeavingT d c) := by
  unfold findShard
  rw [List.find?_map]
  have hp : ((fun t : Shard => decide (t.sid = e)) ∘ stampLeavingT d c) =
      (fun t : Shard => decide (t.sid = e)) := by
    funext t
    simp [Function.comp, stampLeavingT_sid]
  rw [hp]

theorem findShard_map_clear (ss : List Shard) (d : Nat) (tid : String)
    (e : Nat) :
    findShard (ss.map (clearLinkT d tid)) e =
      (findShard ss e).map (clearLinkT d tid) := by
  unfold findShard
  rw [List.find?_map]
  have hp : ((fun t : Shard => decide (t.sid = e)) ∘ clearLinkT d tid) =
      (fun t : Shard => decide (t.sid = e)) := by
    funext t
    simp [Function.comp, clearLinkT_sid]
  rw [hp]

theorem findShard_addShard_other (ss : List Shard) (s : Shard) (e : Nat)
    (hne : e ≠ s.sid) : findShard (addShard ss s) e = findShard ss e := by
  induction ss with
  | nil =>
    unfold addShard
    rw [findShard_cons_of_sid_ne (fun h => hne h.symm)]
  | cons t ts ih =>
    unfold addShard
    by_cases ht : t.sid = s.sid
    · rw [if_pos ht, findShard_cons_of_sid_ne (fun h => hne h.symm),
        findShard_cons_of_sid_ne (by rw [ht]; exact fun h => hne h.symm)]
    · rw [if_neg ht]
      by_cases hte : t.sid = e
      · rw [findShard_cons_of_sid_eq hte, findShard_cons_of_sid_eq hte]
      · rw [findShard_cons_of_sid_ne hte, findShard_cons_of_sid_ne hte]
        exact ih

theorem owns_map_clear (i : Instance) (d0 : Nat) (tid : String) (d : Nat) :
    ownsNonLeavingB { i with shards := i.shards.map (clearLinkT d0 tid) } d =
      ownsNonLeavingB i d := by
  unfold ownsNonLeavingB
  dsimp only
  rw [findShard_map_clear]
  cases findShard i.shards d with
  | none => rfl
  | some t => simp [clearLinkT_state]

theorem owns_removeShard (i : Instance) (d0 d : Nat) :
    ownsNonLeavingB { i with shards := removeShard i.shards d0 } d =
      if d = d0 then false else ownsNonLeavingB i d := by
  unfold ownsNonLeavingB
  dsimp only
  by_cases h : d = d0
  · subst h
    rw [findShard_removeShard_self]
    simp
  · rw [findShard_removeShard_other _ _ _ h, if_neg h]

theorem owns_map_stamp (i : Instance) (d0 : Nat) (c : Int) (d : Nat) :
    ownsNonLeavingB { i with shards := i.shards.map (stampLeavingT d0 c) } d =
      if d = d0 then false else ownsNonLeavingB i d := by
  unfold ownsNonLeavingB
  dsimp only
  rw [findShard_map_stamp]
  by_cases h : d = d0
  · subst h
    cases hf : findShard i.shards d with
    | none => simp
    | some t =>
      have hsid : t.sid = d := by
        have h2 := List.find?_some hf
        simpa using h2
      have hstate : (stampLeavingT d c t).state = Leaving := by
        unfold stampLeavingT
        rw [if_pos hsid]
      simp [hstate]
  · rw [if_neg h]
    cases hf : findShard i.shards d with
    | none => simp
    | some t =>
      have hsid : t.sid = d := by
        have h2 := List.find?_some hf
        simpa using h2
      have : stampLeavingT d0 c t = t := by
        unfold stampLeavingT
        rw [if_neg (by rw [hsid]; exact h)]
      simp [this]

theorem owns_addShard (i : Instance) (s : Shard) (d : Nat) :
    ownsNonLeavingB { i with shards := addShard i.shards s } d =
      if d = s.sid then decide (s.state ≠ Leaving) else ownsNonLeavingB i d := by
  unfold ownsNonLeavingB
  dsimp only
  by_cases h : d = s.sid
  · subst h
    rw [findShard_addShard_self]
    simp
  · rw [findShard_addShard_other _ _ _ h, if_neg h]

theorem mem_updateInst {l : List Instance} {id : String}
    {g : Instance → Instance} {x' : Instance} (h : x' ∈ updateInst l id g) :
    ∃ x ∈ l, x' = if x.iid = id then g x else x := by
  unfold updateInst at h
  rcases List.mem_map.1 h with ⟨x, hx, hmap⟩
  exact ⟨x, hx, hmap.symm⟩

theorem nodup_iid_inj {l : List Instance}
    (hN : (l.map Instance.iid).Nodup) {a b : Instance} (ha : a ∈ l)
    (hb : b ∈ l) (hab : a.iid = b.iid) : a = b := by
  induction l with
  | nil => cases ha
  | cons c cs ih =>
    have hN' := List.nodup_cons.1 hN
    rcases List.mem_cons.1 ha with rfl | ha' <;>
      rcases List.mem_cons.1 hb with rfl | hb'
    · rfl
    · exact absurd (List.mem_map.2 ⟨b, hb', hab.symm⟩) hN'.1
    · exact absurd (List.mem_map.2 ⟨a, ha', hab⟩) hN'.1
    · exact ih hN'.2 ha' hb'

theorem lookupInst_of_mem {st : HelperState}
    (hN : (st.instances.map Instance.iid).Nodup) {x : Instance}
    (hx : x ∈ st.instances) : lookupInst st x.iid = some x := by
  unfold lookupInst
  rw [find?_iid_of_mem hN hx rfl]

theorem clearFold_mem (d0 : Nat) (tid : String) :
    ∀ (l : List String) (st : HelperState) (x' : Instance),
      x' ∈ (l.foldl (fun acc oid =>
          stUpdateInst acc oid
            (fun i => { i with shards := i.shards.map (clearLinkT d0 tid) }))
          st).instances →
      ∃ x ∈ st.instances, x'.iid = x.iid ∧ x'.rack = x.rack ∧
        ∀ d, ownsNonLeavingB x' d = ownsNonLeavingB x d
  | [], _, x', h => ⟨x', h, rfl, rfl, fun _ => rfl⟩
  | oid :: rest, st, x', h => by
    simp only [List.foldl_cons] at h
    obtain ⟨x1, hx1, hiid, hrack, howns⟩ := clearFold_mem d0 tid rest _ x' h
    have hx1u : x1 ∈ updateInst st.instances oid
        (fun i => { i with shards := i.shards.map (clearLinkT d0 tid) }) := hx1
    obtain ⟨x0, hx0, hx1eq⟩ := mem_updateInst hx1u
    by_cases hid : x0.iid = oid
    · rw [if_pos hid] at hx1eq
      subst hx1eq
      exact ⟨x0, hx0, hiid, hrack, fun d => (howns d).trans (owns_map_clear x0 d0 tid d)⟩
    · rw [if_neg hid] at hx1eq
      refine ⟨x0, hx0, ?_, ?_, ?_⟩
      · rw [hiid, hx1eq]
      · rw [hrack, hx1eq]
      · intro d
        rw [howns d, hx1eq]

theorem fromBlock_mem (st : HelperState) (cand : Shard) (fid : String)
    (x' : Instance) (h : x' ∈ (moveShardFromBlock st cand fid).1.instances) :
    ∃ x ∈ st.instances, x'.iid = x.iid ∧ x'.rack = x.rack ∧
      ∀ d, ownsNonLeavingB x' d =
        if x.iid = fid ∧ d = cand.sid ∧ cand.state ≠ Leaving then false
        else ownsNonLeavingB x d := by
  unfold moveShardFromBlock at h
  cases hstv : cand.state with
  | Unknown =>
    rw [hstv] at h
    dsimp only at h
    obtain ⟨x, hx, heq⟩ := mem_updateInst h
    by_cases hid : x.iid = fid
    · rw [if_pos hid] at heq
      subst heq
      refine ⟨x, hx, rfl, rfl, fun d => ?_⟩
      rw [owns_removeShard]
      by_cases hd : d = cand.sid
      · rw [if_pos hd, if_pos ⟨hid, hd, by simp⟩]
      · rw [if_neg hd, if_neg (fun hc => hd hc.2.1)]
    · rw [if_neg hid] at heq
      refine ⟨x, hx, by rw [heq], by rw [heq], fun d => ?_⟩
      rw [heq, if_neg (fun hc => hid hc.1)]
  | Initializing =>
    rw [hstv] at h
    dsimp only at h
    obtain ⟨x, hx, heq⟩ := mem_updateInst h
    by_cases hid : x.iid = fid
    · rw [if_pos hid] at heq
      subst heq
      refine ⟨x, hx, rfl, rfl, fun d => ?_⟩
      rw [owns_removeShard]
      by_cases hd : d = cand.sid
      · rw [if_pos hd, if_pos ⟨hid, hd, by simp⟩]
      · rw [if_neg hd, if_neg (fun hc => hd hc.2.1)]
    · rw [if_neg hid] at heq
      refine ⟨x, hx, by rw [heq], by rw [heq], fun d => ?_⟩
      rw [heq, if_neg (fun hc => hid hc.1)]
  | Available =>
    rw [hstv] at h
    dsimp only at h
    obtain ⟨x, hx, heq⟩ := mem_updateInst h
    by_cases hid : x.iid = fid
    · rw [if_pos hid] at heq
      subst heq
      refine ⟨x, hx, rfl, rfl, fun d => ?_⟩
      rw [owns_map_stamp]
      by_cases hd : d = cand.sid
      · rw [if_pos hd, if_pos ⟨hid, hd, by simp⟩]
      · rw [if_neg hd, if_neg (fun hc => hd hc.2.1)]
    · rw [if_neg hid] at heq
      refine ⟨x, hx, by rw [heq], by rw [heq], fun d => ?_⟩
      rw [heq, if_neg (fun hc => hid hc.1)]
  | Leaving =>
    rw [hstv] at h
    dsimp only at h
    exact ⟨x', h, rfl, rfl, fun d => by
      rw [if_neg (fun hc => hc.2.2 rfl)]⟩

theorem assign_mem (st : HelperState) (ns : Shard) (toId : String)
    (x' : Instance) (h : x' ∈ (assignShardToInstance st ns toId).instances) :
    ∃ x ∈ st.instances, x'.iid = x.iid ∧ x'.rack = x.rack ∧
      ∀ d, ownsNonLeavingB x' d =
        if x.iid = toId ∧ d = ns.sid then decide (ns.state ≠ Leaving)
        else ownsNonLeavingB x d := by
  unfold assignShardToInstance at h
  dsimp only at h
  obtain ⟨x, hx, heq⟩ := mem_updateInst h
  by_cases hid : x.iid = toId
  · rw [if_pos hid] at heq
    subst heq
    refine ⟨x, hx, rfl, rfl, fun d => ?_⟩
    rw [owns_addShard]
    by_cases hd : d = ns.sid
    · rw [if_pos hd, if_pos ⟨hid, hd⟩]
    · rw [if_neg hd, if_neg (fun hc => hd hc.2)]
  · rw [if_neg hid] at heq
    refine ⟨x, hx, by rw [heq], by rw [heq], fun d => ?_⟩
    rw [heq, if_neg (fun hc => hid hc.1)]

theorem moveShard_cases (st : HelperState) (cand : Shard)
    (fro : Option String) (toId : String) :
    (moveShard st cand fro toId).2 = true ∨
      moveShard st cand fro toId = (st, false) := by
  unfold moveShard
  cases lookupInst st toId with
  | none => exact Or.inr rfl
  | some toI =>
    dsimp only
    by_cases hcan : canAssignInstance st cand.sid fro toI = true
    · rw [if_neg (by simp [hcan])]
      by_cases hL : cand.state = Leaving
      · rw [if_pos hL]
        exact Or.inr rfl
      · rw [if_neg hL]
        left
        cases fro with
        | none =>
          dsimp only
          split
          · rfl
          · split
            · split
              · rfl
              · rfl
            · rfl
        | some fid =>
          dsimp only
          split
          · rfl
          · split
            · split
              · rfl
              · rfl
            · rfl
    · rw [if_pos (by simpa using hcan)]
      exact Or.inr rfl

theorem moveShard_true_facts (st : HelperState) (cand : Shard)
    (fro : Option String) (toId : String)
    (h2 : (moveShard st cand fro toId).2 = true) :
    ∃ toI, lookupInst st toId = some toI ∧
      canAssignInstance st cand.sid fro toI = true ∧
      cand.state ≠ Leaving := by
  unfold moveShard at h2
  cases hto : lookupInst st toId with
  | none =>
    rw [hto] at h2
    simp at h2
  | some toI =>
    rw [hto] at h2
    dsimp only at h2
    by_cases hcan : canAssignInstance st cand.sid fro toI = true
    · by_cases hL : cand.state = Leaving
      · rw [if_neg (by simp [hcan]), if_pos hL] at h2
        simp at h2
      · exact ⟨toI, rfl, hcan, hL⟩
    · rw [if_pos (by simpa using hcan)] at h2
      simp at h2

theorem assign_compose (st0 inner : HelperState) (ns : Shard) (toId : String)
    (F : Instance → Nat → Bool) (hns : ns.state ≠ Leaving)
    (hchar : ∀ y ∈ inner.instances, ∃ x ∈ st0.instances,
      y.iid = x.iid ∧ y.rack = x.rack ∧ ∀ d, ownsNonLeavingB y d = F x d) :
    ∀ x' ∈ (assignShardToInstance inner ns toId).instances,
      ∃ x ∈ st0.instances, x'.iid = x.iid ∧ x'.rack = x.rack ∧
        ∀ d, ownsNonLeavingB x' d =
          if x.iid = toId ∧ d = ns.sid then true else F x d := by
  intro x' hx'
  obtain ⟨y, hy, hiid, hrack, hform⟩ := assign_mem inner ns toId x' hx'
  obtain ⟨x, hx, hiid2, hrack2, hform2⟩ := hchar y hy
  refine ⟨x, hx, hiid.trans hiid2, hrack.trans hrack2, fun d => ?_⟩
  rw [hform d]
  by_cases hc : y.iid = toId ∧ d = ns.sid
  · rw [if_pos hc, if_pos ⟨hiid2 ▸ hc.1, hc.2⟩]
    simp [hns]
  · rw [if_neg hc, hform2 d,
      if_neg (fun hcx => hc ⟨hiid2.symm ▸ hcx.1, hcx.2⟩)]

theorem clear_compose (st0 st1 : HelperState) (d0 : Nat) (tid : String)
    (F : Instance → Nat → Bool)
    (hchar : ∀ y ∈ st1.instances, ∃ x ∈ st0.instances,
      y.iid = x.iid ∧ y.rack = x.rack ∧ ∀ d, ownsNonLeavingB y d = F x d) :
    ∀ x' ∈ (clearSourceLinks st1 d0 tid).instances,
      ∃ x ∈ st0.instances, x'.iid = x.iid ∧ x'.rack = x.rack ∧
        ∀ d, ownsNonLeavingB x' d = F x d := by
  intro x' hx'
  obtain ⟨y, hy, hiid, hrack, hform⟩ :=
    clearFold_mem d0 tid (s2iGet st1.s2i d0) st1 x' hx'
  obtain ⟨x, hx, hiid2, hrack2, hform2⟩ := hchar y hy
  exact ⟨x, hx, hiid.trans hiid2, hrack.trans hrack2,
    fun d => (hform d).trans (hform2 d)⟩

theorem moveShard_success_mem (st : HelperState) (cand : Shard)
    (fro : Option String) (toId : String)
    (h2 : (moveShard st cand fro toId).2 = true)
    (x' : Instance) (hx' : x' ∈ ((moveShard st cand fro toId).1).instances) :
    ∃ x ∈ st.instances, x'.iid = x.iid ∧ x'.rack = x.rack ∧
      ∀ d, ownsNonLeavingB x' d =
        if x.iid = toId ∧ d = cand.sid then true
        else if fro = some x.iid ∧ d = cand.sid then false
        else ownsNonLeavingB x d := by
  obtain ⟨toI, hto, hcan, hL⟩ := moveShard_true_facts st cand fro toId h2
  have hFfrom : ∀ fid, fro = some fid →
      ∀ y ∈ (moveShardFromBlock st cand fid).1.instances,
      ∃ x ∈ st.instances, y.iid = x.iid ∧ y.rack = x.rack ∧
        ∀ d, ownsNonLeavingB y d =
          if fro = some x.iid ∧ d = cand.sid then false
          else ownsNonLeavingB x d := by
    intro fid hfid y hy
    obtain ⟨x, hx, hiid, hrack, hform⟩ := fromBlock_mem st cand fid y hy
    refine ⟨x, hx, hiid, hrack, fun d => ?_⟩
    rw [hform d]
    by_cases hc : x.iid = fid ∧ d = cand.sid
    · rw [if_pos ⟨hc.1, hc.2, hL⟩, if_pos ⟨by rw [hfid, hc.1], hc.2⟩]
    · rw [if_neg (fun hcc => hc ⟨hcc.1, hcc.2.1⟩),
        if_neg (fun hcc => hc ⟨by
          have := hcc.1
          rw [hfid] at this
          exact (Option.some.inj this).symm, hcc.2⟩)]
  have hFid : fro = none → ∀ y ∈ st.instances, ∃ x ∈ st.instances,
      y.iid = x.iid ∧ y.rack = x.rack ∧
      ∀ d, ownsNonLeavingB y d =
        if fro = some x.iid ∧ d = cand.sid then false
        else ownsNonLeavingB x d := by
    intro hn y hy
    refine ⟨y, hy, rfl, rfl, fun d => ?_⟩
    rw [if_neg (fun hc => by rw [hn] at hc; cases hc.1)]
  have havail : (({ sid := cand.sid, state := Available } : Shard)).state ≠ Leaving := by
    simp
  cases hfro : fro with
  | none =>
    subst hfro
    cases hcur : findShard toI.shards cand.sid with
    | some cur =>
      by_cases hcurL : cur.state = Leaving
      · have hred : moveShard st cand none toId =
            (assignShardToInstance (clearSourceLinks st cand.sid toId)
              { sid := cand.sid, state := Available } toId, true) := by
          unfold moveShard
          rw [hto]
          try dsimp only
          rw [if_neg (by simp [hcan]), if_neg hL]
          try dsimp only
          rw [hto]
          try dsimp only
          rw [hcur]
          try dsimp only
          rw [if_pos hcurL]
        rw [hred] at hx'
        have hc1 := clear_compose st st cand.sid toId _ (hFid rfl)
        exact assign_compose st (clearSourceLinks st cand.sid toId)
          { sid := cand.sid, state := Available } toId _ havail hc1 x' hx'
      · have hred : moveShard st cand none toId =
            (assignShardToInstance st { sid := cand.sid } toId, true) := by
          unfold moveShard
          rw [hto]
          try dsimp only
          rw [if_neg (by simp [hcan]), if_neg hL]
          try dsimp only
          rw [hto]
          try dsimp only
          rw [hcur]
          try dsimp only
          rw [if_neg hcurL]
        rw [hred] at hx'
        exact assign_compose st st { sid := cand.sid } toId _ (by simp)
          (hFid rfl) x' hx'
    | none =>
      have hred : moveShard st cand none toId =
          (assignShardToInstance st { sid := cand.sid } toId, true) := by
        unfold moveShard
        rw [hto]
        try dsimp only
        rw [if_neg (by simp [hcan]), if_neg hL]
        try dsimp only
        rw [hto]
        try dsimp only
        rw [hcur]
      rw [hred] at hx'
      exact assign_compose st st { sid := cand.sid } toId _ (by simp)
        (hFid rfl) x' hx'
  | some fid =>
    subst hfro
    rcases hfb : moveShardFromBlock st cand fid with ⟨st1, ns⟩
    have hchar1 : ∀ y ∈ st1.instances, ∃ x ∈ st.instances,
        y.iid = x.iid ∧ y.rack = x.rack ∧
        ∀ d, ownsNonLeavingB y d =
          if some fid = some x.iid ∧ d = cand.sid then false
          else ownsNonLeavingB x d := by
      intro y hy
      exact hFfrom fid rfl y (by rw [hfb]; exact hy)
    have hnsid : ns.sid = cand.sid := by
      have h := fromBlock_snd st cand fid
      rw [hfb] at h
      dsimp only at h
      rw [h]
      cases cand.state <;> rfl
    have hnsL : ns.state ≠ Leaving := by
      have h := fromBlock_snd st cand fid
      rw [hfb] at h
      dsimp only at h
      rw [h]
      cases cand.state <;> simp
    cases hlk : lookupInst st1 toId with
    | none =>
      have hred : moveShard st cand (some fid) toId =
          (assignShardToInstance st1 ns toId, true) := by
        unfold moveShard
        rw [hto]
        try dsimp only
        rw [if_neg (by simp [hcan]), if_neg hL]
        try dsimp only
        rw [hfb]
        try dsimp only
        rw [hlk]
      rw [hred] at hx'
      have h := assign_compose st st1 ns toId _ hnsL hchar1 x' hx'
      rw [hnsid] at h
      exact h
    | some to1 =>
      cases hcur : findShard to1.shards cand.sid with
      | some cur =>
        by_cases hcurL : cur.state = Leaving
        · have hred : moveShard st cand (some fid) toId =
              (assignShardToInstance (clearSourceLinks st1 cand.sid toId)
                { sid := cand.sid, state := Available } toId, true) := by
            unfold moveShard
            rw [hto]
            try dsimp only
            rw [if_neg (by simp [hcan]), if_neg hL]
            try dsimp only
            rw [hfb]
            try dsimp only
            rw [hlk]
            try dsimp only
            rw [hcur]
            try dsimp only
            rw [if_pos hcurL]
          rw [hred] at hx'
          have hc1 := clear_compose st st1 cand.sid toId _ hchar1
          exact assign_compose st (clearSourceLinks st1 cand.sid toId)
            { sid := cand.sid, state := Available } toId _ havail hc1 x' hx'
        · have hred : moveShard st cand (some fid) toId =
              (assignShardToInstance st1 ns toId, true) := by
            unfold moveShard
            rw [hto]
            try dsimp only
            rw [if_neg (by simp [hcan]), if_neg hL]
            try dsimp only
            rw [hfb]
            try dsimp only
            rw [hlk]
            try dsimp only
            rw [hcur]
            try dsimp only
            rw [if_neg hcurL]
          rw [hred] at hx'
          have h := assign_compose st st1 ns toId _ hnsL hchar1 x' hx'
          rw [hnsid] at h
          exact h
      | none =>
        have hred : moveShard st cand (some fid) toId =
            (assignShardToInstance st1 ns toId, true) := by
          unfold moveShard
          rw [hto]
          try dsimp only
          rw [if_neg (by simp [hcan]), if_neg hL]
          try dsimp only
          rw [hfb]
          try dsimp only
          rw [hlk]
          try dsimp only
          rw [hcur]
        rw [hred] at hx'
        have h := assign_compose st st1 ns toId _ hnsL hchar1 x' hx'
        rw [hnsid] at h
        exact h

/-- C3: with `looseRackCheck` off, a successful `moveShard` on a
consistent helper state preserves rack diversity: no two distinct
instances on one rack both own the same shard id in a state other than
Leaving.  The hypotheses on `from` cover its three call-site shapes: nil,
a helper instance owning the candidate shard, or an instance already
removed from the helper (in which case no helper instance on its rack
owns the shard). -/
theorem moveShard_preserves_rackDiversity (st : HelperState) (cand : Shard)
    (fro : Option String) (toId : String) (toI : Instance)
    (hN : (st.instances.map Instance.iid).Nodup)
    (hcons : s2iConsistent st)
    (hdiv : rackDiversityOk st.instances)
    (hloose : st.opts.looseRackCheck = false)
    (htoI : toI ∈ st.instances) (htoid : toI.iid = toId)
    (hfro : fro = none ∨
      (∃ fid fI, fro = some fid ∧ fI ∈ st.instances ∧ fI.iid = fid ∧
        ownsNonLeavingB fI cand.sid = true) ∨
      (∃ fid f, fro = some fid ∧ (∀ i ∈ st.instances, i.iid ≠ fid) ∧
        lookupInst st fid = some f ∧
        ∀ i ∈ st.instances, i.rack = f.rack →
          ownsNonLeavingB i cand.sid = false)) :
    rackDiversityOk ((moveShard st cand fro toId).1).instances := by
  rcases moveShard_cases st cand fro toId with h2 | hfail
  swap
  · rw [hfail]
    exact hdiv
  intro i' hi' j' hj' hne hrack d hboth
  obtain ⟨i0, hi0, hiI, hiR, hiF⟩ :=
    moveShard_success_mem st cand fro toId h2 i' hi'
  obtain ⟨j0, hj0, hjI, hjR, hjF⟩ :=
    moveShard_success_mem st cand fro toId h2 j' hj'
  have hne0 : i0.iid ≠ j0.iid := by
    rw [← hiI, ← hjI]
    exact hne
  have hrack0 : i0.rack = j0.rack := by
    rw [← hiR, ← hjR]
    exact hrack
  obtain ⟨toI', hto', hcan, hL⟩ := moveShard_true_facts st cand fro toId h2
  have hlook : lookupInst st toId = some toI := by
    rw [← htoid]
    exact lookupInst_of_mem hN htoI
  have htoIeq : toI' = toI := by
    rw [hlook] at hto'
    exact (Option.some.inj hto').symm
  rw [htoIeq] at hcan
  obtain ⟨hown, hrackcase⟩ := (canAssignTrueChar st cand.sid fro toI).1 hcan
  have hrackcase' := hrackcase.resolve_left (by rw [hloose]; simp)
  rw [hiF d, hjF d] at hboth
  by_cases hd : d = cand.sid
  · subst hd
    -- the no-other-owner-on-the-rack fact for a pre-owner on toI's rack
    have key : ∀ b0, b0 ∈ st.instances →
        ownsNonLeavingB b0 cand.sid = true → fro ≠ some b0.iid →
        b0.rack = toI.rack → False := by
      intro b0 hb0 hbown hbf hbr
      rcases hrackcase' with ⟨fid, f, hfid, hlf, hfr⟩ | hscan
      · rcases hfro with hfn | ⟨fid', fI, hfid', hfIin, hfIid, hfIown⟩ |
          ⟨fid', f', hfid', hnofid, hlf', hnone⟩
        · rw [hfn] at hfid
          cases hfid
        · have hfid2 : fid' = fid := by
            rw [hfid'] at hfid
            exact Option.some.inj hfid
          have hlfI : lookupInst st fid = some fI := by
            rw [← hfid2, ← hfIid]
            exact lookupInst_of_mem hN hfIin
          have hffI : f = fI := by
            rw [hlfI] at hlf
            exact (Option.some.inj hlf).symm
          by_cases hbfid : b0.iid = fid
          · exact hbf (by rw [hfid', hfid2, hbfid])
          · have hfIne : fI.iid ≠ b0.iid := by
              rw [hfIid, hfid2]
              exact fun h => hbfid h.symm
            have hfIr : fI.rack = b0.rack := by
              rw [← hffI, hfr, hbr]
            exact hdiv fI hfIin b0 hb0 hfIne hfIr cand.sid ⟨hfIown, hbown⟩
        · have hfid2 : fid' = fid := by
            rw [hfid'] at hfid
            exact Option.some.inj hfid
          have hff : f' = f := by
            rw [hfid2, hlf] at hlf'
            exact (Option.some.inj hlf').symm
          have : ownsNonLeavingB b0 cand.sid = false := by
            apply hnone b0 hb0
            rw [hff, hfr, hbr]
          rw [this] at hbown
          cases hbown
      · have hbmem : b0.iid ∈ s2iGet st.s2i cand.sid :=
          (hcons cand.sid b0 hb0).2 hbown
        exact hscan b0.iid hbmem b0 (lookupInst_of_mem hN hb0) hbr
    -- classify each side: toId, or a surviving pre-owner
    have hside : ∀ a0 : Instance, a0 ∈ st.instances →
        (if a0.iid = toId ∧ cand.sid = cand.sid then true
          else if fro = some a0.iid ∧ cand.sid = cand.sid then false
          else ownsNonLeavingB a0 cand.sid) = true →
        a0.iid = toId ∨
          (ownsNonLeavingB a0 cand.sid = true ∧ fro ≠ some a0.iid) := by
      intro a0 _ hf
      by_cases hato : a0.iid = toId
      · exact Or.inl hato
      · rw [if_neg (fun hc => hato hc.1)] at hf
        by_cases haf : fro = some a0.iid
        · rw [if_pos ⟨haf, rfl⟩] at hf
          cases hf
        · rw [if_neg (fun hc => haf hc.1)] at hf
          exact Or.inr ⟨hf, haf⟩
    rcases hside i0 hi0 hboth.1 with hito | ⟨hiown, hif⟩
    · rcases hside j0 hj0 hboth.2 with hjto | ⟨hjown, hjf⟩
      · exact hne0 (hito.trans hjto.symm)
      · have hi0toI : i0 = toI := nodup_iid_inj hN hi0 htoI (by rw [hito, htoid])
        exact key j0 hj0 hjown hjf (by rw [← hrack0, hi0toI])
    · rcases hside j0 hj0 hboth.2 with hjto | ⟨hjown, hjf⟩
      · have hj0toI : j0 = toI := nodup_iid_inj hN hj0 htoI (by rw [hjto, htoid])
        exact key i0 hi0 hiown hif (by rw [hrack0, hj0toI])
      · exact hdiv i0 hi0 j0 hj0 hne0 hrack0 cand.sid ⟨hiown, hjown⟩
  · rw [if_neg (fun hc : i0.iid = toId ∧ d = cand.sid => hd hc.2),
      if_neg (fun hc : fro = some i0.iid ∧ d = cand.sid => hd hc.2),
      if_neg (fun hc : j0.iid = toId ∧ d = cand.sid => hd hc.2),
      if_neg (fun hc : fro = some j0.iid ∧ d = cand.sid => hd hc.2)] at hboth
    exact hdiv i0 hi0 j0 hj0 hne0 hrack0 d hboth


/-- Witness for C3: on the concrete one-instance state `stTiny`, moving
the fresh shard `candTiny` onto instance t1 preserves rack diversity,
with every hypothesis of the theorem discharged at this input. -/
theorem moveShard_preserves_rackDiversity_witness :
    rackDiversityOk ((moveShard stTiny candTiny none "t1").1).instances := by
  apply moveShard_preserves_rackDiversity stTiny candTiny none "t1" instT1
  · decide
  · intro d i hi
    rw [stTiny, List.mem_singleton] at hi
    subst hi
    constructor
    · intro h
      simp [stTiny, s2iGet] at h
    · intro h
      simp [ownsNonLeavingB, findShard] at h
  · intro i hi j hj hne hr d hb
    rw [stTiny, List.mem_singleton] at hi hj
    exact hne (by rw [hi, hj])
  · rfl
  · rw [stTiny, List.mem_singleton]
    rfl
  · rfl
  · exact Or.inl rfl

/-! ### Binary64 rounding lemmas for the isRackOverWeight analysis -/

theorem rhe_near (s : ℚ) : |(rhe s : ℚ) - s| ≤ 1/2 := by
  have hn1 : (⌊s⌋ : ℚ) ≤ s := Int.floor_le s
  have hn2 : s < ⌊s⌋ + 1 := Int.lt_floor_add_one s
  simp only [rhe]
  split_ifs with h1 h2 h3 <;> rw [abs_le] <;> constructor <;> push_cast <;> linarith

theorem floor_le_rhe (s : ℚ) : ⌊s⌋ ≤ rhe s := by
  simp only [rhe]
  split_ifs <;> omega

theorem rhe_le_floor_succ (s : ℚ) : rhe s ≤ ⌊s⌋ + 1 := by
  simp only [rhe]
  split_ifs <;> omega

theorem rhe_intCast (n : ℤ) : rhe (n : ℚ) = n := by
  simp [rhe]

theorem rhe_mono {s t : ℚ} (h : s ≤ t) : rhe s ≤ rhe t := by
  have hf : ⌊s⌋ ≤ ⌊t⌋ := Int.floor_le_floor h
  rcases eq_or_lt_of_le hf with he | hl
  · have h1 : (⌊s⌋:ℚ) ≤ s := Int.floor_le s
    have h2 : t < ⌊s⌋ + 1 := by
      rw [he]
      exact Int.lt_floor_add_one t
    simp only [rhe, ← he]
    split_ifs <;> first | omega | (exfalso; linarith)
  · calc rhe s ≤ ⌊s⌋ + 1 := rhe_le_floor_succ s
      _ ≤ ⌊t⌋ := hl
      _ ≤ rhe t := floor_le_rhe t

theorem sig_mem {q : ℚ} (hq : 0 < q) :
    (2:ℚ)^(52:ℤ) ≤ q * 2 ^ (52 - Int.log 2 q) ∧
      q * 2 ^ (52 - Int.log 2 q) < (2:ℚ)^(53:ℤ) := by
  have hE1 : (2:ℚ)^(Int.log 2 q) ≤ q := Int.zpow_log_le_self (by norm_num) hq
  have hE2 : q < (2:ℚ)^(Int.log 2 q + 1) := Int.lt_zpow_succ_log_self (by norm_num) q
  have hpow : (0:ℚ) < 2 ^ (52 - Int.log 2 q) := by positivity
  constructor
  · have := mul_le_mul_of_nonneg_right hE1 hpow.le
    calc (2:ℚ)^(52:ℤ) = 2^(Int.log 2 q) * 2^(52 - Int.log 2 q) := by
          rw [← zpow_add₀ (by norm_num : (2:ℚ) ≠ 0)]
          ring_nf
      _ ≤ q * 2 ^ (52 - Int.log 2 q) := this
  · have := mul_lt_mul_of_pos_right hE2 hpow
    calc q * 2 ^ (52 - Int.log 2 q) < 2^(Int.log 2 q + 1) * 2^(52 - Int.log 2 q) := this
      _ = (2:ℚ)^(53:ℤ) := by
          rw [← zpow_add₀ (by norm_num : (2:ℚ) ≠ 0)]
          ring_nf

theorem rndPos_err {q : ℚ} (hq : 0 < q) : |rndPos q - q| ≤ q / 2^53 := by
  have h2 : (2:ℚ) ≠ 0 := by norm_num
  have hE1 : (2:ℚ)^(Int.log 2 q) ≤ q := Int.zpow_log_le_self (by norm_num) hq
  rw [rndPos]
  set E := Int.log 2 q with hE
  set s := q * 2 ^ (52 - E) with hs
  have hqs : s * 2 ^ (E - 52) = q := by
    rw [hs, mul_assoc, ← zpow_add₀ h2]
    ring_nf
  have hnear := rhe_near s
  have hpow : (0:ℚ) < 2 ^ (E - 52) := by positivity
  have hstep : ((rhe s : ℚ)) * 2 ^ (E - 52) - q = ((rhe s : ℚ) - s) * 2 ^ (E - 52) := by
    rw [sub_mul, hqs]
  rw [hstep, abs_mul, abs_of_pos hpow]
  calc |(rhe s : ℚ) - s| * 2 ^ (E - 52) ≤ (1/2) * 2 ^ (E - 52) :=
      mul_le_mul_of_nonneg_right hnear hpow.le
    _ = 2 ^ E / 2^53 := by
      rw [zpow_sub₀ h2]
      norm_num
      ring
    _ ≤ q / 2^53 := by gcongr

theorem le_rndPos {q : ℚ} (hq : 0 < q) : q - q / 2^53 ≤ rndPos q := by
  have h := (abs_le.mp (rndPos_err hq)).1
  linarith

theorem rndPos_le {q : ℚ} (hq : 0 < q) : rndPos q ≤ q + q / 2^53 := by
  have h := (abs_le.mp (rndPos_err hq)).2
  linarith

theorem rndPos_pos {q : ℚ} (hq : 0 < q) : 0 < rndPos q := by
  have h := le_rndPos hq
  have h53 : q / 2^53 < q := div_lt_self hq (by norm_num)
  linarith

theorem rndPos_mono {x y : ℚ} (hx : 0 < x) (hxy : x ≤ y) : rndPos x ≤ rndPos y := by
  have h2 : (2:ℚ) ≠ 0 := by norm_num
  have hy : 0 < y := lt_of_lt_of_le hx hxy
  have hEle : Int.log 2 x ≤ Int.log 2 y := Int.log_mono_right hx hxy
  rcases eq_or_lt_of_le hEle with he | hl
  · rw [rndPos, rndPos, ← he]
    have hpow : (0:ℚ) ≤ 2 ^ (Int.log 2 x - 52) := by positivity
    apply mul_le_mul_of_nonneg_right _ hpow
    have hsig : x * 2 ^ (52 - Int.log 2 x) ≤ y * 2 ^ (52 - Int.log 2 x) := by
      apply mul_le_mul_of_nonneg_right hxy
      positivity
    exact_mod_cast rhe_mono hsig
  · have hsx := sig_mem hx
    have hsy := sig_mem hy
    have hp53 : ((2:ℚ)^(53:ℤ)) = ((2^53 : ℤ) : ℚ) := by norm_num
    have hp52 : ((2:ℚ)^(52:ℤ)) = ((2^52 : ℤ) : ℚ) := by norm_num
    -- upper bound for x: rndPos x ≤ 2 ^ (Int.log 2 x + 1)
    have hup : rndPos x ≤ (2:ℚ) ^ (Int.log 2 x + 1) := by
      have hfl : (⌊x * 2 ^ (52 - Int.log 2 x)⌋ : ℚ) ≤ x * 2 ^ (52 - Int.log 2 x) :=
        Int.floor_le _
      have hr1 : rhe (x * 2 ^ (52 - Int.log 2 x)) ≤ ⌊x * 2 ^ (52 - Int.log 2 x)⌋ + 1 :=
        rhe_le_floor_succ _
      have hZ2 : ⌊x * 2 ^ (52 - Int.log 2 x)⌋ < (2^53 : ℤ) := by
        have : (⌊x * 2 ^ (52 - Int.log 2 x)⌋ : ℚ) < ((2^53 : ℤ) : ℚ) := by
          rw [← hp53]
          exact lt_of_le_of_lt hfl hsx.2
        exact_mod_cast this
      have hrZ : rhe (x * 2 ^ (52 - Int.log 2 x)) ≤ (2^53 : ℤ) := by omega
      have hrQ : (rhe (x * 2 ^ (52 - Int.log 2 x)) : ℚ) ≤ (2:ℚ)^(53:ℤ) := by
        rw [hp53]
        exact_mod_cast hrZ
      rw [rndPos]
      calc (rhe (x * 2 ^ (52 - Int.log 2 x)) : ℚ) * 2 ^ (Int.log 2 x - 52)
          ≤ (2:ℚ)^(53:ℤ) * 2 ^ (Int.log 2 x - 52) := by
            apply mul_le_mul_of_nonneg_right hrQ
            positivity
        _ = (2:ℚ) ^ (Int.log 2 x + 1) := by
            rw [← zpow_add₀ h2]
            congr 1
            ring
    -- lower bound for y: 2 ^ (Int.log 2 y) ≤ rndPos y
    have hlo : (2:ℚ) ^ (Int.log 2 y) ≤ rndPos y := by
      have hr2 : y * 2 ^ (52 - Int.log 2 y) - 1/2 ≤
          (rhe (y * 2 ^ (52 - Int.log 2 y)) : ℚ) := by
        have := (abs_le.mp (rhe_near (y * 2 ^ (52 - Int.log 2 y)))).1
        linarith
      have hZ2 : (2^52 : ℤ) ≤ rhe (y * 2 ^ (52 - Int.log 2 y)) := by
        have hlt : ((2^52 : ℤ) : ℚ) - 1 < (rhe (y * 2 ^ (52 - Int.log 2 y)) : ℚ) := by
          rw [← hp52]
          have := hsy.1
          linarith
        have : (2^52 : ℤ) - 1 < rhe (y * 2 ^ (52 - Int.log 2 y)) := by exact_mod_cast hlt
        omega
      have hrQ : (2:ℚ)^(52:ℤ) ≤ (rhe (y * 2 ^ (52 - Int.log 2 y)) : ℚ) := by
        rw [hp52]
        exact_mod_cast hZ2
      rw [rndPos]
      calc (2:ℚ) ^ (Int.log 2 y) = (2:ℚ)^(52:ℤ) * 2 ^ (Int.log 2 y - 52) := by
            rw [← zpow_add₀ h2]
            congr 1
            ring
        _ ≤ (rhe (y * 2 ^ (52 - Int.log 2 y)) : ℚ) * 2 ^ (Int.log 2 y - 52) := by
            apply mul_le_mul_of_nonneg_right hrQ
            positivity
    calc rndPos x ≤ (2:ℚ) ^ (Int.log 2 x + 1) := hup
      _ ≤ (2:ℚ) ^ (Int.log 2 y) := zpow_le_zpow_right₀ (by norm_num) (by omega)
      _ ≤ rndPos y := hlo

theorem rndPos_intCast_eq {m : ℤ} (h1 : 0 < m) (h2 : m < 2^53) :
    rndPos (m : ℚ) = m := by
  have h2' : (2:ℚ) ≠ 0 := by norm_num
  have hm1 : (1:ℚ) ≤ (m:ℚ) := by exact_mod_cast h1
  have hE0 : 0 ≤ Int.log 2 (m:ℚ) := by
    have h : Int.log 2 (1:ℚ) ≤ Int.log 2 (m:ℚ) :=
      Int.log_mono_right (by norm_num : (0:ℚ) < 1) hm1
    rwa [Int.log_one_right] at h
  have hE52 : Int.log 2 (m:ℚ) ≤ 52 := by
    by_contra hcon
    push_neg at hcon
    have h53 : (53:ℤ) ≤ Int.log 2 (m:ℚ) := by omega
    have hb : (2:ℚ)^(53:ℤ) ≤ (2:ℚ)^(Int.log 2 (m:ℚ)) :=
      zpow_le_zpow_right₀ (by norm_num) h53
    have hles : (2:ℚ)^(Int.log 2 (m:ℚ)) ≤ (m:ℚ) :=
      Int.zpow_log_le_self (by norm_num) (by exact_mod_cast h1)
    have hmQ : (m:ℚ) < ((2^53 : ℤ) : ℚ) := by exact_mod_cast h2
    have hp53 : ((2:ℚ)^(53:ℤ)) = ((2^53 : ℤ) : ℚ) := by norm_num
    rw [hp53] at hb
    linarith
  set E := Int.log 2 (m:ℚ) with hE
  set k := (52 - E).toNat with hk
  have hkE : (k : ℤ) = 52 - E := Int.toNat_of_nonneg (by omega)
  have hcast : (m:ℚ) * 2 ^ (52 - E) = ((m * 2^k : ℤ) : ℚ) := by
    push_cast
    rw [← zpow_natCast (2:ℚ) k, hkE]
  rw [rndPos, ← hE, hcast, rhe_intCast]
  rw [← hcast]
  rw [mul_assoc, ← zpow_add₀ h2']
  norm_num

theorem rnd_of_pos {q : ℚ} (h : 0 < q) : rnd q = rndPos q := by
  rw [rnd, if_pos h]

theorem rnd_zero : rnd 0 = 0 := by
  norm_num [rnd]

theorem rnd_pos {q : ℚ} (h : 0 < q) : 0 < rnd q := by
  rw [rnd_of_pos h]
  exact rndPos_pos h

theorem rnd_intCast_eq {c : ℤ} (h1 : 0 < c) (h2 : c < 2^53) : rnd (c:ℚ) = c := by
  have : (0:ℚ) < (c:ℚ) := by exact_mod_cast h1
  rw [rnd_of_pos this]
  exact rndPos_intCast_eq h1 h2

theorem rnd_natCast_eq {n : ℕ} (h : n < 2^53) : rnd (n:ℚ) = n := by
  rcases Nat.eq_zero_or_pos n with h0 | hpos
  · subst h0
    norm_num [rnd_zero]
  · have h1 : (0:ℤ) < (n:ℤ) := by exact_mod_cast hpos
    have h2 : ((n:ℤ)) < 2^53 := by exact_mod_cast h
    have h3 := rnd_intCast_eq h1 h2
    push_cast at h3
    exact h3

theorem f64ratio_iff (a b : ℕ) (c : ℤ) (ha : a < 2^32) (hb : 0 < b)
    (hb32 : b < 2^32) (hc : 0 < c) :
    (rnd ((1:ℚ) / rnd (c:ℚ)) ≤ rnd ((a:ℚ) / (b:ℚ)) ↔ (b:ℤ) ≤ (a:ℤ) * c) := by
  have hbQ : (0:ℚ) < (b:ℚ) := by exact_mod_cast hb
  have hcQ : (0:ℚ) < (c:ℚ) := by exact_mod_cast hc
  have hbB : (b:ℚ) ≤ 2^32 - 1 := by
    have h : (b:ℤ) ≤ 2^32 - 1 := by omega
    exact_mod_cast h
  set C := rnd (c:ℚ) with hCdef
  have hCpos : 0 < C := rnd_pos hcQ
  have hC1 : C ≤ (c:ℚ) + (c:ℚ)/2^53 := by
    rw [hCdef, rnd_of_pos hcQ]
    exact rndPos_le hcQ
  have hC2 : (c:ℚ) - (c:ℚ)/2^53 ≤ C := by
    rw [hCdef, rnd_of_pos hcQ]
    exact le_rndPos hcQ
  have hiC : (0:ℚ) < 1 / C := by positivity
  rcases Nat.eq_zero_or_pos a with ha0 | hapos
  · subst ha0
    have hz : ((0:ℕ):ℚ) / (b:ℚ) = 0 := by norm_num
    rw [hz, rnd_zero]
    constructor
    · intro h
      exact absurd (lt_of_lt_of_le (rnd_pos hiC) h) (lt_irrefl 0)
    · intro h
      rw [Nat.cast_zero, zero_mul] at h
      omega
  · have haQ : (0:ℚ) < (a:ℚ) := by exact_mod_cast hapos
    have hq : (0:ℚ) < (a:ℚ)/(b:ℚ) := by positivity
    have haZ : (1:ℤ) ≤ (a:ℤ) := by exact_mod_cast hapos
    rcases lt_trichotomy ((a:ℤ) * c) (b:ℤ) with hlt | heq | hgt
    · -- the quotient is strictly below 1/rf even after rounding
      have hRHSfalse : ¬((b:ℤ) ≤ (a:ℤ)*c) := by omega
      have hacQ : (a:ℚ) * (c:ℚ) ≤ (b:ℚ) - 1 := by
        have h : (a:ℤ) * c ≤ (b:ℤ) - 1 := by omega
        exact_mod_cast h
      have hqle : (a:ℚ)/(b:ℚ) ≤ ((b:ℚ)-1)/((b:ℚ)*(c:ℚ)) := by
        rw [div_le_div_iff₀ hbQ (by positivity)]
        calc (a:ℚ) * ((b:ℚ)*(c:ℚ)) = ((a:ℚ)*(c:ℚ))*(b:ℚ) := by ring
          _ ≤ ((b:ℚ)-1)*(b:ℚ) := mul_le_mul_of_nonneg_right hacQ hbQ.le
      have hCub : C ≤ (c:ℚ) * (1 + 1/2^53) := by
        have hr : (c:ℚ) + (c:ℚ)/2^53 = (c:ℚ) * (1 + 1/2^53) := by ring
        linarith
      have hiCl : 1/((c:ℚ)*(1+1/2^53)) ≤ 1/C :=
        one_div_le_one_div_of_le hCpos hCub
      have hfact : ((b:ℚ)-1)*(1+1/2^53)^2 < (b:ℚ)*(1-1/2^53) := by nlinarith [hbB]
      have hM : ((b:ℚ)-1)*(1+1/2^53) / ((b:ℚ)*(c:ℚ)) <
          (1-1/2^53) / ((c:ℚ)*(1+1/2^53)) := by
        rw [div_lt_div_iff₀ (by positivity) (by positivity)]
        calc ((b:ℚ)-1)*(1+1/2^53) * ((c:ℚ)*(1+1/2^53))
            = (c:ℚ) * (((b:ℚ)-1)*(1+1/2^53)^2) := by ring
          _ < (c:ℚ) * ((b:ℚ)*(1-1/2^53)) := mul_lt_mul_of_pos_left hfact hcQ
          _ = (1-1/2^53) * ((b:ℚ)*(c:ℚ)) := by ring
      have hkey : rnd ((a:ℚ)/(b:ℚ)) < rnd (1 / C) := by
        calc rnd ((a:ℚ)/(b:ℚ)) ≤ (a:ℚ)/(b:ℚ) + ((a:ℚ)/(b:ℚ))/2^53 := by
              rw [rnd_of_pos hq]
              exact rndPos_le hq
          _ = ((a:ℚ)/(b:ℚ)) * (1+1/2^53) := by ring
          _ ≤ (((b:ℚ)-1)/((b:ℚ)*(c:ℚ))) * (1+1/2^53) :=
              mul_le_mul_of_nonneg_right hqle (by norm_num)
          _ = ((b:ℚ)-1)*(1+1/2^53) / ((b:ℚ)*(c:ℚ)) := by ring
          _ < (1-1/2^53) / ((c:ℚ)*(1+1/2^53)) := hM
          _ = (1/((c:ℚ)*(1+1/2^53))) * (1-1/2^53) := by ring
          _ ≤ (1/C) * (1-1/2^53) :=
              mul_le_mul_of_nonneg_right hiCl (by norm_num)
          _ = 1/C - (1/C)/2^53 := by ring
          _ ≤ rnd (1/C) := by
              rw [rnd_of_pos hiC]
              exact le_rndPos hiC
      constructor
      · intro h
        exfalso
        linarith
      · intro h
        exact absurd h hRHSfalse
    · -- exact tie: both sides round the same rational
      have hRHS : (b:ℤ) ≤ (a:ℤ)*c := le_of_eq heq.symm
      have hcleB : c ≤ (b:ℤ) := by
        calc c = 1*c := (one_mul c).symm
          _ ≤ (a:ℤ)*c := mul_le_mul_of_nonneg_right haZ hc.le
          _ = b := heq
      have hc53 : c < 2^53 := by
        have h : (b:ℤ) < 2^32 := by exact_mod_cast hb32
        omega
      have hCc : C = (c:ℚ) := by
        rw [hCdef]
        exact rnd_intCast_eq hc hc53
      have hacb : (a:ℚ)*(c:ℚ) = (b:ℚ) := by exact_mod_cast heq
      have hqeq : (a:ℚ)/(b:ℚ) = 1/(c:ℚ) := by
        rw [div_eq_div_iff hbQ.ne' hcQ.ne']
        linarith
      rw [hCc, hqeq]
      exact iff_of_true (le_refl _) hRHS
    · -- the quotient clears 1/rf with margin wider than the rounding error
      have hRHS : (b:ℤ) ≤ (a:ℤ)*c := le_of_lt hgt
      have hstep : 1/C ≤ (a:ℚ)/(b:ℚ) := by
        rw [div_le_div_iff₀ hCpos hbQ]
        have hacQ : (b:ℚ) + 1 ≤ (a:ℚ)*(c:ℚ) := by
          have h : (b:ℤ) + 1 ≤ (a:ℤ)*c := by omega
          exact_mod_cast h
        have hC2' : (c:ℚ)*(1 - 1/2^53) ≤ C := by
          have hr : (c:ℚ) - (c:ℚ)/2^53 = (c:ℚ) * (1 - 1/2^53) := by ring
          linarith
        have haC : (a:ℚ)*((c:ℚ)*(1-1/2^53)) ≤ (a:ℚ)*C :=
          mul_le_mul_of_nonneg_left hC2' haQ.le
        have h1 : ((b:ℚ)+1)*(1-1/2^53) ≤ (a:ℚ)*(c:ℚ)*(1-1/2^53) :=
          mul_le_mul_of_nonneg_right hacQ (by norm_num)
        have h2 : (b:ℚ) ≤ ((b:ℚ)+1)*(1-1/2^53) := by nlinarith [hbB]
        calc (1:ℚ)*(b:ℚ) = (b:ℚ) := one_mul _
          _ ≤ ((b:ℚ)+1)*(1-1/2^53) := h2
          _ ≤ (a:ℚ)*(c:ℚ)*(1-1/2^53) := h1
          _ = (a:ℚ)*((c:ℚ)*(1-1/2^53)) := by ring
          _ ≤ (a:ℚ)*C := haC
      have hLHS : rnd (1/C) ≤ rnd ((a:ℚ)/(b:ℚ)) := by
        rw [rnd_of_pos hiC, rnd_of_pos hq]
        exact rndPos_mono hiC hstep
      exact iff_of_true hLHS hRHS

/-- C6 counterexample: at rackWeight = 0, totalWeight = 0 the float
expression is 0.0/0.0 = NaN, every comparison with which is false, while
the integer form 0 * rf ≥ 0 holds; so the claimed equivalence fails. -/
theorem isRackOverWeight_nan_cex :
    isRackOverWeight 0 0 1 = false ∧ (0:ℤ) * 1 ≥ ((0:ℕ):ℤ) := by
  constructor
  · rw [isRackOverWeight, f64ofNat]
    rw [show ((0:ℕ):ℚ) = 0 by norm_num, rnd_zero]
    simp only [f64div, if_pos]
    simp only [f64ge]
  · decide

/-- Characterization of isRackOverWeight against the integer form
(shared helper). -/
theorem isRackOverWeight_int_char (a b : ℕ) (c : ℤ)
    (ha : a < 2^32) (hb : 0 < b) (hb32 : b < 2^32) (hc : 0 < c) :
    (isRackOverWeight a b c = true ↔ (a:ℤ) * c ≥ (b:ℤ)) := by
  have ha53 : a < 2^53 := lt_trans ha (by norm_num)
  have hb53 : b < 2^53 := lt_trans hb32 (by norm_num)
  have hbQ : ((b:ℚ)) ≠ 0 := by
    have : (0:ℚ) < (b:ℚ) := by exact_mod_cast hb
    exact this.ne'
  have hCp : (0:ℚ) < rnd (c:ℚ) := rnd_pos (by exact_mod_cast hc)
  rw [isRackOverWeight, f64ofNat, f64ofNat, f64ofInt,
    rnd_natCast_eq ha53, rnd_natCast_eq hb53]
  simp only [f64div]
  rw [if_neg hbQ, if_neg hCp.ne']
  simp only [f64ge, decide_eq_true_eq]
  rw [ge_iff_le]
  exact f64ratio_iff a b c ha hb hb32 hc

/-- C6: amended to require totalWeight > 0 (the equivalence as claimed
fails at totalWeight = 0, where the float quotient is NaN).  For uint32
weights with totalWeight positive and a positive int rf, the binary64
comparison float64(rackWeight)/float64(totalWeight) ≥ 1.0/float64(rf)
computed by isRackOverWeight holds exactly when rackWeight * rf ≥
totalWeight over the integers: the uint32 conversions are exact, and the
integer gap between the two ratios always exceeds the accumulated
rounding error of the conversion of rf and the two divisions. -/
theorem isRackOverWeight_int_iff (a b : ℕ) (c : ℤ)
    (ha : a < 2^32) (hb : 0 < b) (hb32 : b < 2^32) (hc : 0 < c) :
    (isRackOverWeight a b c = true ↔ (a:ℤ) * c ≥ (b:ℤ)) :=
  isRackOverWeight_int_char a b c ha hb hb32 hc

/-- Witness for C6 at rackWeight = totalWeight = rf = 1. -/
theorem isRackOverWeight_int_iff_witness : isRackOverWeight 1 1 1 = true :=
  (isRackOverWeight_int_iff 1 1 1 (by decide) (by decide) (by decide)
    (by decide)).2 (by decide)

/-! ### Lemmas on the weight aggregation -/

theorem rwGet_rwSet_self (m : List (String × Nat)) (r : String) (v : Nat) :
    rwGet (rwSet m r v) r = v := by
  induction m with
  | nil => simp [rwGet, rwSet]
  | cons e es ih =>
    rw [rwSet]
    by_cases h : e.1 = r
    · rw [if_pos h, rwGet, List.find?_cons_of_pos _ (by simp)]
    · rw [if_neg h, rwGet, List.find?_cons_of_neg _ (by simp [h])]
      exact ih

theorem rwGet_rwSet_other (m : List (String × Nat)) (r r' : String) (v : Nat)
    (h : r' ≠ r) : rwGet (rwSet m r v) r' = rwGet m r' := by
  induction m with
  | nil => simp [rwGet, rwSet, Ne.symm h]
  | cons e es ih =>
    rw [rwSet]
    by_cases he : e.1 = r
    · rw [if_pos he, rwGet, List.find?_cons_of_neg _ (by simp [Ne.symm h]),
        rwGet, List.find?_cons_of_neg _ (by simp [he ▸ Ne.symm h])]
    · rw [if_neg he]
      by_cases he' : e.1 = r'
      · rw [rwGet, List.find?_cons_of_pos _ (by simp [he']),
          rwGet, List.find?_cons_of_pos _ (by simp [he'])]
      · rw [rwGet, List.find?_cons_of_neg _ (by simp [he']),
          rwGet, List.find?_cons_of_neg _ (by simp [he'])]
        exact ih

theorem rwVals_rwSet (m : List (String × Nat)) (r : String) (v : Nat) :
    rwVals (rwSet m r v) + rwGet m r = rwVals m + v := by
  induction m with
  | nil => simp [rwGet, rwSet, rwVals]
  | cons e es ih =>
    rw [rwSet]
    by_cases h : e.1 = r
    · rw [if_pos h]
      have hg : rwGet (e :: es) r = e.2 := by
        rw [rwGet, List.find?_cons_of_pos _ (by simp [h])]
      have hv1 : rwVals ((r, v) :: es) = v + rwVals es := by simp [rwVals]
      have hv2 : rwVals (e :: es) = e.2 + rwVals es := by simp [rwVals]
      rw [hg, hv1, hv2]
      omega
    · rw [if_neg h]
      have hg : rwGet (e :: es) r = rwGet es r := by
        rw [rwGet, rwGet, List.find?_cons_of_neg _ (by simp [h])]
      have hv1 : rwVals (e :: rwSet es r v) = e.2 + rwVals (rwSet es r v) := by
        simp [rwVals]
      have hv2 : rwVals (e :: es) = e.2 + rwVals es := by simp [rwVals]
      rw [hg, hv1, hv2]
      omega

theorem rwGet_le_rwVals (m : List (String × Nat)) (r : String) :
    rwGet m r ≤ rwVals m := by
  induction m with
  | nil => simp [rwGet, rwVals]
  | cons e es ih =>
    have hv2 : rwVals (e :: es) = e.2 + rwVals es := by simp [rwVals]
    by_cases h : e.1 = r
    · have hg : rwGet (e :: es) r = e.2 := by
        rw [rwGet, List.find?_cons_of_pos _ (by simp [h])]
      rw [hg, hv2]
      omega
    · have hg : rwGet (e :: es) r = rwGet es r := by
        rw [rwGet, rwGet, List.find?_cons_of_neg _ (by simp [h])]
      rw [hg, hv2]
      omega

theorem rwGet_mem (m : List (String × Nat)) (r : String)
    (h : rwGet m r ≠ 0) : (r, rwGet m r) ∈ m := by
  rw [rwGet] at *
  rcases hf : m.find? (fun e => e.1 = r) with _ | e
  · rw [hf] at h
    simp at h
  · rw [hf] at h ⊢
    have hm := List.mem_of_find?_eq_some hf
    have hp := List.find?_some hf
    simp at hp
    have : (r, e.2) = e := by
      rw [← hp]
    rw [this]
    exact hm

theorem owSumP_le (m : List (String × Nat)) (total : Nat) (rf : ℤ) :
    owSumP m total rf ≤ rwVals m := by
  induction m with
  | nil => simp [owSumP, rwVals]
  | cons e es ih =>
    have hv2 : rwVals (e :: es) = e.2 + rwVals es := by simp [rwVals]
    by_cases h : isRackOverWeight e.2 total rf
    · have : owSumP (e :: es) total rf = e.2 + owSumP es total rf := by
        simp [owSumP, List.filter_cons, h]
      rw [this, hv2]
      omega
    · have : owSumP (e :: es) total rf = owSumP es total rf := by
        simp [owSumP, List.filter_cons, h]
      rw [this, hv2]
      omega

theorem owSumP_skip (m : List (String × Nat)) (total : Nat) (rf : ℤ)
    (r : String) (v : Nat) (hm : (r, v) ∈ m)
    (hf : isRackOverWeight v total rf = false) :
    owSumP m total rf + v ≤ rwVals m := by
  induction m with
  | nil => cases hm
  | cons e es ih =>
    have hv2 : rwVals (e :: es) = e.2 + rwVals es := by simp [rwVals]
    rcases List.mem_cons.mp hm with he | hes
    · have h : isRackOverWeight e.2 total rf = false := by
        rw [← he] at *
        exact hf
      have h1 : owSumP (e :: es) total rf = owSumP es total rf := by
        simp [owSumP, List.filter_cons, h]
      have h2 : e.2 = v := by rw [← he]
      rw [h1, hv2, h2]
      have := owSumP_le es total rf
      omega
    · have hle := ih hes
      by_cases h : isRackOverWeight e.2 total rf
      · have h1 : owSumP (e :: es) total rf = e.2 + owSumP es total rf := by
          simp [owSumP, List.filter_cons, h]
        rw [h1, hv2]
        omega
      · have h1 : owSumP (e :: es) total rf = owSumP es total rf := by
          simp [owSumP, List.filter_cons, h]
        rw [h1, hv2]
        omega

theorem ow_go (total : Nat) (rf : ℤ) :
    ∀ (m : List (String × Nat)) (acc1 acc2 : Nat),
    acc2 + owSumP m total rf < 2^32 →
    (m.foldl (owStep total rf) (acc1, acc2)).2 = acc2 + owSumP m total rf := by
  intro m
  induction m with
  | nil =>
    intro acc1 acc2 hb
    simp [owSumP]
  | cons e es ih =>
    intro acc1 acc2 hb
    rw [List.foldl_cons, owStep]
    by_cases h : isRackOverWeight e.2 total rf
    · have h1 : owSumP (e :: es) total rf = e.2 + owSumP es total rf := by
        simp [owSumP, List.filter_cons, h]
      rw [h1] at hb ⊢
      rw [if_pos h]
      have hu : uadd32 acc2 e.2 = acc2 + e.2 := by
        rw [uadd32]
        omega
      rw [hu, ih (acc1 + 1) (acc2 + e.2) (by omega)]
      omega
    · have h1 : owSumP (e :: es) total rf = owSumP es total rf := by
        simp [owSumP, List.filter_cons, h]
      rw [h1] at hb ⊢
      rw [if_neg h]
      exact ih acc1 acc2 hb

theorem overWeightSum_snd (m : List (String × Nat)) (total : Nat) (rf : ℤ)
    (hb : owSumP m total rf < 2^32) :
    (overWeightSum m total rf).2 = owSumP m total rf := by
  rw [overWeightSum, ow_go total rf m 0 0 (by omega)]
  omega

theorem scan_go :
    ∀ (l : List Instance) (m : List (String × Nat)) (t : Nat),
    rwVals m = t → t + sumNonLeavingWeight l < 2^32 →
    rwVals (l.foldl swStep (m, t)).1 = (l.foldl swStep (m, t)).2 ∧
    (l.foldl swStep (m, t)).2 = t + sumNonLeavingWeight l ∧
    (∀ r, rwGet m r ≤ rwGet (l.foldl swStep (m, t)).1 r) ∧
    (∀ j ∈ l, j.isLeavingB = false →
      j.weight ≤ rwGet (l.foldl swStep (m, t)).1 j.rack) := by
  intro l
  induction l with
  | nil =>
    intro m t hv hb
    refine ⟨hv, by simp [sumNonLeavingWeight], fun r => le_refl _, ?_⟩
    intro j hj
    cases hj
  | cons i l ih =>
    intro m t hv hb
    rw [List.foldl_cons, swStep]
    by_cases hL : i.isLeavingB
    · rw [if_pos hL]
      have hs : sumNonLeavingWeight (i :: l) = sumNonLeavingWeight l := by
        simp [sumNonLeavingWeight, List.filter_cons, hL]
      rw [hs] at hb
      obtain ⟨a1, a2, a3, a4⟩ := ih m t hv hb
      refine ⟨a1, by rw [a2, hs], a3, ?_⟩
      intro j hj hjL
      rcases List.mem_cons.mp hj with he | hes
      · rw [he] at hjL
        rw [hjL] at hL
        cases hL
      · exact a4 j hes hjL
    · rw [if_neg hL]
      have hs : sumNonLeavingWeight (i :: l) = i.weight + sumNonLeavingWeight l := by
        simp [sumNonLeavingWeight, List.filter_cons, hL]
      rw [hs] at hb
      have hgle : rwGet m i.rack ≤ t := hv ▸ rwGet_le_rwVals m i.rack
      have hu1 : uadd32 t i.weight = t + i.weight := by
        rw [uadd32]
        omega
      have hu2 : uadd32 (rwGet m i.rack) i.weight = rwGet m i.rack + i.weight := by
        rw [uadd32]
        omega
      have hvs := rwVals_rwSet m i.rack (uadd32 (rwGet m i.rack) i.weight)
      rw [hu2] at hvs
      have hv' : rwVals (rwSet m i.rack (uadd32 (rwGet m i.rack) i.weight)) =
          t + i.weight := by
        rw [hu2]
        omega
      rw [hu1]
      obtain ⟨a1, a2, a3, a4⟩ :=
        ih (rwSet m i.rack (uadd32 (rwGet m i.rack) i.weight)) (t + i.weight)
          hv' (by omega)
      have hmono : ∀ r, rwGet m r ≤
          rwGet (rwSet m i.rack (uadd32 (rwGet m i.rack) i.weight)) r := by
        intro r
        by_cases hr : r = i.rack
        · rw [hr, rwGet_rwSet_self, hu2]
          omega
        · rw [rwGet_rwSet_other _ _ _ _ hr]
      refine ⟨a1, by rw [a2, hs]; omega, fun r => le_trans (hmono r) (a3 r), ?_⟩
      intro j hj hjL
      rcases List.mem_cons.mp hj with he | hes
      · have hstart : j.weight ≤
            rwGet (rwSet m i.rack (uadd32 (rwGet m i.rack) i.weight)) j.rack := by
          rw [he, rwGet_rwSet_self, hu2]
          omega
        exact le_trans hstart (a3 j.rack)
      · exact a4 j hes hjL

theorem rnd_one : rnd (1:ℚ) = 1 := by
  have h := rnd_intCast_eq (show (0:ℤ) < 1 by norm_num)
    (show (1:ℤ) < 2^53 by norm_num)
  push_cast at h
  exact h

theorem isRackOverWeight_zz (rf : ℤ) : isRackOverWeight 0 0 rf = false := by
  rw [isRackOverWeight, f64ofNat]
  rw [show ((0:ℕ):ℚ) = 0 by norm_num, rnd_zero]
  simp only [f64div, if_pos]
  simp only [f64ge]

theorem isRackOverWeight_zero_one : isRackOverWeight 0 1 1 = false := by
  rw [isRackOverWeight, f64ofNat, f64ofNat, f64ofInt]
  rw [show ((0:ℕ):ℚ) = 0 by norm_num, show ((1:ℕ):ℚ) = 1 by norm_num,
    show ((1:ℤ):ℚ) = 1 by norm_num, rnd_zero, rnd_one]
  simp only [f64div]
  rw [if_neg (by norm_num : ¬(1:ℚ) = 0), if_neg (by norm_num : ¬(1:ℚ) = 0)]
  rw [show (0:ℚ)/1 = 0 by norm_num, show (1:ℚ)/1 = 1 by norm_num,
    rnd_zero, rnd_one]
  rfl

theorem isRackOverWeight_one_one : isRackOverWeight 1 1 1 = true := by
  simp only [isRackOverWeight, f64ofNat, f64ofInt]
  rw [show ((1:ℕ):ℚ) = 1 by norm_num, show ((1:ℤ):ℚ) = 1 by norm_num, rnd_one]
  simp only [f64div]
  rw [show (1:ℚ)/1 = 1 by norm_num, rnd_one]
  rfl

/-- C10 counterexample: three positive-weight non-leaving instances
whose uint32 weight sums wrap (2^31 + 2^31 + 1).  Rack a's weight wraps
to 0, so rack a is not overweight and its instances reach the
normal-rack branch, while totalWeight − overWeight = 1 − 1 wraps to 0:
buildTargetLoad would divide by zero even though every weight is
strictly positive, refuting the claim's universal safety statement. -/
theorem buildTargetLoad_divisor_cex :
    (∀ j ∈ wrapList, j.isLeavingB = false ∧ 0 < j.weight) ∧
    isRackOverWeight (rwGet (scanWeights wrapList).1 "a")
      (scanWeights wrapList).2 1 = false ∧
    usub32 (scanWeights wrapList).2
      (overWeightSum (scanWeights wrapList).1 (scanWeights wrapList).2 1).2
      = 0 := by
  have hs : scanWeights wrapList = ([("a", 0), ("b", 1)], 1) := by decide
  refine ⟨by decide, ?_, ?_⟩
  · rw [hs]
    have h : rwGet [("a", 0), ("b", 1)] "a" = 0 := by decide
    rw [h]
    exact isRackOverWeight_zero_one
  · rw [hs]
    have how : overWeightSum [("a", 0), ("b", 1)] 1 1 = (1, 1) := by
      simp [overWeightSum, owStep, isRackOverWeight_zero_one,
        isRackOverWeight_one_one, uadd32]
    rw [how]
    decide

/-- C10: amended with a no-overflow hypothesis.  If every non-leaving
instance has strictly positive weight and the exact sum of their weights
stays below 2^32 (so no uint32 sum wraps), then for any scanned
non-leaving instance its rack weight is positive (the overweight-branch
divisor), and if its rack is not overweight then the normal-branch
divisor totalWeight − overWeight is positive.  Without the no-overflow
hypothesis the safety statement fails (see the counterexample), and with
a weight-zero instance the divisor is zero as the claim states. -/
theorem buildTargetLoad_divisor_safety :
    (∀ (l : List Instance) (rf : ℤ) (i : Instance),
      (∀ j ∈ l, j.isLeavingB = false → 0 < j.weight) →
      sumNonLeavingWeight l < 2^32 →
      i ∈ l → i.isLeavingB = false →
      0 < rwGet (scanWeights l).1 i.rack ∧
      (isRackOverWeight (rwGet (scanWeights l).1 i.rack) (scanWeights l).2 rf
          = false →
        0 < usub32 (scanWeights l).2
          (overWeightSum (scanWeights l).1 (scanWeights l).2 rf).2)) ∧
    (isRackOverWeight (rwGet (scanWeights zeroList).1 "r")
        (scanWeights zeroList).2 1 = false ∧
      usub32 (scanWeights zeroList).2
        (overWeightSum (scanWeights zeroList).1 (scanWeights zeroList).2 1).2
        = 0) := by
  constructor
  · intro l rf i hw hsum hi hiL
    have h0 := scan_go l [] 0 (by simp [rwVals]) (by simpa using hsum)
    have hfold : l.foldl swStep ([], 0) = scanWeights l := rfl
    rw [hfold] at h0
    obtain ⟨hv, ht, hmono, hjw⟩ := h0
    have hiw : i.weight ≤ rwGet (scanWeights l).1 i.rack := hjw i hi hiL
    have hipos : 0 < i.weight := hw i hi hiL
    refine ⟨by omega, fun hnorm => ?_⟩
    have hTlt : (scanWeights l).2 < 2^32 := by omega
    have howle : owSumP (scanWeights l).1 (scanWeights l).2 rf ≤
        rwVals (scanWeights l).1 :=
      owSumP_le (scanWeights l).1 (scanWeights l).2 rf
    have heq := overWeightSum_snd (scanWeights l).1 (scanWeights l).2 rf
      (by omega)
    have hmem : (i.rack, rwGet (scanWeights l).1 i.rack) ∈ (scanWeights l).1 :=
      rwGet_mem (scanWeights l).1 i.rack (by omega)
    have hskip := owSumP_skip (scanWeights l).1 (scanWeights l).2 rf i.rack
      (rwGet (scanWeights l).1 i.rack) hmem hnorm
    rw [heq, usub32]
    omega
  · have hz : scanWeights zeroList = ([("r", 0)], 0) := by decide
    rw [hz]
    constructor
    · have h : rwGet [("r", 0)] "r" = 0 := by decide
      rw [h]
      exact isRackOverWeight_zz 1
    · have how : overWeightSum [("r", 0)] 0 1 = (0, 0) := by
        simp [overWeightSum, owStep, isRackOverWeight_zz]
      rw [how]
      decide

/-- Witness for C10: on `pairList` (weights 1 and 3 on two racks) the
normal-branch divisor is positive. -/
theorem buildTargetLoad_divisor_safety_witness :
    0 < usub32 (scanWeights pairList).2
      (overWeightSum (scanWeights pairList).1 (scanWeights pairList).2 1).2 := by
  have h := (buildTargetLoad_divisor_safety.1 pairList 1 instP (by decide)
    (by decide) (by decide) (by decide)).2
  apply h
  have hrw : rwGet (scanWeights pairList).1 instP.rack = 1 := by decide
  have ht : (scanWeights pairList).2 = 4 := by decide
  rw [hrw, ht]
  have hc := isRackOverWeight_int_char 1 4 1 (by decide) (by decide)
    (by decide) (by decide)
  cases hb : isRackOverWeight 1 4 1
  · rfl
  · exact absurd (hc.mp hb) (by decide)

theorem reclaimInnerT_state (fid t : String) :
    ∀ (st : HelperState) (shards : List Shard),
    (reclaimInnerT fid t st shards).1 = reclaimInner fid t st shards := by
  intro st shards
  induction shards generalizing st with
  | nil => rfl
  | cons s rest ih =>
    rw [reclaimInnerT, reclaimInner]
    by_cases h : s.sourceID = t
    · rw [if_pos h, if_pos h]
      exact ih _
    · rw [if_neg h, if_neg h]
      exact ih _

theorem reclaimOuterT_state (t : String) :
    ∀ (st : HelperState) (ids : List String),
    (reclaimOuterT t st ids).1 = reclaimOuter t st ids := by
  intro st ids
  induction ids generalizing st with
  | nil => rfl
  | cons fid rest ih =>
    rw [reclaimOuterT, reclaimOuter]
    cases hlk : lookupInst st fid with
    | none => exact ih st
    | some f =>
      dsimp only
      rw [reclaimInnerT_state]
      exact ih _

theorem reclaimInnerT_attempts (fid t : String) :
    ∀ (st : HelperState) (shards : List Shard),
    ((reclaimInnerT fid t st shards).2.map Prod.fst) =
      shards.filter (fun s => decide (s.sourceID = t)) := by
  intro st shards
  induction shards generalizing st with
  | nil => rfl
  | cons s rest ih =>
    rw [reclaimInnerT, List.filter_cons]
    by_cases h : s.sourceID = t
    · rw [if_pos h, if_pos (by simp [h])]
      dsimp only [List.map_cons]
      rw [ih]
    · rw [if_neg h, if_neg (by simp [h])]
      exact ih _

/-- C9 counterexample: the target holds no Leaving shard, so the
`NumShardsForState(Leaving) == 0` shortcut returns immediately and the
Initializing shard on the other instance that is sourced at the target
is never attempted — even though the `moveShard` call the claim promises
would have succeeded. -/
theorem reclaimLeavingShards_shortcut_cex :
    reclaimLeavingShards st9 "t" = st9 ∧
    shard9.state = Initializing ∧ shard9.sourceID = "t" ∧
    shard9 ∈ oInst9.shards ∧ oInst9 ∈ st9.instances ∧ oInst9.iid ≠ "t" ∧
    (moveShard st9 shard9 (some "o") "t").2 = true := by
  refine ⟨rfl, rfl, rfl, by decide, by decide, by decide, by decide⟩

/-- C9: corrected.  The claim fails for a target with no Leaving shards
(see the counterexample).  Amended with that guard: when the target
holds at least one Leaving shard the full scan runs — the call agrees
with the instrumented twin that records every `moveShard` attempt, and
in every scanned instance's snapshot the shards handed to `moveShard`
are exactly the Initializing shards whose sourceID is the target, in
order (the code scans all instances, including the target itself; each
recorded verdict is `moveShard`'s at that point: an attempted shard is
left in place only if that call rejected it). -/
theorem reclaimLeavingShards_attempts (st : HelperState) (t : String)
    (ti : Instance) (hlk : lookupInst st t = some ti)
    (hleav : numShardsForState ti.shards Leaving ≠ 0) :
    reclaimLeavingShards st t =
      (reclaimOuterT t st (st.instances.map Instance.iid)).1 ∧
    (∀ (fid : String) (st1 : HelperState) (shards : List Shard),
      ((reclaimInnerT fid t st1 shards).2.map Prod.fst) =
        shards.filter (fun s => decide (s.sourceID = t))) := by
  constructor
  · rw [reclaimLeavingShards, hlk]
    dsimp only
    rw [if_neg hleav, reclaimOuterT_state]
  · intro fid st1 shards
    exact reclaimInnerT_attempts fid t st1 shards

/-- Witness for C9 at a target that holds a Leaving shard. -/
theorem reclaimLeavingShards_attempts_witness :
    reclaimLeavingShards st9w "t" =
      (reclaimOuterT "t" st9w (st9w.instances.map Instance.iid)).1 :=
  (reclaimLeavingShards_attempts st9w "t" tInst9w rfl (by decide)).1

/-! ### Lookup-based preservation facts about moveShard (for C7) -/

theorem fromBlock_lookup_pres (st : HelperState) (cand : Shard)
    (fid : String) :
    ∀ (c : String) (x : Instance), lookupInst st c = some x →
      ∃ x1, lookupInst (moveShardFromBlock st cand fid).1 c = some x1 ∧
        x1.iid = x.iid ∧ ∀ d, d ≠ cand.sid →
          ownsNonLeavingB x1 d = ownsNonLeavingB x d := by
  intro c x hx
  by_cases hc : c = fid
  · subst hc
    have h := lookupInst_fromBlock_self st cand c x hx
    cases hcs : cand.state with
    | Unknown =>
      rw [hcs] at h
      refine ⟨_, h, rfl, fun d hd => ?_⟩
      rw [owns_removeShard, if_neg hd]
    | Initializing =>
      rw [hcs] at h
      refine ⟨_, h, rfl, fun d hd => ?_⟩
      rw [owns_removeShard, if_neg hd]
    | Available =>
      rw [hcs] at h
      refine ⟨_, h, rfl, fun d hd => ?_⟩
      rw [owns_map_stamp, if_neg hd]
    | Leaving =>
      rw [hcs] at h
      exact ⟨x, h, rfl, fun d hd => rfl⟩
  · exact ⟨x, (lookupInst_fromBlock_other st cand fid c hc).trans hx, rfl,
      fun d hd => rfl⟩

theorem clear_lookup_pres (st : HelperState) (d0 : Nat) (tid : String) :
    ∀ (c : String) (x : Instance), lookupInst st c = some x →
      ∃ x1, lookupInst (clearSourceLinks st d0 tid) c = some x1 ∧
        x1.iid = x.iid ∧
        ∀ d, ownsNonLeavingB x1 d = ownsNonLeavingB x d := by
  intro c x hx
  unfold clearSourceLinks
  by_cases hm : c ∈ s2iGet st.s2i d0
  · exact ⟨_, (lookupInst_clearFold d0 tid (s2iGet st.s2i d0) st c).2 x hm hx,
      rfl, fun d => owns_map_clear x d0 tid d⟩
  · exact ⟨x, ((lookupInst_clearFold d0 tid (s2iGet st.s2i d0) st c).1 hm).trans
      hx, rfl, fun d => rfl⟩

theorem moveShard_shape (st : HelperState) (cand : Shard)
    (fro : Option String) (toId : String)
    (h2 : (moveShard st cand fro toId).2 = true) :
    ∃ (stm : HelperState) (ns : Shard), ns.sid = cand.sid ∧
      ns.state ≠ Leaving ∧
      (moveShard st cand fro toId).1 = assignShardToInstance stm ns toId ∧
      ∀ (c : String) (x : Instance), lookupInst st c = some x →
        ∃ x1, lookupInst stm c = some x1 ∧ x1.iid = x.iid ∧
          ∀ d, d ≠ cand.sid → ownsNonLeavingB x1 d = ownsNonLeavingB x d := by
  obtain ⟨toI, hto, hcan, hL⟩ := moveShard_true_facts st cand fro toId h2
  have hpres1 : ∀ (st1 : HelperState),
      (∀ (c : String) (x : Instance), lookupInst st c = some x →
        ∃ x1, lookupInst st1 c = some x1 ∧ x1.iid = x.iid ∧
          ∀ d, d ≠ cand.sid →
            ownsNonLeavingB x1 d = ownsNonLeavingB x d) →
      ∀ (c : String) (x : Instance), lookupInst st c = some x →
        ∃ x1, lookupInst (clearSourceLinks st1 cand.sid toId) c = some x1 ∧
          x1.iid = x.iid ∧ ∀ d, d ≠ cand.sid →
            ownsNonLeavingB x1 d = ownsNonLeavingB x d := by
    intro st1 hp c x hx
    obtain ⟨y, hy, hyi, hyo⟩ := hp c x hx
    obtain ⟨x1, hx1, hxi, hxo⟩ := clear_lookup_pres st1 cand.sid toId c y hy
    exact ⟨x1, hx1, hxi.trans hyi, fun d hd => (hxo d).trans (hyo d hd)⟩
  unfold moveShard
  rw [hto]
  dsimp only
  rw [if_neg (by simp [hcan]), if_neg hL]
  cases fro with
  | none =>
    dsimp only
    rw [hto]
    dsimp only
    cases hcur : findShard toI.shards cand.sid with
    | none =>
      dsimp only
      exact ⟨st, { sid := cand.sid }, rfl, by intro h; simp at h, rfl,
        fun c x hx => ⟨x, hx, rfl, fun d hd => rfl⟩⟩
    | some cur =>
      dsimp only
      by_cases hcl : cur.state = Leaving
      · rw [if_pos hcl]
        exact ⟨clearSourceLinks st cand.sid toId,
          { sid := cand.sid, state := Available }, rfl, by intro h; simp at h, rfl,
          hpres1 st (fun c x hx => ⟨x, hx, rfl, fun d hd => rfl⟩)⟩
      · rw [if_neg hcl]
        exact ⟨st, { sid := cand.sid }, rfl, by intro h; simp at h, rfl,
          fun c x hx => ⟨x, hx, rfl, fun d hd => rfl⟩⟩
  | some fid =>
    dsimp only
    have hns : (moveShardFromBlock st cand fid).2.sid = cand.sid ∧
        (moveShardFromBlock st cand fid).2.state ≠ Leaving := by
      rw [fromBlock_snd]
      cases cand.state <;> simp
    cases hlk : lookupInst (moveShardFromBlock st cand fid).1 toId with
    | none =>
      dsimp only
      exact ⟨(moveShardFromBlock st cand fid).1,
        (moveShardFromBlock st cand fid).2, hns.1, hns.2, rfl,
        fromBlock_lookup_pres st cand fid⟩
    | some to1 =>
      dsimp only
      cases hcur : findShard to1.shards cand.sid with
      | none =>
        dsimp only
        exact ⟨(moveShardFromBlock st cand fid).1,
          (moveShardFromBlock st cand fid).2, hns.1, hns.2, rfl,
          fromBlock_lookup_pres st cand fid⟩
      | some cur =>
        dsimp only
        by_cases hcl : cur.state = Leaving
        · rw [if_pos hcl]
          exact ⟨clearSourceLinks (moveShardFromBlock st cand fid).1 cand.sid
              toId, { sid := cand.sid, state := Available }, rfl,
            by intro h; simp at h, rfl,
            hpres1 (moveShardFromBlock st cand fid).1
              (fromBlock_lookup_pres st cand fid)⟩
        · rw [if_neg hcl]
          exact ⟨(moveShardFromBlock st cand fid).1,
            (moveShardFromBlock st cand fid).2, hns.1, hns.2, rfl,
            fromBlock_lookup_pres st cand fid⟩

theorem moveShard_lookup_preserve (st : HelperState) (cand : Shard)
    (fro : Option String) (toId : String) (c : String) (d : Nat)
    (hd : d ≠ cand.sid) (x : Instance) (hx : lookupInst st c = some x) :
    ∃ x', lookupInst (moveShard st cand fro toId).1 c = some x' ∧
      ownsNonLeavingB x' d = ownsNonLeavingB x d := by
  rcases moveShard_cases st cand fro toId with h2 | hfail
  · obtain ⟨stm, ns, hsid, hstate, heq, hpres⟩ :=
      moveShard_shape st cand fro toId h2
    obtain ⟨x1, hx1, hiid1, hown1⟩ := hpres c x hx
    rw [heq]
    by_cases hc : c = toId
    · subst hc
      refine ⟨_, lookupInst_assignShard_self hx1, ?_⟩
      rw [owns_addShard, if_neg (fun hcx => hd (hcx.trans hsid))]
      exact hown1 d hd
    · rw [lookupInst_assignShard_other hc, hx1]
      exact ⟨x1, rfl, hown1 d hd⟩
  · rw [hfail]
    exact ⟨x, hx, rfl⟩

theorem moveShard_success_toOwner (st : HelperState) (cand : Shard)
    (fro : Option String) (toId : String)
    (h2 : (moveShard st cand fro toId).2 = true) :
    ∃ x', lookupInst (moveShard st cand fro toId).1 toId = some x' ∧
      ownsNonLeavingB x' cand.sid = true := by
  obtain ⟨toI, hto, hcan, hL⟩ := moveShard_true_facts st cand fro toId h2
  obtain ⟨stm, ns, hsid, hstate, heq, hpres⟩ :=
    moveShard_shape st cand fro toId h2
  obtain ⟨x1, hx1, hiid1, hown1⟩ := hpres toId toI hto
  rw [heq]
  refine ⟨_, lookupInst_assignShard_self hx1, ?_⟩
  rw [owns_addShard, if_pos hsid.symm]
  simp [hstate]

/-! ### Heap element closure (for C7) -/

theorem hGet_mem (l : List String) (n : Nat) (h : n < l.length) :
    hGet l n ∈ l := by
  rw [hGet, List.getD_eq_getElem l "" h]
  exact List.getElem_mem h

theorem hSwap_length (l : List String) (i j : Nat) :
    (hSwap l i j).length = l.length := by
  simp [hSwap]

theorem hSwap_closure (P : String → Prop) (l : List String) (i j : Nat)
    (hi : i < l.length) (hj : j < l.length) (h : ∀ x ∈ l, P x) :
    ∀ x ∈ hSwap l i j, P x := by
  intro x hx
  rw [hSwap] at hx
  rcases List.mem_or_eq_of_mem_set hx with h1 | h1
  · rcases List.mem_or_eq_of_mem_set h1 with h2 | h2
    · exact h x h2
    · rw [h2]
      exact h _ (hGet_mem l j hj)
  · rw [h1]
    exact h _ (hGet_mem l i hi)

theorem siftDown_length (st : HelperState) (asc : Bool) :
    ∀ (fuel : Nat) (l : List String) (i n : Nat),
    (siftDown st asc fuel l i n).length = l.length := by
  intro fuel
  induction fuel with
  | zero => intro l i n; rfl
  | succ fuel ih =>
    intro l i n
    rw [siftDown]
    by_cases h1 : 2 * i + 1 ≥ n
    · rw [if_pos h1]
    · rw [if_neg h1]
      dsimp only
      split <;> split
      · rfl
      · rw [ih, hSwap_length]
      · rfl
      · rw [ih, hSwap_length]

theorem siftDown_closure (st : HelperState) (asc : Bool) (P : String → Prop) :
    ∀ (fuel : Nat) (l : List String) (i n : Nat), n ≤ l.length →
    (∀ x ∈ l, P x) → ∀ x ∈ siftDown st asc fuel l i n, P x := by
  intro fuel
  induction fuel with
  | zero => intro l i n _ h; exact h
  | succ fuel ih =>
    intro l i n hn h
    rw [siftDown]
    by_cases h1 : 2 * i + 1 ≥ n
    · rw [if_pos h1]
      exact h
    · rw [if_neg h1]
      dsimp only
      split
      · rename_i hcase
        split
        · exact h
        · apply ih (hSwap l i (2 * i + 1 + 1)) (2 * i + 1 + 1) n
            (by rw [hSwap_length]; omega)
          exact hSwap_closure P l i (2 * i + 1 + 1) (by omega)
            (by omega) h
      · split
        · exact h
        · apply ih (hSwap l i (2 * i + 1)) (2 * i + 1) n
            (by rw [hSwap_length]; omega)
          exact hSwap_closure P l i (2 * i + 1) (by omega) (by omega) h

theorem siftUp_closure (st : HelperState) (asc : Bool) (P : String → Prop) :
    ∀ (fuel : Nat) (l : List String) (j : Nat), j < l.length →
    (∀ x ∈ l, P x) → ∀ x ∈ siftUp st asc fuel l j, P x := by
  intro fuel
  induction fuel with
  | zero => intro l j _ h; exact h
  | succ fuel ih =>
    intro l j hj h
    rw [siftUp]
    split
    · exact h
    · apply ih _ ((j - 1) / 2) (by rw [hSwap_length]; omega)
      exact hSwap_closure P l ((j - 1) / 2) j (by omega) hj h

theorem heapInitGo_closure (st : HelperState) (asc : Bool) (P : String → Prop) :
    ∀ (k : Nat) (l : List String), (∀ x ∈ l, P x) →
    ∀ x ∈ heapInitGo st asc l k, P x := by
  intro k
  induction k with
  | zero => intro l h; exact h
  | succ k ih =>
    intro l h
    rw [heapInitGo]
    exact ih _ (siftDown_closure st asc P l.length l k l.length (le_refl _) h)

theorem heapInit_closure (st : HelperState) (asc : Bool) (P : String → Prop)
    (l : List String) (h : ∀ x ∈ l, P x) :
    ∀ x ∈ heapInit st asc l, P x :=
  heapInitGo_closure st asc P (l.length / 2) l h

theorem heapPush_closure (st : HelperState) (asc : Bool) (P : String → Prop)
    (l : List String) (v : String) (hv : P v) (h : ∀ x ∈ l, P x) :
    ∀ x ∈ heapPush st asc l v, P x := by
  apply siftUp_closure st asc P (l.length + 1) (l ++ [v]) l.length (by simp)
  intro x hx
  rcases List.mem_append.1 hx with h1 | h1
  · exact h x h1
  · rw [List.mem_singleton.1 h1]
    exact hv

theorem heapPop_lem (st : HelperState) (asc : Bool) (P : String → Prop)
    (l : List String) (hne : l ≠ []) (h : ∀ x ∈ l, P x) :
    P (heapPop st asc l).1 ∧ ∀ x ∈ (heapPop st asc l).2, P x := by
  have hlen : 0 < l.length := List.length_pos.2 hne
  have hcl : ∀ x ∈ siftDown st asc (l.length + 1)
      (hSwap l 0 (l.length - 1)) 0 (l.length - 1), P x := by
    apply siftDown_closure st asc P (l.length + 1) (hSwap l 0 (l.length - 1))
      0 (l.length - 1) (by rw [hSwap_length]; omega)
    exact hSwap_closure P l 0 (l.length - 1) hlen (by omega) h
  have hlen2 : (siftDown st asc (l.length + 1)
      (hSwap l 0 (l.length - 1)) 0 (l.length - 1)).length = l.length := by
    rw [siftDown_length, hSwap_length]
  constructor
  · rw [heapPop]
    dsimp only
    cases hgl : (siftDown st asc (l.length + 1)
        (hSwap l 0 (l.length - 1)) 0 (l.length - 1)).getLast? with
    | none =>
      rw [List.getLast?_eq_none_iff] at hgl
      rw [hgl] at hlen2
      simp at hlen2
      omega
    | some y =>
      have := hcl y (List.mem_of_mem_getLast? hgl)
      simpa [hgl] using this
  · rw [heapPop]
    dsimp only
    intro x hx
    exact hcl x ((List.dropLast_sublist _).subset hx)

/-! ### Working-set facts (for C7) -/

theorem mem_sids_addShard (l : List Shard) (s : Shard) (x : Nat)
    (hx : x ∈ (addShard l s).map Shard.sid) :
    x ∈ l.map Shard.sid ∨ x = s.sid := by
  induction l with
  | nil =>
    simp [addShard] at hx
    exact Or.inr hx
  | cons t ts ih =>
    rw [addShard] at hx
    by_cases h : t.sid = s.sid
    · rw [if_pos h] at hx
      simp at hx
      rcases hx with h1 | h1
      · exact Or.inr h1
      · exact Or.inl (by simp [h1])
    · rw [if_neg h] at hx
      simp at hx
      rcases hx with h1 | h1
      · exact Or.inl (by simp [h1])
      · rcases ih (by simpa using h1) with h2 | h2
        · exact Or.inl (by simp; right; simpa using h2)
        · exact Or.inr h2

theorem nodup_sids_addShard (l : List Shard) (s : Shard)
    (h : (l.map Shard.sid).Nodup) : ((addShard l s).map Shard.sid).Nodup := by
  induction l with
  | nil => simp [addShard]
  | cons t ts ih =>
    rw [addShard]
    by_cases ht : t.sid = s.sid
    · rw [if_pos ht]
      simp at h ⊢
      exact ⟨by rw [← ht]; exact h.1, h.2⟩
    · rw [if_neg ht]
      simp at h ⊢
      refine ⟨?_, ih h.2⟩
      intro y hy hsid
      rcases mem_sids_addShard ts s t.sid
          (List.mem_map.2 ⟨y, hy, hsid⟩) with h2 | h2
      · rcases List.mem_map.1 h2 with ⟨z, hz, hzz⟩
        exact h.1 z hz hzz
      · exact ht h2

theorem nodup_sids_getShardMapL (shards : List Shard) :
    ((getShardMapL shards).map Shard.sid).Nodup := by
  rw [getShardMapL]
  have hgo : ∀ (l : List Shard) (acc : List Shard),
      (acc.map Shard.sid).Nodup → ((l.foldl addShard acc).map Shard.sid).Nodup := by
    intro l
    induction l with
    | nil => intro acc h; exact h
    | cons s rest ih =>
      intro acc h
      rw [List.foldl_cons]
      exact ih _ (nodup_sids_addShard acc s h)
  exact hgo shards [] (by simp)

theorem returnInit_sublist (froId : String) (cands : List String) :
    ∀ (ws : List Shard) (st : HelperState),
    ((returnInitShards st froId cands ws).2).Sublist ws := by
  intro ws
  induction ws with
  | nil => intro st; simp [returnInitShards]
  | cons s rest ih =>
    intro st
    rw [returnInitShards]
    by_cases hc : s.state = Initializing ∧ s.sourceID ≠ "" ∧ s.sourceID ∈ cands
    · rw [if_pos hc]
      cases hlk : lookupInst st s.sourceID with
      | none => exact List.Sublist.cons₂ s (ih st)
      | some src =>
        dsimp only
        by_cases hlv : src.isLeavingB
        · rw [if_pos hlv]
          exact List.Sublist.cons₂ s (ih st)
        · rw [if_neg hlv]
          cases hmv : moveShard st s (some froId) s.sourceID with
          | mk st1 b =>
            cases b with
            | true => exact List.Sublist.cons s (ih st1)
            | false => exact List.Sublist.cons₂ s (ih st1)
    · rw [if_neg hc]
      exact List.Sublist.cons₂ s (ih st)

theorem returnInit_preserve (froId : String) (cands : List String) :
    ∀ (ws : List Shard) (st : HelperState) (c : String) (d : Nat)
      (x : Instance), (∀ r ∈ ws, r.sid ≠ d) → lookupInst st c = some x →
    ∃ x', lookupInst (returnInitShards st froId cands ws).1 c = some x' ∧
      ownsNonLeavingB x' d = ownsNonLeavingB x d := by
  intro ws
  induction ws with
  | nil => intro st c d x _ hx; exact ⟨x, hx, rfl⟩
  | cons s rest ih =>
    intro st c d x hsid hx
    have hsd : s.sid ≠ d := hsid s (List.mem_cons_self _ _)
    have hrest : ∀ r ∈ rest, r.sid ≠ d :=
      fun r hr => hsid r (List.mem_cons_of_mem _ hr)
    rw [returnInitShards]
    by_cases hc : s.state = Initializing ∧ s.sourceID ≠ "" ∧ s.sourceID ∈ cands
    · rw [if_pos hc]
      cases hlk : lookupInst st s.sourceID with
      | none => exact ih st c d x hrest hx
      | some src =>
        dsimp only
        by_cases hlv : src.isLeavingB
        · rw [if_pos hlv]
          exact ih st c d x hrest hx
        · rw [if_neg hlv]
          obtain ⟨x1, hx1, hown⟩ := moveShard_lookup_preserve st s
            (some froId) s.sourceID c d (fun h => hsd h.symm) x hx
          cases hmv : moveShard st s (some froId) s.sourceID with
          | mk st1 b =>
            rw [hmv] at hx1
            cases b with
            | true =>
              obtain ⟨x2, hx2, hown2⟩ := ih st1 c d x1 hrest hx1
              exact ⟨x2, hx2, hown2.trans hown⟩
            | false =>
              obtain ⟨x2, hx2, hown2⟩ := ih st1 c d x1 hrest hx1
              exact ⟨x2, hx2, hown2.trans hown⟩
    · rw [if_neg hc]
      exact ih st c d x hrest hx

theorem returnInit_spec (froId : String) (cands : List String) :
    ∀ (ws : List Shard) (st : HelperState),
    ((ws.map Shard.sid).Nodup) →
    ∀ s ∈ ws, s ∈ (returnInitShards st froId cands ws).2 ∨
      (s.state = Initializing ∧ s.sourceID ≠ "" ∧ s.sourceID ∈ cands ∧
        ∃ x', lookupInst (returnInitShards st froId cands ws).1 s.sourceID =
            some x' ∧ ownsNonLeavingB x' s.sid = true) := by
  intro ws
  induction ws with
  | nil => intro st _ s hs; cases hs
  | cons t rest ih =>
    intro st hnd s hs
    have hndr : (rest.map Shard.sid).Nodup := by
      simp only [List.map_cons, List.nodup_cons] at hnd
      exact hnd.2
    have htid : ∀ r ∈ rest, r.sid ≠ t.sid := by
      simp only [List.map_cons, List.nodup_cons, List.mem_map] at hnd
      intro r hr h
      exact hnd.1 ⟨r, hr, h⟩
    rw [returnInitShards]
    by_cases hc : t.state = Initializing ∧ t.sourceID ≠ "" ∧ t.sourceID ∈ cands
    · rw [if_pos hc]
      cases hlk : lookupInst st t.sourceID with
      | none =>
        rcases List.mem_cons.1 hs with rfl | hsr
        · left
          exact List.mem_cons_self _ _
        · rcases ih st hndr s hsr with h1 | h1
          · exact Or.inl (List.mem_cons_of_mem _ h1)
          · exact Or.inr h1
      | some src =>
        dsimp only
        by_cases hlv : src.isLeavingB
        · rw [if_pos hlv]
          rcases List.mem_cons.1 hs with rfl | hsr
          · left
            exact List.mem_cons_self _ _
          · rcases ih st hndr s hsr with h1 | h1
            · exact Or.inl (List.mem_cons_of_mem _ h1)
            · exact Or.inr h1
        · rw [if_neg hlv]
          cases hmv : moveShard st t (some froId) t.sourceID with
          | mk st1 b =>
            cases b with
            | true =>
              rcases List.mem_cons.1 hs with rfl | hsr
              · right
                refine ⟨hc.1, hc.2.1, hc.2.2, ?_⟩
                obtain ⟨x', hx', hown⟩ := moveShard_success_toOwner st s
                  (some froId) s.sourceID (by rw [hmv])
                rw [hmv] at hx'
                obtain ⟨x2, hx2, hown2⟩ := returnInit_preserve froId cands rest
                  st1 s.sourceID s.sid x' htid hx'
                exact ⟨x2, hx2, hown2.trans hown⟩
              · rcases ih st1 hndr s hsr with h1 | h1
                · exact Or.inl h1
                · exact Or.inr h1
            | false =>
              rcases List.mem_cons.1 hs with rfl | hsr
              · left
                exact List.mem_cons_self _ _
              · rcases ih st1 hndr s hsr with h1 | h1
                · exact Or.inl (List.mem_cons_of_mem _ h1)
                · exact Or.inr h1
    · rw [if_neg hc]
      rcases List.mem_cons.1 hs with rfl | hsr
      · left
        exact List.mem_cons_self _ _
      · rcases ih st hndr s hsr with h1 | h1
        · exact Or.inl (List.mem_cons_of_mem _ h1)
        · exact Or.inr h1

/-! ### The pop-until-placed loop (for C7) -/

theorem placeTry_preserve (froId : Option String) (s : Shard) :
    ∀ (fuel : Nat) (st : HelperState) (heap tried : List String)
      (c : String) (d : Nat) (x : Instance), d ≠ s.sid →
    lookupInst st c = some x →
    ∃ x', lookupInst (placeTry froId s fuel st heap tried).1 c = some x' ∧
      ownsNonLeavingB x' d = ownsNonLeavingB x d := by
  intro fuel
  induction fuel with
  | zero => intro st heap tried c d x _ hx; exact ⟨x, hx, rfl⟩
  | succ fuel ih =>
    intro st heap tried c d x hd hx
    rw [placeTry]
    by_cases hne : heap = []
    · rw [if_pos hne]
      exact ⟨x, hx, rfl⟩
    · rw [if_neg hne]
      dsimp only
      obtain ⟨x1, hx1, hown1⟩ := moveShard_lookup_preserve st s froId
        (heapPop st true heap).1 c d hd x hx
      cases hmv : moveShard st s froId (heapPop st true heap).1 with
      | mk st1 b =>
        rw [hmv] at hx1
        cases b with
        | true => exact ⟨x1, hx1, hown1⟩
        | false =>
          obtain ⟨x2, hx2, hown2⟩ := ih st1 (heapPop st true heap).2
            (tried ++ [(heapPop st true heap).1]) c d x1 hd hx1
          exact ⟨x2, hx2, hown2.trans hown1⟩

theorem placeTry_closure (froId : Option String) (s : Shard)
    (cands : List String) :
    ∀ (fuel : Nat) (st : HelperState) (heap tried : List String),
    (∀ id ∈ heap, id ∈ cands) → (∀ id ∈ tried, id ∈ cands) →
    (∀ id ∈ (placeTry froId s fuel st heap tried).2.1, id ∈ cands) ∧
    (∀ id ∈ (placeTry froId s fuel st heap tried).2.2.1, id ∈ cands) := by
  intro fuel
  induction fuel with
  | zero => intro st heap tried hh ht; exact ⟨hh, ht⟩
  | succ fuel ih =>
    intro st heap tried hh ht
    rw [placeTry]
    by_cases hne : heap = []
    · rw [if_pos hne]
      exact ⟨hh, ht⟩
    · rw [if_neg hne]
      dsimp only
      obtain ⟨hptP, hpcl⟩ := heapPop_lem st true (fun id => id ∈ cands)
        heap hne hh
      have htr : ∀ id ∈ tried ++ [(heapPop st true heap).1], id ∈ cands := by
        intro id hid
        rcases List.mem_append.1 hid with h1 | h1
        · exact ht id h1
        · rw [List.mem_singleton.1 h1]
          exact hptP
      cases hmv : moveShard st s froId (heapPop st true heap).1 with
      | mk st1 b =>
        cases b with
        | true => exact ⟨hpcl, htr⟩
        | false => exact ih st1 (heapPop st true heap).2 _ hpcl htr

theorem placeTry_success_owner (froId : Option String) (s : Shard)
    (cands : List String) :
    ∀ (fuel : Nat) (st : HelperState) (heap tried : List String),
    (∀ id ∈ heap, id ∈ cands) →
    (placeTry froId s fuel st heap tried).2.2.2 = true →
    ∃ c x', c ∈ cands ∧
      lookupInst (placeTry froId s fuel st heap tried).1 c = some x' ∧
      ownsNonLeavingB x' s.sid = true := by
  intro fuel
  induction fuel with
  | zero =>
    intro st heap tried _ hs
    cases hs
  | succ fuel ih =>
    intro st heap tried hh hs
    rw [placeTry] at hs ⊢
    by_cases hne : heap = []
    · rw [if_pos hne] at hs
      cases hs
    · rw [if_neg hne] at hs ⊢
      dsimp only at hs ⊢
      obtain ⟨hptP, hpcl⟩ := heapPop_lem st true (fun id => id ∈ cands)
        heap hne hh
      cases hmv : moveShard st s froId (heapPop st true heap).1 with
      | mk st1 b =>
        cases b with
        | true =>
          dsimp only
          obtain ⟨x', hx', hown⟩ := moveShard_success_toOwner st s froId
            (heapPop st true heap).1 (by rw [hmv])
          rw [hmv] at hx'
          exact ⟨(heapPop st true heap).1, x', hptP, hx', hown⟩
        | false =>
          rw [hmv] at hs
          dsimp only at hs ⊢
          exact ih st1 (heapPop st true heap).2 _ hpcl hs

theorem foldl_heapPush_closure (st : HelperState) (cands : List String) :
    ∀ (tried heap : List String), (∀ id ∈ heap, id ∈ cands) →
    (∀ id ∈ tried, id ∈ cands) →
    ∀ id ∈ tried.foldl (heapPush st true) heap, id ∈ cands := by
  intro tried
  induction tried with
  | nil => intro heap hh _; exact hh
  | cons t ts ih =>
    intro heap hh ht
    rw [List.foldl_cons]
    exact ih (heapPush st true heap t)
      (heapPush_closure st true (fun id => id ∈ cands) heap t
        (ht t (List.mem_cons_self _ _))
        hh)
      (fun id hid => ht id (List.mem_cons_of_mem _ hid))

theorem placeLoop_err (froId : Option String) :
    ∀ (ws : List Shard) (st : HelperState) (heap : List String),
    (placeLoop froId st ws heap).2 = none ∨
      (placeLoop froId st ws heap).2 = some "not enough racks" := by
  intro ws
  induction ws with
  | nil => intro st heap; exact Or.inl rfl
  | cons s rest ih =>
    intro st heap
    rw [placeLoop]
    by_cases hLv : s.state = Leaving
    · rw [if_pos hLv]
      exact ih st heap
    · rw [if_neg hLv]
      cases hpt : placeTry froId s (heap.length + 1) st heap [] with
      | mk st1 r1 =>
        cases r1 with
        | mk heap2 r2 =>
          cases r2 with
          | mk tried b =>
            cases b with
            | true => exact ih st1 _
            | false => exact Or.inr rfl

theorem placeLoop_preserve (froId : Option String) :
    ∀ (ws : List Shard) (st : HelperState) (heap : List String)
      (c : String) (d : Nat) (x : Instance),
    (∀ r ∈ ws, r.sid ≠ d) → lookupInst st c = some x →
    ∃ x', lookupInst (placeLoop froId st ws heap).1 c = some x' ∧
      ownsNonLeavingB x' d = ownsNonLeavingB x d := by
  intro ws
  induction ws with
  | nil => intro st heap c d x _ hx; exact ⟨x, hx, rfl⟩
  | cons s rest ih =>
    intro st heap c d x hsid hx
    have hd : d ≠ s.sid := fun h => hsid s (List.mem_cons_self _ _) h.symm
    have hrest : ∀ r ∈ rest, r.sid ≠ d :=
      fun r hr => hsid r (List.mem_cons_of_mem _ hr)
    rw [placeLoop]
    by_cases hLv : s.state = Leaving
    · rw [if_pos hLv]
      exact ih st heap c d x hrest hx
    · rw [if_neg hLv]
      obtain ⟨x1, hx1, hown1⟩ := placeTry_preserve froId s
        (heap.length + 1) st heap [] c d x hd hx
      cases hpt : placeTry froId s (heap.length + 1) st heap [] with
      | mk st1 r1 =>
        cases r1 with
        | mk heap2 r2 =>
          cases r2 with
          | mk tried b =>
            rw [hpt] at hx1
            cases b with
            | true =>
              obtain ⟨x2, hx2, hown2⟩ := ih st1 _ c d x1 hrest hx1
              exact ⟨x2, hx2, hown2.trans hown1⟩
            | false => exact ⟨x1, hx1, hown1⟩

theorem placeLoop_success (froId : Option String) (cands : List String) :
    ∀ (ws : List Shard) (st : HelperState) (heap : List String),
    (∀ id ∈ heap, id ∈ cands) → ((ws.map Shard.sid).Nodup) →
    (placeLoop froId st ws heap).2 = none →
    ∀ s ∈ ws, s.state ≠ Leaving →
    ∃ c x', c ∈ cands ∧
      lookupInst (placeLoop froId st ws heap).1 c = some x' ∧
      ownsNonLeavingB x' s.sid = true := by
  intro ws
  induction ws with
  | nil => intro st heap _ _ _ s hs; cases hs
  | cons t rest ih =>
    intro st heap hh hnd hnone s hs hsl
    have hndr : (rest.map Shard.sid).Nodup := by
      simp only [List.map_cons, List.nodup_cons] at hnd
      exact hnd.2
    have htid : ∀ r ∈ rest, r.sid ≠ t.sid := by
      simp only [List.map_cons, List.nodup_cons, List.mem_map] at hnd
      intro r hr h
      exact hnd.1 ⟨r, hr, h⟩
    rw [placeLoop] at hnone ⊢
    by_cases hLv : t.state = Leaving
    · rw [if_pos hLv] at hnone ⊢
      rcases List.mem_cons.1 hs with heq | hsr
      · rw [heq] at hsl
        exact absurd hLv hsl
      · exact ih st heap hh hndr hnone s hsr hsl
    · rw [if_neg hLv] at hnone ⊢
      cases hpt : placeTry froId t (heap.length + 1) st heap [] with
      | mk st1 r1 =>
        cases r1 with
        | mk heap2 r2 =>
          cases r2 with
          | mk tried b =>
            rw [hpt] at hnone
            cases b with
            | false => cases hnone
            | true =>
              obtain ⟨hhp, htr⟩ := placeTry_closure froId t cands
                (heap.length + 1) st heap [] hh (fun id hid => by cases hid)
              rw [hpt] at hhp htr
              have hnewheap : ∀ id ∈ tried.foldl (heapPush st1 true) heap2,
                  id ∈ cands :=
                foldl_heapPush_closure st1 cands tried heap2 hhp htr
              rcases List.mem_cons.1 hs with heq | hsr
              · obtain ⟨c, x', hc, hx', hown⟩ := placeTry_success_owner froId
                  t cands (heap.length + 1) st heap [] hh (by rw [hpt])
                rw [hpt] at hx'
                obtain ⟨x2, hx2, hown2⟩ := placeLoop_preserve froId rest st1
                  (tried.foldl (heapPush st1 true) heap2) c t.sid x' htid hx'
                rw [heq]
                exact ⟨c, x2, hc, hx2, hown2.trans hown⟩
              · exact ih st1 _ hnewheap hndr hnone s hsr hsl

theorem heapPop_len (st : HelperState) (asc : Bool) (l : List String) :
    (heapPop st asc l).2.length = l.length - 1 := by
  rw [heapPop]
  dsimp only
  rw [List.length_dropLast, siftDown_length, hSwap_length]

theorem placeTry_false_facts (froId : Option String) (s : Shard) :
    ∀ (fuel : Nat) (st : HelperState) (heap tried : List String),
    heap.length < fuel →
    (placeTry froId s fuel st heap tried).2.2.2 = false →
    (placeTry froId s fuel st heap tried).1 = st ∧
    (placeTry froId s fuel st heap tried).2.1 = [] ∧
    ∀ tid ∈ (placeTry froId s fuel st heap tried).2.2.1,
      tid ∈ tried ∨ (moveShard st s froId tid).2 = false := by
  intro fuel
  induction fuel with
  | zero =>
    intro st heap tried hlt _
    exact absurd hlt (Nat.not_lt_zero _)
  | succ fuel ih =>
    intro st heap tried hlt hfalse
    rw [placeTry] at hfalse ⊢
    by_cases hne : heap = []
    · rw [if_pos hne] at hfalse ⊢
      exact ⟨rfl, hne, fun tid htid => Or.inl htid⟩
    · rw [if_neg hne] at hfalse ⊢
      dsimp only at hfalse ⊢
      cases hmv : moveShard st s froId (heapPop st true heap).1 with
      | mk st1 b =>
        rw [hmv] at hfalse
        cases b with
        | true =>
          dsimp only at hfalse
          cases hfalse
        | false =>
          dsimp only at hfalse ⊢
          have hst : st1 = st := by
            rcases moveShard_cases st s froId (heapPop st true heap).1
              with h2 | hfail
            · rw [hmv] at h2
              cases h2
            · rw [hmv] at hfail
              exact congrArg Prod.fst hfail
          subst hst
          have hlen : (heapPop st1 true heap).2.length < fuel := by
            rw [heapPop_len]
            have := List.length_pos.2 hne
            omega
          obtain ⟨ha, hb, hc⟩ := ih st1 (heapPop st1 true heap).2
            (tried ++ [(heapPop st1 true heap).1]) hlen hfalse
          refine ⟨ha, hb, fun tid htid => ?_⟩
          rcases hc tid htid with h1 | h1
          · rcases List.mem_append.1 h1 with h2 | h2
            · exact Or.inl h2
            · rw [List.mem_singleton.1 h2]
              right
              rw [hmv]
          · exact Or.inr h1

theorem placeLoopT_state (froId : Option String) :
    ∀ (ws : List Shard) (st : HelperState) (heap : List String),
    (placeLoopT froId st ws heap).1 = (placeLoop froId st ws heap).1 := by
  intro ws
  induction ws with
  | nil => intro st heap; rfl
  | cons s rest ih =>
    intro st heap
    rw [placeLoopT, placeLoop]
    by_cases hLv : s.state = Leaving
    · rw [if_pos hLv, if_pos hLv]
      exact ih st heap
    · rw [if_neg hLv, if_neg hLv]
      cases hpt : placeTry froId s (heap.length + 1) st heap [] with
      | mk st1 r1 =>
        cases r1 with
        | mk heap2 r2 =>
          cases r2 with
          | mk tried b =>
            cases b with
            | true => exact ih st1 _
            | false => rfl

theorem placeLoopT_none_iff (froId : Option String) :
    ∀ (ws : List Shard) (st : HelperState) (heap : List String),
    (placeLoop froId st ws heap).2 = none ↔
      (placeLoopT froId st ws heap).2 = none := by
  intro ws
  induction ws with
  | nil =>
    intro st heap
    rw [placeLoop, placeLoopT]
    exact ⟨fun _ => rfl, fun _ => rfl⟩
  | cons s rest ih =>
    intro st heap
    rw [placeLoopT, placeLoop]
    by_cases hLv : s.state = Leaving
    · rw [if_pos hLv, if_pos hLv]
      exact ih st heap
    · rw [if_neg hLv, if_neg hLv]
      cases hpt : placeTry froId s (heap.length + 1) st heap [] with
      | mk st1 r1 =>
        cases r1 with
        | mk heap2 r2 =>
          cases r2 with
          | mk tried b =>
            cases b with
            | true => exact ih st1 _
            | false => simp

theorem placeLoopT_fail_sound (froId : Option String) :
    ∀ (ws : List Shard) (st : HelperState) (heap : List String)
      (stf : HelperState) (heapf : List String) (sf : Shard),
    (placeLoopT froId st ws heap).2 = some (stf, heapf, sf) →
    sf ∈ ws ∧ sf.state ≠ Leaving ∧
    (placeTry froId sf (heapf.length + 1) stf heapf []).2.2.2 = false := by
  intro ws
  induction ws with
  | nil =>
    intro st heap stf heapf sf h
    cases h
  | cons s rest ih =>
    intro st heap stf heapf sf h
    rw [placeLoopT] at h
    by_cases hLv : s.state = Leaving
    · rw [if_pos hLv] at h
      obtain ⟨hm, hs, hf⟩ := ih st heap stf heapf sf h
      exact ⟨List.mem_cons_of_mem _ hm, hs, hf⟩
    · rw [if_neg hLv] at h
      cases hpt : placeTry froId s (heap.length + 1) st heap [] with
      | mk st1 r1 =>
        cases r1 with
        | mk heap2 r2 =>
          cases r2 with
          | mk tried b =>
            rw [hpt] at h
            cases b with
            | true =>
              dsimp only at h
              obtain ⟨hm, hs, hf⟩ := ih st1 _ stf heapf sf h
              exact ⟨List.mem_cons_of_mem _ hm, hs, hf⟩
            | false =>
              dsimp only at h
              have hinj := Option.some.inj h
              have h1 : st = stf := congrArg (fun p => p.1) hinj
              have h2 : heap = heapf :=
                congrArg (fun p : HelperState × List String × Shard => p.2.1)
                  hinj
              have h3 : s = sf :=
                congrArg (fun p : HelperState × List String × Shard => p.2.2)
                  hinj
              subst h1
              subst h2
              subst h3
              refine ⟨List.mem_cons_self _ _, hLv, ?_⟩
              rw [hpt]

/-- C7: the full PlaceShards contract.  (1) With a non-nil `from`, the
source-return phase leaves a sub-list of the working set, and every
working-set shard is either still there or was an Initializing shard
with a non-empty sourceID naming a candidate, returned to that source,
which now owns it non-Leaving.  (2) The only error is "not enough
racks", returned if and only if the instrumented run records a failing
shard; every recorded failure is a remaining non-Leaving shard whose
pop-until-placed pass leaves the state unchanged, empties the heap, and
has `moveShard` reject every popped candidate — and the instrumented run
ends in the same state.  (3) On success every non-Leaving shard of the
deduplicated input is owned, non-Leaving, by an instance with a
candidate id. -/
theorem placeShards_spec (st : HelperState) (shards : List Shard)
    (froId : Option String) (cands : List String) :
    (∀ f, froId = some f →
      ((returnInitShards st f cands (getShardMapL shards)).2).Sublist
          (getShardMapL shards) ∧
      ∀ s ∈ getShardMapL shards,
        s ∈ (returnInitShards st f cands (getShardMapL shards)).2 ∨
        (s.state = Initializing ∧ s.sourceID ≠ "" ∧ s.sourceID ∈ cands ∧
          ∃ x', lookupInst (returnInitShards st f cands
              (getShardMapL shards)).1 s.sourceID = some x' ∧
            ownsNonLeavingB x' s.sid = true)) ∧
    ((placeShards st shards froId cands).2 = none ∨
      (placeShards st shards froId cands).2 = some "not enough racks") ∧
    ((placeShards st shards froId cands).2 = some "not enough racks" ↔
      (placeShardsT st shards froId cands).2 ≠ none) ∧
    ((placeShardsT st shards froId cands).1 =
      (placeShards st shards froId cands).1) ∧
    (∀ stf heapf sf,
      (placeShardsT st shards froId cands).2 = some (stf, heapf, sf) →
      sf ∈ getShardMapL shards ∧ sf.state ≠ Leaving ∧
      (placeTry froId sf (heapf.length + 1) stf heapf []).1 = stf ∧
      (placeTry froId sf (heapf.length + 1) stf heapf []).2.1 = [] ∧
      (placeTry froId sf (heapf.length + 1) stf heapf []).2.2.2 = false ∧
      ∀ tid ∈ (placeTry froId sf (heapf.length + 1) stf heapf []).2.2.1,
        (moveShard stf sf froId tid).2 = false) ∧
    ((placeShards st shards froId cands).2 = none →
      ∀ s ∈ getShardMapL shards, s.state ≠ Leaving →
        ∃ c x', c ∈ cands ∧
          lookupInst (placeShards st shards froId cands).1 c = some x' ∧
          ownsNonLeavingB x' s.sid = true) := by
  have hnd0 := nodup_sids_getShardMapL shards
  -- the shared working set / state of phase one
  have hAll : ∀ (st1 : HelperState) (ws : List Shard),
      (placeShards st shards froId cands =
        placeLoop froId st1 ws
          (heapInit st1 true (nonLeavingIds st1 cands))) →
      (placeShardsT st shards froId cands =
        placeLoopT froId st1 ws
          (heapInit st1 true (nonLeavingIds st1 cands))) →
      ws.Sublist (getShardMapL shards) →
      ((placeShards st shards froId cands).2 = none ∨
        (placeShards st shards froId cands).2 = some "not enough racks") ∧
      ((placeShards st shards froId cands).2 = some "not enough racks" ↔
        (placeShardsT st shards froId cands).2 ≠ none) ∧
      ((placeShardsT st shards froId cands).1 =
        (placeShards st shards froId cands).1) ∧
      (∀ stf heapf sf,
        (placeShardsT st shards froId cands).2 = some (stf, heapf, sf) →
        sf ∈ getShardMapL shards ∧ sf.state ≠ Leaving ∧
        (placeTry froId sf (heapf.length + 1) stf heapf []).1 = stf ∧
        (placeTry froId sf (heapf.length + 1) stf heapf []).2.1 = [] ∧
        (placeTry froId sf (heapf.length + 1) stf heapf []).2.2.2 = false ∧
        ∀ tid ∈ (placeTry froId sf (heapf.length + 1) stf heapf []).2.2.1,
          (moveShard stf sf froId tid).2 = false) := by
    intro st1 ws hP hT hsub
    rw [hP, hT]
    set heap0 := heapInit st1 true (nonLeavingIds st1 cands) with hheap0
    refine ⟨placeLoop_err froId ws st1 heap0, ?_, ?_, ?_⟩
    · constructor
      · intro herr hnone
        rw [← placeLoopT_none_iff froId ws st1 heap0] at hnone
        rw [hnone] at herr
        cases herr
      · intro hne
        rcases placeLoop_err froId ws st1 heap0 with h1 | h1
        · rw [placeLoopT_none_iff froId ws st1 heap0] at h1
          exact absurd h1 hne
        · exact h1
    · exact placeLoopT_state froId ws st1 heap0
    · intro stf heapf sf hrec
      obtain ⟨hmem, hLv, hfail⟩ :=
        placeLoopT_fail_sound froId ws st1 heap0 stf heapf sf hrec
      obtain ⟨ha, hb, hc⟩ := placeTry_false_facts froId sf
        (heapf.length + 1) stf heapf [] (by omega) hfail
      refine ⟨hsub.subset hmem, hLv, ha, hb, hfail, fun tid htid => ?_⟩
      rcases hc tid htid with h1 | h1
      · cases h1
      · exact h1
  cases froId with
  | none =>
    have hP : placeShards st shards none cands =
        placeLoop none st (getShardMapL shards)
          (heapInit st true (nonLeavingIds st cands)) := rfl
    have hT : placeShardsT st shards none cands =
        placeLoopT none st (getShardMapL shards)
          (heapInit st true (nonLeavingIds st cands)) := rfl
    have hheap : ∀ id ∈ heapInit st true (nonLeavingIds st cands),
        id ∈ cands := by
      apply heapInit_closure
      intro id hid
      exact (List.mem_filter.1 hid).1
    have h4 := hAll st (getShardMapL shards) hP hT (List.Sublist.refl _)
    refine ⟨?_, h4.1, h4.2.1, h4.2.2.1, h4.2.2.2, ?_⟩
    · intro f hf
      cases hf
    intro hnone s hs hsl
    rw [hP] at hnone ⊢
    exact placeLoop_success none cands (getShardMapL shards) st _ hheap hnd0
      hnone s hs hsl
  | some f =>
    have hP : placeShards st shards (some f) cands =
        placeLoop (some f) (returnInitShards st f cands
            (getShardMapL shards)).1
          (returnInitShards st f cands (getShardMapL shards)).2
          (heapInit (returnInitShards st f cands (getShardMapL shards)).1
            true (nonLeavingIds (returnInitShards st f cands
              (getShardMapL shards)).1 cands)) := rfl
    have hT : placeShardsT st shards (some f) cands =
        placeLoopT (some f) (returnInitShards st f cands
            (getShardMapL shards)).1
          (returnInitShards st f cands (getShardMapL shards)).2
          (heapInit (returnInitShards st f cands (getShardMapL shards)).1
            true (nonLeavingIds (returnInitShards st f cands
              (getShardMapL shards)).1 cands)) := rfl
    set st1 := (returnInitShards st f cands (getShardMapL shards)).1
      with hst1
    set ws := (returnInitShards st f cands (getShardMapL shards)).2
      with hws
    have hsub : ws.Sublist (getShardMapL shards) :=
      returnInit_sublist f cands (getShardMapL shards) st
    have hndw : (ws.map Shard.sid).Nodup := hnd0.sublist (hsub.map Shard.sid)
    have hheap : ∀ id ∈ heapInit st1 true (nonLeavingIds st1 cands),
        id ∈ cands := by
      apply heapInit_closure
      intro id hid
      exact (List.mem_filter.1 hid).1
    have h4 := hAll st1 ws hP hT hsub
    refine ⟨?_, h4.1, h4.2.1, h4.2.2.1, h4.2.2.2, ?_⟩
    · intro f0 hf0
      have hff : f0 = f := (Option.some.inj hf0).symm
      subst hff
      exact ⟨hsub, returnInit_spec f0 cands (getShardMapL shards) st hnd0⟩
    · intro hnone s hs hsl
      rw [hP] at hnone ⊢
      by_cases hmem : s ∈ ws
      · exact placeLoop_success (some f) cands ws st1 _ hheap hndw hnone s
          hmem hsl
      · rcases returnInit_spec f cands (getShardMapL shards) st hnd0 s hs
          with h1 | ⟨hInit, hne0, hsrc, x', hx', hown⟩
        · exact absurd h1 hmem
        · have hdiff : ∀ r ∈ ws, r.sid ≠ s.sid := by
            intro r hr h
            exact hmem
              (List.inj_on_of_nodup_map hnd0 (hsub.subset hr) hs h ▸ hr)
          obtain ⟨x2, hx2, hown2⟩ := placeLoop_preserve (some f) ws st1
            (heapInit st1 true (nonLeavingIds st1 cands)) s.sourceID s.sid
            x' hdiff hx'
          exact ⟨s.sourceID, x2, hsrc, hx2, hown2.trans hown⟩

/-- Witness for C7: a successful concrete run — placing the fresh shard
`sh7` among the two candidates of `stP7` returns nil and some candidate
owns it. -/
theorem placeShards_spec_witness :
    ∃ c x', c ∈ ["p", "q"] ∧
      lookupInst (placeShards stP7 [sh7] none ["p", "q"]).1 c = some x' ∧
      ownsNonLeavingB x' sh7.sid = true :=
  (placeShards_spec stP7 [sh7] none ["p", "q"]).2.2.2.2.2 (by decide) sh7
    (by decide) (by decide)

set_option maxHeartbeats 2000000 in
/-- C8 counterexample: on `stOsc` the two shards oscillate between b
and c: the first run hands shard 5 to b and shard 7 to c; in the second
run c, still one short of its target of 2, steals shard 5 again, b
steals shard 7 back, and the repeated-pick guard cuts the cycle with the
two shards swapped — in both the safe and the unsafe mode the second run
moves shards and the placements differ. -/
theorem optimize_not_idempotent_cex :
    (optimizeState (optimizeState stOsc OptimizeType.fullMode)
        OptimizeType.fullMode).instances ≠
      (optimizeState stOsc OptimizeType.fullMode).instances ∧
    (optimizeState (optimizeState stOsc OptimizeType.safeMode)
        OptimizeType.safeMode).instances ≠
      (optimizeState stOsc OptimizeType.safeMode).instances := by
  have h1 : optimizeState stOsc OptimizeType.fullMode = oscRun1 := by rfl
  have h2 : optimizeState oscRun1 OptimizeType.fullMode = oscRun2 := by rfl
  have h3 : optimizeState stOsc OptimizeType.safeMode = oscRun1 := by rfl
  have h4 : optimizeState oscRun1 OptimizeType.safeMode = oscRun2 := by rfl
  constructor
  · rw [h1, h2]
    decide
  · rw [h3, h4]
    decide

/-- C8: corrected.  Optimize is idempotent only when the first run
terminates because no instance is below its target load
(`mostUnderLoadedInstance` returns nothing); then a second run in the
same mode exits immediately and the placement is unchanged.  When the
first run instead terminates through the repeated-pick guard
(an already-served instance is picked again), a second run can move
shards, as the counterexample shows. -/
theorem optimize_idempotent_when_settled (st : HelperState)
    (t : OptimizeType)
    (h : mostUnderLoadedInstance (optimizeState st t) = none) :
    optimizeState (optimizeState st t) t = optimizeState st t := by
  conv =>
    lhs
    rw [optimizeState, optimizeLoop, h]

/-- Witness for C8 at `stTiny` (no target load, so nothing is ever
under target). -/
theorem optimize_idempotent_when_settled_witness :
    optimizeState (optimizeState stTiny OptimizeType.fullMode)
      OptimizeType.fullMode = optimizeState stTiny OptimizeType.fullMode :=
  optimize_idempotent_when_settled stTiny OptimizeType.fullMode (by decide)

end M3
